import Mathlib

/-!
# ElementIdSetCollection

A shallow embedding of `source/graph/elementidsetcollection.h`: the dense,
id-indexed array of `{_prev, _next, _opposite}` entries that links element ids
into doubly-linked "multi-element" groups, with its operations `add`, `remove`,
`typeOf` and the forward iteration of `setById`.

The vector of entries is a `List`; every statement of the C++ code that reads or
writes through a reference into the vector is a read or write of the list at
that index, executed in the order of the source, so aliasing references behave as
in the source.  An index outside the vector and a failed `Q_ASSERT` are faults.
-/

namespace Graphia

/-- Modelled from the spec: ElementId (`elementid.h` is not among the sources) is a
nullable integer handle; `none` is the null sentinel, `some i` the id of value `i`. -/
abbrev ElementId := Option Nat

/-- Modelled from the spec: the `isNull` member of ElementId (`elementid.h` is not among
the sources): whether the id is the null sentinel. -/
def idIsNull (x : ElementId) : Bool := x.isNone

/-- Modelled from the spec: the ordering of ElementId used by `std::minmax`: by
underlying value for non-null ids, the null sentinel being the largest value.  `add`
only ever compares two null ids or two non-null ids. -/
def idLt : ElementId → ElementId → Bool
  | some a, some b => decide (a < b)
  | some _, none => true
  | none, _ => false

/-- The pair `std::minmax(a, b)`: `(b, a)` when `b < a`, otherwise `(a, b)`. -/
def minmax (a b : ElementId) : ElementId × ElementId :=
  if idLt b a then (b, a) else (a, b)

/-- The struct `MultiElementId`. -/
structure MultiElementId where
  _prev : ElementId
  _next : ElementId
  _opposite : ElementId
  deriving DecidableEq, Repr

namespace MultiElementId

/-- A default-constructed entry: all three ids null. -/
def null : MultiElementId := ⟨none, none, none⟩

def isNull (m : MultiElementId) : Bool := idIsNull m._next

def isTail (m : MultiElementId) (elementId : ElementId) : Bool :=
  decide (m._next = elementId)

def isHead (m : MultiElementId) (elementId : ElementId) : Bool :=
  !idIsNull m._opposite && (!m.isTail elementId || decide (m._opposite = elementId))

def isSingleton (m : MultiElementId) (elementId : ElementId) : Bool :=
  m.isHead elementId && m.isTail elementId

def setToNull (_m : MultiElementId) : MultiElementId := ⟨none, none, none⟩

def setToSingleton (_m : MultiElementId) (elementId : ElementId) : MultiElementId :=
  ⟨elementId, elementId, elementId⟩

def hasNext (m : MultiElementId) (elementId : ElementId) : Bool :=
  !idIsNull m._next && !m.isTail elementId

end MultiElementId

/-- The ways a call can go wrong: an index outside `_multiElementIds`, a failed
`Q_ASSERT`, and (for the iteration only) an exhausted step budget. -/
inductive Fault where
  | outOfRange
  | assertion
  | outOfFuel
  deriving DecidableEq, Repr

/-- The member `_multiElementIds`. -/
abbrev Coll := List MultiElementId

/-- The collection after `resize(size)` on a fresh object: `size` default entries. -/
def resize (size : Nat) : Coll := List.replicate size MultiElementId.null

/-- The entry read through `_multiElementIds[i]` for an index already checked. -/
def ent (c : Coll) (i : Nat) : MultiElementId := c.getD i MultiElementId.null

/-- Forming `_multiElementIds[id]`: the position of `id`, a fault outside the vector. -/
def index (c : Coll) (id : ElementId) : Except Fault Nat :=
  match id with
  | some i => if i < c.length then .ok i else .error .outOfRange
  | none => .error .outOfRange

/-- Statement `Q_ASSERT(b)`. -/
def qAssert (b : Bool) : Except Fault Unit :=
  if b then .ok () else .error .assertion

def setPrev (c : Coll) (i : Nat) (v : ElementId) : Coll :=
  c.set i { ent c i with _prev := v }

def setNext (c : Coll) (i : Nat) (v : ElementId) : Coll :=
  c.set i { ent c i with _next := v }

def setOpposite (c : Coll) (i : Nat) (v : ElementId) : Coll :=
  c.set i { ent c i with _opposite := v }

/-- The statements `if(m.isSingleton(id)) m.setToNull();` of `add` (lines 64-68). -/
def resetSingleton (c : Coll) (id : ElementId) (i : Nat) : Coll :=
  if (ent c i).isSingleton id then c.set i (ent c i).setToNull else c

/-- Branch "Neither is yet merged with anything" of `add` (lines 72-78). -/
def addFresh (c : Coll) (lowId highId : ElementId) (lo hi : Nat) : Coll :=
  let c := setNext c lo highId
  let c := setOpposite c lo highId
  let c := setPrev c hi lowId
  let c := setNext c hi highId
  let c := setOpposite c hi lowId
  c

/-- Branch "Adding to the head" of `add` (lines 82-95). -/
def addToHead (c : Coll) (lowId highId : ElementId) (lo hi : Nat) : Except Fault Coll := do
  qAssert (!idIsNull (ent c hi)._opposite)
  qAssert (ent c lo).isNull
  qAssert (idIsNull (ent c lo)._prev)
  qAssert (idIsNull (ent c lo)._opposite)
  let tail ← index c (ent c hi)._opposite
  let c := setOpposite c tail lowId
  let c := setNext c lo highId
  let c := setOpposite c lo (ent c hi)._opposite
  let c := setPrev c hi lowId
  let c := setOpposite c hi none
  pure c

/-- Branch "Adding to the tail" of `add` (lines 99-113). -/
def addToTail (c : Coll) (lowId highId : ElementId) (lo hi : Nat) : Except Fault Coll := do
  qAssert (!idIsNull (ent c lo)._opposite)
  qAssert (ent c hi).isNull
  qAssert (idIsNull (ent c hi)._prev)
  qAssert (idIsNull (ent c hi)._opposite)
  let head ← index c (ent c lo)._opposite
  let c := setOpposite c head highId
  let c := setPrev c hi lowId
  let c := setNext c hi highId
  let c := setOpposite c hi (ent c lo)._opposite
  let c := setNext c lo highId
  let c := setOpposite c lo none
  pure c

/-- Branch "Adding in the middle", low entry linked (lines 120-128). -/
def addAfterLow (c : Coll) (lowId highId : ElementId) (lo hi : Nat) : Except Fault Coll := do
  qAssert (ent c hi).isNull
  qAssert (!idIsNull (ent c lo)._next)
  let next ← index c (ent c lo)._next
  let c := setPrev c hi lowId
  let c := setNext c hi (ent c lo)._next
  let c := setNext c lo highId
  let c := setPrev c next highId
  pure c

/-- Branch "Adding in the middle", high entry linked (lines 132-140). -/
def addBeforeHigh (c : Coll) (lowId highId : ElementId) (lo hi : Nat) : Except Fault Coll := do
  qAssert (ent c lo).isNull
  qAssert (!idIsNull (ent c hi)._prev)
  let prev ← index c (ent c hi)._prev
  let c := setPrev c lo (ent c hi)._prev
  let c := setNext c lo highId
  let c := setPrev c hi lowId
  let c := setNext c prev lowId
  pure c

/-- The if-chain of `add` (lines 70-142), entered after the singleton resets. -/
def addBranches (c : Coll) (lowId highId : ElementId) (lo hi : Nat) : Except Fault Coll :=
  if (ent c lo).isNull && (ent c hi).isNull then
    pure (addFresh c lowId highId lo hi)
  else if (ent c hi).isHead highId then
    addToHead c lowId highId lo hi
  else if (ent c lo).isTail lowId then
    addToTail c lowId highId lo hi
  else if !(ent c lo).isNull then
    addAfterLow c lowId highId lo hi
  else if !(ent c hi).isNull then
    addBeforeHigh c lowId highId lo hi
  else
    pure c

/-- The member function `add`: the new vector and the returned SetId. -/
def add (c : Coll) (setId elementId : ElementId) : Except Fault (Coll × ElementId) := do
  qAssert (!idIsNull elementId)
  let elementId := if idIsNull setId then setId else elementId
  let lowId := (minmax setId elementId).1
  let highId := (minmax setId elementId).2
  let lo ← index c lowId
  let hi ← index c highId
  let c := resetSingleton c lowId lo
  let c := resetSingleton c highId hi
  let c ← addBranches c lowId highId lo hi
  pure (c, lowId)

/-- Branch "The tail is the only other element" of `remove` (lines 158-160, 204). -/
def removeLeavingTail (c : Coll) (i : Nat) : Except Fault Coll := do
  let tail ← index c (ent c i)._next
  let c := c.set tail ((ent c tail).setToSingleton (ent c i)._next)
  pure (c.set i (ent c i).setToNull)

/-- Branch "The head is the only other element" of `remove` (lines 164-166, 204). -/
def removeLeavingHead (c : Coll) (i : Nat) : Except Fault Coll := do
  let head ← index c (ent c i)._prev
  let c := c.set head ((ent c head).setToSingleton (ent c i)._prev)
  pure (c.set i (ent c i).setToNull)

/-- Branch "Removing from the head" of `remove` (lines 170-178, 204). -/
def removeHead (c : Coll) (i : Nat) : Except Fault Coll := do
  qAssert (!idIsNull (ent c i)._next)
  qAssert (!idIsNull (ent c i)._opposite)
  let newHead ← index c (ent c i)._next
  let tail ← index c (ent c i)._opposite
  let c := setOpposite c newHead (ent c i)._opposite
  let c := setPrev c newHead none
  let c := setOpposite c tail (ent c i)._next
  pure (c.set i (ent c i).setToNull)

/-- Branch "Removing from the tail" of `remove` (lines 182-190, 204). -/
def removeTail (c : Coll) (i : Nat) : Except Fault Coll := do
  qAssert (!idIsNull (ent c i)._opposite)
  qAssert (!idIsNull (ent c i)._prev)
  let head ← index c (ent c i)._opposite
  let newTail ← index c (ent c i)._prev
  let c := setOpposite c head (ent c i)._prev
  let c := setNext c newTail (ent c i)._prev
  let c := setOpposite c newTail (ent c i)._opposite
  pure (c.set i (ent c i).setToNull)

/-- Branch "Removing from the middle" of `remove` (lines 194-201, 204). -/
def removeMiddle (c : Coll) (i : Nat) : Except Fault Coll := do
  qAssert (!idIsNull (ent c i)._prev)
  qAssert (!idIsNull (ent c i)._next)
  let prev ← index c (ent c i)._prev
  let next ← index c (ent c i)._next
  let c := setNext c prev (ent c i)._next
  let c := setPrev c next (ent c i)._prev
  pure (c.set i (ent c i).setToNull)

/-- The member function `remove`. -/
def remove (c : Coll) (elementId : ElementId) : Except Fault Coll := do
  qAssert (!idIsNull elementId)
  let i ← index c elementId
  -- Can't remove it if it isn't a multielement
  if (ent c i).isNull then
    pure c
  else if (ent c i)._next = (ent c i)._opposite then
    removeLeavingTail c i
  else if (ent c i)._prev = (ent c i)._opposite then
    removeLeavingHead c i
  else if (ent c i).isHead elementId then
    removeHead c i
  else if (ent c i).isTail elementId then
    removeTail c i
  else
    removeMiddle c i

/-- The enum `Type` of the collection. -/
inductive IdType where
  | Not
  | Head
  | Tail
  deriving DecidableEq, Repr

/-- The member function `typeOf`. -/
def typeOf (c : Coll) (elementId : ElementId) : Except Fault IdType := do
  qAssert (!idIsNull elementId)
  let i ← index c elementId
  if !(ent c i).isNull && !(ent c i).isSingleton elementId then
    if (ent c i).isHead elementId then pure IdType.Head else pure IdType.Tail
  else
    pure IdType.Not

/-- The iterator step `incrementPointer`: the next value of `_p`. -/
def incrementPointer (c : Coll) (p : ElementId) : Except Fault ElementId := do
  let i ← index c p
  if (ent c i).hasNext p then pure (ent c i)._next else pure none

/-- The loop `for(it = begin(); it != end(); ++it)` over a Set started at `p`: the ids
`*it` in order, with a budget of `fuel` dereferences. -/
def iterate (c : Coll) : Nat → ElementId → Except Fault (List Nat)
  | _, none => pure []
  | 0, some _ => .error .outOfFuel
  | fuel + 1, some p => do
    let q ← incrementPointer c (some p)
    let rest ← iterate c fuel q
    pure (p :: rest)

/-- The ids yielded by iterating `setById(setId)`, with a budget of `fuel` steps. -/
def setById (c : Coll) (fuel : Nat) (setId : ElementId) : Except Fault (List Nat) := do
  qAssert (!idIsNull setId)
  iterate c fuel setId

/-! ## Member sequences and well-formed collections -/

/-- The vector on which the if-chain of `add` runs: both singleton resets done. -/
def afterResets (c : Coll) (lo hi : Nat) : Coll :=
  resetSingleton (resetSingleton c (some lo) lo) (some hi) hi

/-- The sequence `g` with `e` put in at position `p`. -/
def insAt (g : List Nat) (p e : Nat) : List Nat := g.take p ++ e :: g.drop p

/-- The entry that the member at position `j` of a group with member sequence `g` holds:
`_prev` and `_next` are the neighbours (the head has no `_prev`, the tail is its own
`_next`), `_opposite` links the two ends and is null in between. -/
def chainEntry (g : List Nat) (j : Nat) : MultiElementId :=
  { _prev := if j = 0 then none else g[j - 1]?
    _next := if j + 1 = g.length then g[j]? else g[j + 1]?
    _opposite :=
      if j = 0 then g[g.length - 1]? else if j + 1 = g.length then g[0]? else none }

/-- The entry of an id that is in no group: all null, or the self-linked singleton. -/
def Ungrouped (c : Coll) (i : Nat) : Prop :=
  ent c i = MultiElementId.null ∨ ent c i = ⟨some i, some i, some i⟩

instance (c : Coll) (i : Nat) : Decidable (Ungrouped c i) := by
  unfold Ungrouped; infer_instance

/-- The vector `c` holds exactly the groups `gs`, each given by its member sequence from
head to tail: the groups have at least two members, no id occurs twice in a group or in
two groups, every member is inside the vector and holds the entry of its position in the
chain, and every other id is ungrouped. -/
structure Represents (c : Coll) (gs : List (List Nat)) : Prop where
  distinct : gs.Nodup
  two : ∀ g ∈ gs, 2 ≤ g.length
  nodup : ∀ g ∈ gs, g.Nodup
  disjoint : ∀ g ∈ gs, ∀ g' ∈ gs, ∀ x, x ∈ g → x ∈ g' → g = g'
  bound : ∀ g ∈ gs, ∀ x ∈ g, x < c.length
  chain : ∀ g ∈ gs, ∀ j x, g[j]? = some x → ent c x = chainEntry g j
  rest : ∀ i, i < c.length → (∀ g ∈ gs, i ∉ g) → Ungrouped c i

/-- The well-formedness invariant of the collection. -/
def WellFormed (c : Coll) : Prop := ∃ gs, Represents c gs

/-- Precondition of `add` on its `elementId`: the entry is null or a singleton, as the
two tests of `add` (lines 64-70) read it. -/
def Free (c : Coll) (i : Nat) : Prop :=
  (ent c i).isNull = true ∨ (ent c i).isSingleton (some i) = true

instance (c : Coll) (i : Nat) : Decidable (Free c i) := by
  unfold Free; infer_instance

/-! ## The merged sets of the spec

The collection described by its groups alone, each as the set of ids merged
together, without links or order: `add(setId, elementId)` merges `elementId` into the
group of `setId`, `remove(elementId)` detaches it, and a group left with one id is no
group any more. -/

/-- The groups after `add(s, e)`: `e` joins the group of `s`; when `s` is in no group
the two ids form a new one. -/
def specAdd (A : List (List Nat)) (s e : Nat) : List (List Nat) :=
  if A.any (fun G => decide (s ∈ G)) then A.map (fun G => if s ∈ G then e :: G else G)
  else [s, e] :: A

/-- The groups after `remove(e)`: `e` leaves its group; a group of one id is dropped. -/
def specRemove (A : List (List Nat)) (e : Nat) : List (List Nat) :=
  (A.map (fun G => G.erase e)).filter (fun G => decide (2 ≤ G.length))

/-- The states of a collection of capacity `n` reachable from all-null by calls of `remove`
on ids within capacity and calls of `add` that respect its precondition, each with the
groups of merged ids that the calls made so far. -/
inductive Reach (n : Nat) : Coll → List (List Nat) → Prop
  | init : Reach n (resize n) []
  | add {c c' : Coll} {A : List (List Nat)} {s e : Nat} {r : ElementId} :
      Reach n c A → s < n → e < n → s ≠ e → Free c e →
      add c (some s) (some e) = .ok (c', r) → Reach n c' (specAdd A s e)
  | remove {c c' : Coll} {A : List (List Nat)} {e : Nat} :
      Reach n c A → e < n → remove c (some e) = .ok c' → Reach n c' (specRemove A e)

/-- The member sequences `gs` are the merged sets `A`, up to the order of the members. -/
def SameGroups (gs A : List (List Nat)) : Prop :=
  (∀ g ∈ gs, ∃ G ∈ A, g.Perm G) ∧ (∀ G ∈ A, ∃ g ∈ gs, g.Perm G)

/-! ## TransformedGraph: per-element states and the replay of signals

A shallow embedding of `TransformedGraph::State` (`app/transform/transformedgraph.h`) and
of `TransformedGraph::rebuild` and `TransformedGraph::onTargetGraphChanged`
(`transform/transformedgraph.cpp`).  A signal emitted by the TransformedGraph is an
element of the returned list, in the order of emission. -/

/-- The enum `State::Value`. -/
inductive Value where
  | Removed
  | Unchanged
  | Added
  deriving DecidableEq, Repr

/-- The class `TransformedGraph::State`; a default-constructed State is `Unchanged`. -/
structure State where
  state : Value := Value.Unchanged
  deriving DecidableEq, Repr

/-- The member function `State::add`. -/
def State.add (s : State) : State :=
  { state := if s.state = Value.Removed then Value.Unchanged else Value.Added }

/-- The member function `State::remove`. -/
def State.remove (s : State) : State :=
  { state := if s.state = Value.Added then Value.Unchanged else Value.Removed }

/-- The member function `State::added`. -/
def State.added (s : State) : Bool := decide (s.state = Value.Added)

/-- The member function `State::removed`. -/
def State.removed (s : State) : Bool := decide (s.state = Value.Removed)

/-- The signals of a Graph that the TransformedGraph emits, with the id of the element
they are about. -/
inductive Signal where
  | graphWillChange
  | graphChanged
  | nodeAdded (nodeId : Nat)
  | nodeWillBeRemoved (nodeId : Nat)
  | edgeAdded (edgeId : Nat)
  | edgeWillBeRemoved (edgeId : Nat)
  deriving DecidableEq, Repr

/-- Modelled from the spec: `NodeArray<State>` and `EdgeArray<State>` (`grapharray.h` is not
among the sources) are arrays keyed by element id, one State per id. -/
abbrev StateArray := Nat → State

/-- Modelled from the spec: `resetElements` (`grapharray.h` is not among the sources) makes
every element of the array a default-constructed one, here `Unchanged`. -/
def resetElements (_a : StateArray) : StateArray := fun _ => {}

/-- The element `a[id]` replaced by `s`. -/
def StateArray.set (a : StateArray) (id : Nat) (s : State) : StateArray :=
  fun i => if i = id then s else a i

/-- The members of TransformedGraph that `rebuild` and `onTargetGraphChanged` use, and
the member `_cancelled` of the header, which neither of the two reads. -/
structure TransformedGraph where
  _nodesState : StateArray
  _edgesState : StateArray
  _previousNodesState : StateArray
  _previousEdgesState : StateArray
  _cancelled : Bool

/-- The members after construction: every State default-constructed and no cancellation
requested. -/
def TransformedGraph.initial : TransformedGraph :=
  ⟨fun _ => {}, fun _ => {}, fun _ => {}, fun _ => {}, false⟩

/-- The signals of the source and of the target graph that the connections of the
constructor (lines 24-32) listen to. -/
inductive Change where
  | nodeWillBeRemoved (nodeId : Nat)
  | nodeAdded (nodeId : Nat)
  | edgeWillBeRemoved (edgeId : Nat)
  | edgeAdded (edgeId : Nat)
  deriving DecidableEq, Repr

/-- The state-tracking connections of the constructor (lines 24-32): what one signal of
the source or target graph does to the per-element states. -/
def track (tg : TransformedGraph) : Change → TransformedGraph
  | .nodeWillBeRemoved id =>
    { tg with _nodesState := tg._nodesState.set id (tg._nodesState id).remove }
  | .nodeAdded id =>
    { tg with _nodesState := tg._nodesState.set id (tg._nodesState id).add }
  | .edgeWillBeRemoved id =>
    { tg with _edgesState := tg._edgesState.set id (tg._edgesState id).remove }
  | .edgeAdded id =>
    { tg with _edgesState := tg._edgesState.set id (tg._edgesState id).add }

/-- First loop of `onTargetGraphChanged` (lines 62-66). -/
def emitNodesAdded (tg : TransformedGraph) (nodeIds : List Nat) : List Signal :=
  nodeIds.filterMap fun nodeId =>
    if !(tg._previousNodesState nodeId).added && (tg._nodesState nodeId).added then
      some (Signal.nodeAdded nodeId)
    else none

/-- Second loop of `onTargetGraphChanged` (lines 68-74). -/
def emitEdges (tg : TransformedGraph) (edgeIds : List Nat) : List Signal :=
  edgeIds.filterMap fun edgeId =>
    if !(tg._previousEdgesState edgeId).added && (tg._edgesState edgeId).added then
      some (Signal.edgeAdded edgeId)
    else if !(tg._previousEdgesState edgeId).removed && (tg._edgesState edgeId).removed then
      some (Signal.edgeWillBeRemoved edgeId)
    else none

/-- Third loop of `onTargetGraphChanged` (lines 76-80). -/
def emitNodesRemoved (tg : TransformedGraph) (nodeIds : List Nat) : List Signal :=
  nodeIds.filterMap fun nodeId =>
    if !(tg._previousNodesState nodeId).removed && (tg._nodesState nodeId).removed then
      some (Signal.nodeWillBeRemoved nodeId)
    else none

/-- The slot `onTargetGraphChanged`, for the lists `_source->nodeIds()` and
`_source->edgeIds()`: the signals emitted, in order, and the members afterwards. -/
def onTargetGraphChanged (nodeIds edgeIds : List Nat) (tg : TransformedGraph) :
    List Signal × TransformedGraph :=
  (emitNodesAdded tg nodeIds ++ emitEdges tg edgeIds ++ emitNodesRemoved tg nodeIds,
    { tg with
      _previousNodesState := tg._nodesState
      _previousEdgesState := tg._edgesState
      _nodesState := resetElements tg._nodesState
      _edgesState := resetElements tg._edgesState })

/-- The member function `rebuild` (lines 43-55).  Modelled from the spec:
`performTransaction` (`mutablegraph.h` is not among the sources) runs its function and then
emits the target's `graphChanged` once, which is connected to `onTargetGraphChanged`
(line 19); the transform `applyFromSource` is given by `changes`, the element signals of
the target that it causes, each reaching the connections of `track`.  `setPhase` and
`clearPhase` go to the source graph (lines 61-62 of the header) and emit no signal of
the TransformedGraph. -/
def rebuild (nodeIds edgeIds : List Nat) (changes : List Change) (tg : TransformedGraph) :
    List Signal × TransformedGraph :=
  let transformed := changes.foldl track tg
  let replay := onTargetGraphChanged nodeIds edgeIds transformed
  ([Signal.graphWillChange] ++ replay.1 ++ [Signal.graphChanged], replay.2)

/-! ## Edge -/

/-- The class `Edge` of `app/graph/graph.h`. -/
structure Edge where
  _id : ElementId
  _sourceId : ElementId
  _targetId : ElementId
  deriving DecidableEq, Repr

/-- The member function `Edge::oppositeId`. -/
def Edge.oppositeId (e : Edge) (nodeId : ElementId) : ElementId :=
  if nodeId = e._sourceId then e._targetId
  else if nodeId = e._targetId then e._sourceId
  else none

/-- The member function `Edge::isLoop`. -/
def Edge.isLoop (e : Edge) : Bool := decide (e._sourceId = e._targetId)

/-! ## JsonGraphParser

A shallow embedding of `JsonGraphParser::parseGraphObject`
(`shared/loading/jsongraphparser.cpp`): the order of its tests, of its calls of
`setFailureReason` and of its returns.  Of the graph model it keeps the id strings of the
nodes added, which are the keys of `stringNodeIdToNodeId`, and the endpoints of the edges
added; the NodeId values, names and user data written are never read back by the
function. -/

/-- Modelled from the spec: the JSON values that the parser reads (the JSON library is not
among the sources). -/
inductive Json where
  | null
  | boolean (b : Bool)
  | number (n : Int)
  | string (s : String)
  | array (elements : List Json)
  | object (members : List (String × Json))

/-- The test `is_string()`. -/
def Json.isString : Json → Bool
  | .string _ => true
  | _ => false

/-- Modelled from the spec: `u::contains(json, key)` (`container.h` is not among the
sources): whether the object has a member of that name; no other value has members. -/
def Json.contains : Json → String → Bool
  | .object members, key => members.any fun m => m.1 == key
  | _, _ => false

/-- The member `json[key]` of a value that contains the key. -/
def Json.get : Json → String → Json
  | .object members, key =>
    match members.find? fun m => m.1 == key with
    | some m => m.2
    | none => .null
  | _, _ => .null

/-- The values that the range-based `for` over a JSON value visits: the elements of an
array, the member values of an object, nothing for null and the value itself
otherwise. -/
def Json.elements : Json → List Json
  | .null => []
  | .array elements => elements
  | .object members => members.map fun m => m.2
  | j => [j]

/-- The conversion `get<std::string>()`; it throws for a value that is no string. -/
def Json.getString : Json → Option String
  | .string s => some s
  | _ => none

/-- Whether the loop over `metadata` (lines 117-130 and 178-191) throws: `it.key()` is
only defined when iterating an object, and null or an empty array is not iterated. -/
def metadataThrows : Json → Bool
  | .null => false
  | .object _ => false
  | .array [] => false
  | _ => true

/-- How a call of `parseGraphObject` ends: it returns its result, or an exception of the
JSON library or of `std::stoi` leaves it. -/
inductive Outcome where
  | returned (result : Bool)
  | threw
  deriving DecidableEq, Repr

/-- What a call of `parseGraphObject` has done so far: the reasons passed to
`parser.setFailureReason`, in order, the id strings of the nodes added (the keys of
`stringNodeIdToNodeId`) and the id strings of the endpoints of the edges added. -/
structure ParserState where
  failureReasons : List String
  nodes : List String
  edges : List (String × String)
  deriving DecidableEq, Repr

/-- The arguments of `parseGraphObject` besides the JSON value, and the two conversions
of strings it calls: whether `userNodeData` and `userEdgeData` are non-null, the result
of `u::isNumeric`, and the result of `std::stoi`, `none` when it throws. -/
structure ParserEnv where
  useElementIdsLiterally : Bool
  userNodeData : Bool
  userEdgeData : Bool
  isNumeric : String → Bool
  stoi : String → Option Int

/-- The body of the loop over `jsonNodes` (lines 87-133): an early exit with the outcome,
or the state for the next node. -/
def parseNode (env : ParserEnv) (st : ParserState) (jsonNode : Json) :
    Except (Outcome × ParserState) ParserState :=
  if !jsonNode.contains "id" || !(jsonNode.get "id").isString then
    .error (.returned false,
      { st with failureReasons := st.failureReasons ++ ["Node has no ID."] })
  else
    match (jsonNode.get "id").getString with
    | none => .error (.threw, st)
    | some nodeIdString =>
      if env.useElementIdsLiterally && env.isNumeric nodeIdString
          && (env.stoi nodeIdString).isNone then
        .error (.threw, st)
      else
        let st := { st with nodes := st.nodes ++ [nodeIdString] }
        if jsonNode.contains "label" && !(jsonNode.get "label").isString then
          .error (.threw, st)
        else if jsonNode.contains "metadata" && env.userNodeData
            && metadataThrows (jsonNode.get "metadata") then
          .error (.threw, st)
        else
          .ok st

/-- The body of the loop over `jsonEdges` (lines 143-195). -/
def parseEdge (env : ParserEnv) (st : ParserState) (jsonEdge : Json) :
    Except (Outcome × ParserState) ParserState :=
  if !jsonEdge.contains "source" || !jsonEdge.contains "target" then
    .error (.returned false,
      { st with failureReasons := st.failureReasons ++ ["Edge has no source or target."] })
  else if !(jsonEdge.get "source").isString || !(jsonEdge.get "target").isString then
    .error (.returned false, st)
  else
    match (jsonEdge.get "source").getString, (jsonEdge.get "target").getString with
    | some sourceIdString, some targetIdString =>
      if !st.nodes.contains sourceIdString || !st.nodes.contains targetIdString then
        .error (.returned false, st)
      else if env.useElementIdsLiterally && jsonEdge.contains "id"
          && (jsonEdge.get "id").isString
          && (((jsonEdge.get "id").getString.bind env.stoi).isNone) then
        .error (.threw, st)
      else
        let st := { st with edges := st.edges ++ [(sourceIdString, targetIdString)] }
        if jsonEdge.contains "metadata" && env.userEdgeData
            && metadataThrows (jsonEdge.get "metadata") then
          .error (.threw, st)
        else
          .ok st
    | _, _ => .error (.threw, st)

/-- The function `JsonGraphParser::parseGraphObject`: how the call ends, and what it has
done by then. -/
def parseGraphObject (env : ParserEnv) (jsonGraphObject : Json) : Outcome × ParserState :=
  if !jsonGraphObject.contains "nodes" || !jsonGraphObject.contains "edges" then
    (.returned false, ⟨["Graph doesn't contain nodes or edges arrays."], [], []⟩)
  else
    match (jsonGraphObject.get "nodes").elements.foldlM (parseNode env) ⟨[], [], []⟩ with
    | .error stop => stop
    | .ok st =>
      match (jsonGraphObject.get "edges").elements.foldlM (parseEdge env) st with
      | .error stop => stop
      | .ok st => (.returned true, st)

/-! ## Sequences of calls on a State -/

/-- The two mutating member functions of `TransformedGraph::State`. -/
inductive StateCall where
  | add
  | remove
  deriving DecidableEq, Repr

/-- One call of `add()` or `remove()` on a State. -/
def State.call (s : State) : StateCall → State
  | .add => s.add
  | .remove => s.remove

/-- The State after the calls `cs`, made in order. -/
def State.calls (s : State) (cs : List StateCall) : State := cs.foldl State.call s

/-! ## Graph::componentIdOfLargestComponent -/

/-- The loop body of `componentIdOfLargestComponent` (lines 152-158 of `app/graph/graph.h`)
on the pair `(largestComponentId, maxNumNodes)`. -/
def largestStep (numNodes : Nat → Nat) (acc : ElementId × Nat) (componentId : Nat) :
    ElementId × Nat :=
  if numNodes componentId > acc.2 then (some componentId, numNodes componentId) else acc

/-- The member template `Graph::componentIdOfLargestComponent(componentIds)`.  Modelled from
the spec: `GraphComponent::numNodes` (`graphcomponent.h` is not among the sources) is the
number of nodes of the component, here `numNodes componentId` for the component that
`componentById(componentId)` gives. -/
def componentIdOfLargestComponent (numNodes : Nat → Nat) (componentIds : List Nat) :
    ElementId :=
  (componentIds.foldl (largestStep numNodes) (none, 0)).1

/-! ## GraphQuickItem: the visible counts -/

/-- Modelled from the spec: the arithmetic of `float` and of the blaze vectors, and the
constants of `pageranktransform.h` (not among the sources), taken as parameters. -/
structure PageRankEnv (F : Type) where
  zero : F
  one : F
  floatMax : F
  add : F → F → F
  sub : F → F → F
  mul : F → F → F
  div : F → F → F
  abs : F → F
  max : F → F → F
  ofInt : Int → F
  gt : F → F → Bool
  PAGERANK_EPSILON : F
  PAGERANK_ITERATION_LIMIT : Nat
  PAGERANK_ACCELERATION_MINIMUM : F
  PAGERANK_DAMPING : F
  AVG_COUNT : Nat

/-- Modelled from the spec: what `calculatePageRank` reads of the target graph and of the
`ComponentManager` built on it (`componentmanager.h` and `graphcomponent.h` are not among
the sources): the node ids of every component, in the order of `componentIds()`, the
edges at a node, the edge of an id and the degree of a node. -/
structure PageRankTarget where
  components : List (List Nat)
  edgeIdsForNodeId : Nat → List Nat
  edgeById : Nat → Edge
  degree : ElementId → Nat

/-- The argument of `setPhase`: "PageRank", or "PageRank Iteration %1" with its number. -/
inductive PageRankPhase where
  | pageRank
  | pageRankIteration (number : Nat)
  deriving DecidableEq, Repr

/-- What a run of `calculatePageRank` does that is visible from outside. -/
inductive PageRankEvent where
  | setPhase (phase : PageRankPhase)
  | cancelled (value : Bool)
  | createAttribute
  deriving DecidableEq, Repr

/-- Modelled from the spec: an attribute of the graph model (`attribute.h` is not among the
sources), as far as `calculatePageRank` sets it. -/
structure Attribute (F : Type) where
  description : String
  floatMin : F
  floatMax : F
  floatValueFn : Nat → F

/-- Modelled from the spec: the attributes of the graph model, by name. -/
abbrev Attributes (F : Type) := String → Option (Attribute F)

/-- Modelled from the spec: `createAttribute(name)` (`graphmodel.cpp` is not among the
sources) followed by the setters of lines 147-150: the attribute of that name is created,
or the one there is replaced. -/
def createAttribute {F : Type} (attributes : Attributes F) (name : String)
    (created : Attribute F) : Attributes F :=
  fun n => if n = name then some created else attributes n

/-- The statement `map[key] = value` on a `std::map<NodeId, int>`. -/
def mapSet (m : List (ElementId × Nat)) (key : ElementId) (value : Nat) :
    List (ElementId × Nat) :=
  if m.any (fun kv => decide (kv.1 = key)) then
    m.map (fun kv => if kv.1 = key then (key, value) else kv)
  else m ++ [(key, value)]

/-- The expression `map[key]` on a `std::map<NodeId, int>`: 0 for a key not in the map. -/
def mapGet (m : List (ElementId × Nat)) (key : ElementId) : Nat :=
  match m.find? (fun kv => decide (kv.1 = key)) with
  | some kv => kv.2
  | none => 0

/-- The loop that fills `nodeToIndexMap` (lines 48-53). -/
def buildIndexMap (nodeIds : List Nat) : List (ElementId × Nat) :=
  nodeIds.foldl (fun m nodeId => mapSet m (some nodeId) m.length) []

/-- The variables of the loop over the iterations of one component. -/
structure PageRankLoop (F : Type) where
  pageRankVector : List F
  newPageRankVector : List F
  change : F
  iterationCount : Nat
  changeBuffer : List F
  previousBufferChangeAverage : F
  pagerankAcceleration : F
  totalIterationCount : Nat

/-- The sum `prSum` of one node (lines 81-87). -/
def prSum {F : Type} (env : PageRankEnv F) (target : PageRankTarget)
    (nodeToIndexMap : List (ElementId × Nat)) (pageRankVector : List F) (nodeId : Nat) : F :=
  (target.edgeIdsForNodeId nodeId).foldl
    (fun sum edgeId =>
      let oppositeNodeId := (target.edgeById edgeId).oppositeId (some nodeId)
      env.add sum
        (env.div (pageRankVector.getD (mapGet nodeToIndexMap oppositeNodeId) env.zero)
          (env.ofInt (target.degree oppositeNodeId))))
    env.zero

/-- One iteration of the loop, after the test of `cancelled()` (lines 74-123), on the
variables of the loop. -/
def pageRankIteration {F : Type} (env : PageRankEnv F) (target : PageRankTarget)
    (nodeIds : List Nat) (nodeToIndexMap : List (ElementId × Nat)) (st : PageRankLoop F) :
    PageRankLoop F :=
  let componentNodeCount : Int := nodeIds.length
  let calculated := nodeIds.foldl
    (fun v nodeId =>
      v.set (mapGet nodeToIndexMap (some nodeId))
        (env.add (env.mul (prSum env target nodeToIndexMap st.pageRankVector nodeId)
            env.PAGERANK_DAMPING)
          (env.div (env.sub env.one env.PAGERANK_DAMPING) (env.ofInt componentNodeCount))))
    st.newPageRankVector
  let sum := calculated.foldl env.add env.zero
  let newPageRankVector := calculated.map (fun value => env.div value sum)
  let delta := List.zipWith (fun a b => env.abs (env.sub a b)) newPageRankVector
    st.pageRankVector
  let change := delta.foldl env.add env.zero
  let pushed := change :: st.changeBuffer
  let changeBuffer := if pushed.length ≥ env.AVG_COUNT then pushed.dropLast else pushed
  let bufferChangeAverage :=
    env.div (changeBuffer.foldl env.add env.zero) (env.ofInt env.AVG_COUNT)
  { pageRankVector := newPageRankVector
    newPageRankVector := newPageRankVector
    change := change
    iterationCount := st.iterationCount + 1
    changeBuffer := changeBuffer
    previousBufferChangeAverage :=
      if st.iterationCount % env.AVG_COUNT = 0 then bufferChangeAverage
      else st.previousBufferChangeAverage
    pagerankAcceleration := env.abs (env.sub st.previousBufferChangeAverage bufferChangeAverage)
    totalIterationCount := st.totalIterationCount + 1 }

/-- The test of the `while` loop (lines 67-69). -/
def pageRankContinues {F : Type} (env : PageRankEnv F) (st : PageRankLoop F) : Bool :=
  env.gt st.change env.PAGERANK_EPSILON
    && decide (st.iterationCount < env.PAGERANK_ITERATION_LIMIT)
    && env.gt st.pagerankAcceleration env.PAGERANK_ACCELERATION_MINIMUM

/-- The `while` loop of one component (lines 67-124), with `fuel` iterations allowed:
`none` when `cancelled()` made the function return, the variables at the end of the loop
otherwise.  `cancelled k` is the value that `cancelled()` gives when `k` iterations have
been made.  The loop makes at most `PAGERANK_ITERATION_LIMIT` iterations, which is the
fuel `calculatePageRank` gives it. -/
def pageRankWhile {F : Type} (env : PageRankEnv F) (target : PageRankTarget)
    (cancelled : Nat → Bool) (nodeIds : List Nat) (nodeToIndexMap : List (ElementId × Nat)) :
    Nat → PageRankLoop F → List PageRankEvent → Option (PageRankLoop F) × List PageRankEvent
  | 0, st, events => (some st, events)
  | fuel + 1, st, events =>
    if pageRankContinues env st then
      if cancelled st.totalIterationCount then
        (none, events ++ [PageRankEvent.cancelled true])
      else
        pageRankWhile env target cancelled nodeIds nodeToIndexMap fuel
          (pageRankIteration env target nodeIds nodeToIndexMap st)
          (events ++ [PageRankEvent.cancelled false,
            PageRankEvent.setPhase (PageRankPhase.pageRankIteration
              (st.totalIterationCount + 1))])
    else (some st, events)

/-- The value `blaze::max(blaze::abs(v))`. -/
def maxAbs {F : Type} (env : PageRankEnv F) (v : List F) : F :=
  match v.map env.abs with
  | [] => env.zero
  | x :: rest => rest.foldl env.max x

/-- The loop over the components (lines 40-144): `none` when `cancelled()` made the
function return, `pageRankScores` at the end of the loop otherwise. -/
def pageRankComponents {F : Type} (env : PageRankEnv F) (target : PageRankTarget)
    (cancelled : Nat → Bool) :
    List (List Nat) → (Nat → F) → Nat → List PageRankEvent →
      Option (Nat → F) × List PageRankEvent
  | [], pageRankScores, _, events => (some pageRankScores, events)
  | nodeIds :: rest, pageRankScores, totalIterationCount, events =>
    let componentNodeCount := nodeIds.length
    let nodeToIndexMap := buildIndexMap nodeIds
    let start : PageRankLoop F :=
      { pageRankVector :=
          List.replicate componentNodeCount (env.div env.one (env.ofInt componentNodeCount))
        newPageRankVector := List.replicate componentNodeCount env.zero
        change := env.floatMax
        iterationCount := 0
        changeBuffer := []
        previousBufferChangeAverage := env.zero
        pagerankAcceleration := env.floatMax
        totalIterationCount := totalIterationCount }
    match pageRankWhile env target cancelled nodeIds nodeToIndexMap
        env.PAGERANK_ITERATION_LIMIT start events with
    | (none, events) => (none, events)
    | (some st, events) =>
      let maxValue := maxAbs env st.pageRankVector
      let pageRankVector := st.pageRankVector.map (fun value => env.div value maxValue)
      let pageRankScores := nodeIds.foldl
        (fun scores nodeId => fun id =>
          if id = nodeId then pageRankVector.getD (mapGet nodeToIndexMap (some nodeId)) env.zero
          else scores id)
        pageRankScores
      pageRankComponents env target cancelled rest pageRankScores st.totalIterationCount
        events

/-- The events of a run of `calculatePageRank` and the attributes of the graph model
after it. -/
structure PageRankRun (F : Type) where
  events : List PageRankEvent
  attributes : Attributes F

/-- The member function `PageRankTransform::calculatePageRank`, on a graph model with the
attributes `attributes`. -/
def calculatePageRank {F : Type} (env : PageRankEnv F) (target : PageRankTarget)
    (cancelled : Nat → Bool) (attributes : Attributes F) : PageRankRun F :=
  match pageRankComponents env target cancelled target.components (fun _ => env.zero) 0
      [PageRankEvent.setPhase PageRankPhase.pageRank] with
  | (none, events) => { events := events, attributes := attributes }
  | (some pageRankScores, events) =>
    { events := events ++ [PageRankEvent.createAttribute]
      attributes := createAttribute attributes "Node PageRank"
        { description :=
            "A node\x27s PageRank is a measure of relative importance in the graph."
          floatMin := env.zero
          floatMax := env.one
          floatValueFn := pageRankScores } }

set_option linter.unusedTactic false
set_option linter.unreachableTactic false

/-! ## Reading and writing entries -/

theorem ent_eq_of_lt {cs : Coll} {i : Nat} (h : i < cs.length) : cs[i]? = some (ent cs i) := by
  simp [ent, List.getD_eq_getElem?_getD, List.getElem?_eq_getElem h]

theorem ent_set (cs : Coll) (i j : Nat) (m : MultiElementId) :
    ent (cs.set i m) j = if i = j ∧ i < cs.length then m else ent cs j := by
  simp only [ent, List.getD_eq_getElem?_getD, List.getElem?_set]
  by_cases h : i = j
  · subst h
    by_cases h2 : i < cs.length
    · simp [h2]
    · have h3 : cs[i]? = none := List.getElem?_eq_none (by omega)
      simp [h2, h3]
  · simp [h]

theorem length_setPrev (c : Coll) (i : Nat) (v : ElementId) :
    (setPrev c i v).length = c.length := by simp [setPrev]

theorem length_setNext (c : Coll) (i : Nat) (v : ElementId) :
    (setNext c i v).length = c.length := by simp [setNext]

theorem length_setOpposite (c : Coll) (i : Nat) (v : ElementId) :
    (setOpposite c i v).length = c.length := by simp [setOpposite]

theorem ent_setPrev (c : Coll) (i j : Nat) (v : ElementId) :
    ent (setPrev c i v) j
      = if i = j ∧ i < c.length then { ent c j with _prev := v } else ent c j := by
  rw [setPrev, ent_set]; split <;> simp_all

theorem ent_setNext (c : Coll) (i j : Nat) (v : ElementId) :
    ent (setNext c i v) j
      = if i = j ∧ i < c.length then { ent c j with _next := v } else ent c j := by
  rw [setNext, ent_set]; split <;> simp_all

theorem ent_setOpposite (c : Coll) (i j : Nat) (v : ElementId) :
    ent (setOpposite c i v) j
      = if i = j ∧ i < c.length then { ent c j with _opposite := v } else ent c j := by
  rw [setOpposite, ent_set]; split <;> simp_all

theorem ent_resize (n i : Nat) : ent (resize n) i = MultiElementId.null := by
  simp only [ent, resize, List.getD_eq_getElem?_getD, List.getElem?_replicate]
  split <;> rfl

theorem index_some {c : Coll} {i : Nat} (h : i < c.length) : index c (some i) = .ok i := by
  simp [index, h]

/-! ## The shape of a call of `add` on two non-null ids -/

theorem minmax_of_lt {a b : Nat} (h : a < b) :
    minmax (some a) (some b) = (some a, some b) := by
  have h2 : ¬ b < a := by omega
  simp [minmax, idLt, h2]

theorem minmax_of_gt {a b : Nat} (h : a < b) :
    minmax (some b) (some a) = (some a, some b) := by
  simp [minmax, idLt, h]


theorem add_of_lt (c : Coll) (a b : Nat) (hab : a < b) (hb : b < c.length) :
    add c (some a) (some b)
      = (addBranches (afterResets c a b) (some a) (some b) a b).map (fun c' => (c', some a)) := by
  have ha : a < c.length := by omega
  simp only [add, qAssert, idIsNull, Option.isNone_some, Bool.not_false, if_true, Bool.false_eq_true,
    if_false, minmax_of_lt hab, index, ha, hb, afterResets, bind, Except.bind, pure, Except.pure,
    Except.map]

theorem add_of_gt (c : Coll) (a b : Nat) (hab : a < b) (hb : b < c.length) :
    add c (some b) (some a)
      = (addBranches (afterResets c a b) (some a) (some b) a b).map (fun c' => (c', some a)) := by
  have ha : a < c.length := by omega
  simp only [add, qAssert, idIsNull, Option.isNone_some, Bool.not_false, if_true, Bool.false_eq_true,
    if_false, minmax_of_gt hab, index, ha, hb, afterResets, bind, Except.bind, pure, Except.pure,
    Except.map]

/-! ## Member sequences -/


theorem length_insAt (g : List Nat) (p e : Nat) : (insAt g p e).length = g.length + 1 := by
  simp only [insAt, List.length_append, List.length_take, List.length_cons, List.length_drop]
  omega

theorem getElem?_insAt (g : List Nat) (p e j : Nat) (hp : p ≤ g.length) :
    (insAt g p e)[j]? = if j < p then g[j]? else if j = p then some e else g[j - 1]? := by
  simp only [insAt, List.getElem?_append, List.length_take, Nat.min_eq_left hp,
    List.getElem?_take]
  by_cases h1 : j < p
  · simp [h1]
  · by_cases h2 : j = p
    · simp [h2]
    · have h3 : j - p = (j - p - 1) + 1 := by omega
      simp only [h1, h2, if_false]
      rw [h3, List.getElem?_cons_succ, List.getElem?_drop]
      congr 1; omega

theorem mem_insAt (g : List Nat) (p e x : Nat) : x ∈ insAt g p e ↔ x = e ∨ x ∈ g := by
  have h : x ∈ g ↔ x ∈ g.take p ∨ x ∈ g.drop p := by
    conv_lhs => rw [← List.take_append_drop p g]
    exact List.mem_append
  simp only [insAt, List.mem_append, List.mem_cons, h]
  tauto

theorem perm_insAt (g : List Nat) (p e : Nat) : (insAt g p e).Perm (e :: g) := by
  have h : (g.take p ++ e :: g.drop p).Perm (e :: (g.take p ++ g.drop p)) :=
    List.perm_middle
  simpa [insAt, List.take_append_drop] using h

theorem nodup_insAt {g : List Nat} {p e : Nat} (hg : g.Nodup) (he : e ∉ g) :
    (insAt g p e).Nodup :=
  (perm_insAt g p e).nodup_iff.mpr (List.nodup_cons.mpr ⟨he, hg⟩)

theorem erase_insAt {g : List Nat} {p e : Nat} (he : e ∉ g) : (insAt g p e).erase e = g := by
  have h1 : e ∉ g.take p := fun h => he (List.mem_of_mem_take h)
  rw [insAt, List.erase_append_right _ h1, List.erase_cons_head, List.take_append_drop]

/-- In a sequence without repetition equal members sit at equal positions. -/
theorem idx_inj {g : List Nat} (hg : g.Nodup) {i j x y : Nat}
    (hi : g[i]? = some x) (hj : g[j]? = some y) : x = y ↔ i = j := by
  constructor
  · intro h
    subst h
    have hi' : i < g.length := (List.getElem?_eq_some.mp hi).1
    exact List.getElem?_inj hi' hg (hi.trans hj.symm)
  · intro h
    subst h
    rw [hi] at hj
    exact Option.some.inj hj

theorem lt_of_getElem? {g : List Nat} {i x : Nat} (h : g[i]? = some x) : i < g.length :=
  (List.getElem?_eq_some.mp h).1

theorem mem_of_getElem? {g : List Nat} {i x : Nat} (h : g[i]? = some x) : x ∈ g :=
  List.mem_iff_getElem?.mpr ⟨i, h⟩

/-! ## Well-formed collections -/

theorem chainEntry_next_ne_none {g : List Nat} {j x : Nat} (hj : g[j]? = some x) :
    ∃ y, (chainEntry g j)._next = some y := by
  have hlt := lt_of_getElem? hj
  simp only [chainEntry]
  split
  · exact ⟨x, hj⟩
  · have h : j + 1 < g.length := by omega
    exact ⟨g[j + 1], List.getElem?_eq_getElem h⟩

/-- Classification of a group member by its position. -/
theorem chainEntry_isHead {g : List Nat} (hg : g.Nodup) (h2 : 2 ≤ g.length) {j x : Nat}
    (hj : g[j]? = some x) : (chainEntry g j).isHead (some x) = decide (j = 0) := by
  have hlt := lt_of_getElem? hj
  by_cases h0 : j = 0
  · subst h0
    have h1 : g[1]? = some g[1] := List.getElem?_eq_getElem (by omega)
    have hl : g[g.length - 1]? = some g[g.length - 1] := List.getElem?_eq_getElem (by omega)
    have hne : ¬ g[1] = x := fun h => by
      have := (idx_inj hg h1 hj).mp h; omega
    have h3 : ¬ (0 + 1 = g.length) := by omega
    simp [chainEntry, MultiElementId.isHead, MultiElementId.isTail, idIsNull, h3, h1, hl, hne]
  · by_cases ht : j + 1 = g.length
    · have h1 : g[0]? = some g[0] := List.getElem?_eq_getElem (by omega)
      have hne : ¬ g[0] = x := fun h => by
        have := (idx_inj hg h1 hj).mp h; omega
      simp [chainEntry, MultiElementId.isHead, MultiElementId.isTail, idIsNull, h0, ht, hj, h1,
        hne]
    · simp [chainEntry, MultiElementId.isHead, MultiElementId.isTail, idIsNull, h0, ht]

theorem chainEntry_isTail {g : List Nat} (hg : g.Nodup) {j x : Nat}
    (hj : g[j]? = some x) : (chainEntry g j).isTail (some x) = decide (j + 1 = g.length) := by
  have hlt := lt_of_getElem? hj
  by_cases ht : j + 1 = g.length
  · simp [chainEntry, MultiElementId.isTail, ht, hj]
  · have h1 : g[j + 1]? = some g[j + 1] := List.getElem?_eq_getElem (by omega)
    have hne : ¬ g[j + 1] = x := fun h => by
      have := (idx_inj hg h1 hj).mp h; omega
    simp [chainEntry, MultiElementId.isTail, ht, h1, hne]

theorem chainEntry_isNull {g : List Nat} {j x : Nat} (hj : g[j]? = some x) :
    (chainEntry g j).isNull = false := by
  obtain ⟨y, hy⟩ := chainEntry_next_ne_none hj
  simp [MultiElementId.isNull, idIsNull, hy]

theorem chainEntry_isSingleton {g : List Nat} (hg : g.Nodup) (h2 : 2 ≤ g.length) {j x : Nat}
    (hj : g[j]? = some x) : (chainEntry g j).isSingleton (some x) = false := by
  have hlt := lt_of_getElem? hj
  rw [MultiElementId.isSingleton, chainEntry_isHead hg h2 hj, chainEntry_isTail hg hj]
  by_cases h0 : j = 0
  · have : ¬ (j + 1 = g.length) := by omega
    simp [this]
  · simp [h0]

theorem Ungrouped.typeOf_eq {c : Coll} {i : Nat} (h : Ungrouped c i) (hi : i < c.length) :
    typeOf c (some i) = .ok IdType.Not := by
  rcases h with h | h <;>
    simp [typeOf, qAssert, idIsNull, index, hi, h, bind, Except.bind, pure, Except.pure,
      MultiElementId.isNull, MultiElementId.null, MultiElementId.isSingleton,
      MultiElementId.isHead, MultiElementId.isTail]

theorem Represents.typeOf_member {c : Coll} {gs : List (List Nat)} (h : Represents c gs)
    {g : List Nat} (hg : g ∈ gs) {j x : Nat} (hj : g[j]? = some x) :
    typeOf c (some x) = .ok (if j = 0 then IdType.Head else IdType.Tail) := by
  have hx : x < c.length := h.bound g hg x (mem_of_getElem? hj)
  have he := h.chain g hg j x hj
  simp only [typeOf, qAssert, idIsNull, index, hx, bind, Except.bind, pure, Except.pure]
  simp only [Option.isNone_some, Bool.not_false, if_true, he, chainEntry_isNull hj,
    chainEntry_isSingleton (h.nodup g hg) (h.two g hg) hj,
    chainEntry_isHead (h.nodup g hg) (h.two g hg) hj]
  by_cases h0 : j = 0 <;> simp [h0]

theorem Represents.typeOf_rest {c : Coll} {gs : List (List Nat)} (h : Represents c gs)
    {i : Nat} (hi : i < c.length) (hn : ∀ g ∈ gs, i ∉ g) :
    typeOf c (some i) = .ok IdType.Not :=
  (h.rest i hi hn).typeOf_eq hi

/-! ## Iterating a group -/

theorem iterate_none (c : Coll) (fuel : Nat) : iterate c fuel none = .ok [] := by
  cases fuel <;> rfl

theorem iterate_succ (c : Coll) (fuel p : Nat) :
    iterate c (fuel + 1) (some p)
      = (incrementPointer c (some p)).bind fun q =>
          (iterate c fuel q).bind fun rest => .ok (p :: rest) := rfl

theorem Represents.incrementPointer_member {c : Coll} {gs : List (List Nat)}
    (h : Represents c gs) {g : List Nat} (hg : g ∈ gs) {j x : Nat} (hj : g[j]? = some x) :
    incrementPointer c (some x) = .ok g[j + 1]? := by
  have hx : x < c.length := h.bound g hg x (mem_of_getElem? hj)
  have he := h.chain g hg j x hj
  have hlt := lt_of_getElem? hj
  simp only [incrementPointer, index, hx, bind, Except.bind, pure, Except.pure, if_true]
  simp only [MultiElementId.hasNext, he, chainEntry_isTail (h.nodup g hg) hj]
  obtain ⟨y, hy⟩ := chainEntry_next_ne_none hj
  by_cases ht : j + 1 = g.length
  · have hn : g[j + 1]? = none := List.getElem?_eq_none (by omega)
    simp [idIsNull, hy, ht, hn]
  · simp [idIsNull, hy, ht, chainEntry]

theorem Represents.iterate_from {c : Coll} {gs : List (List Nat)} (h : Represents c gs)
    {g : List Nat} (hg : g ∈ gs) :
    ∀ (fuel j : Nat), j ≤ g.length → g.length - j ≤ fuel →
      iterate c fuel g[j]? = .ok (g.drop j) := by
  intro fuel
  induction fuel with
  | zero =>
    intro j hj hf
    have hn : g[j]? = none := List.getElem?_eq_none (by omega)
    have hd : g.drop j = [] := List.drop_eq_nil_of_le (by omega)
    rw [hn, hd, iterate_none]
  | succ fuel ih =>
    intro j hj hf
    by_cases hlt : j < g.length
    · have hx : g[j]? = some g[j] := List.getElem?_eq_getElem hlt
      rw [hx, iterate_succ, h.incrementPointer_member hg hx]
      simp only [Except.bind]
      rw [ih (j + 1) (by omega) (by omega)]
      simp only [Except.bind]
      rw [List.drop_eq_getElem_cons hlt]
    · have hn : g[j]? = none := List.getElem?_eq_none (by omega)
      have hd : g.drop j = [] := List.drop_eq_nil_of_le (by omega)
      rw [hn, hd, iterate_none]

/-- Iterating `setById` of the head of a group yields the member sequence of the group. -/
theorem Represents.setById_head {c : Coll} {gs : List (List Nat)} (h : Represents c gs)
    {g : List Nat} (hg : g ∈ gs) {fuel : Nat} (hf : g.length ≤ fuel) :
    setById c fuel g[0]? = .ok g := by
  have h2 := h.two g hg
  have hx : g[0]? = some g[0] := List.getElem?_eq_getElem (by omega)
  have hi := h.iterate_from hg fuel 0 (by omega) (by omega)
  rw [List.drop_zero] at hi
  rw [setById, hi, hx]
  rfl

theorem Ungrouped.setById_eq {c : Coll} {i : Nat} (h : Ungrouped c i) (hi : i < c.length)
    {fuel : Nat} (hf : 1 ≤ fuel) : setById c fuel (some i) = .ok [i] := by
  obtain ⟨f, rfl⟩ : ∃ f, fuel = f + 1 := ⟨fuel - 1, by omega⟩
  have hinc : incrementPointer c (some i) = .ok none := by
    rcases h with h | h <;>
      simp [incrementPointer, index, hi, bind, Except.bind, pure, Except.pure, h,
        MultiElementId.hasNext, MultiElementId.null, MultiElementId.isTail, idIsNull]
  simp only [setById, qAssert, idIsNull, bind, Except.bind, iterate_succ, hinc, iterate_none]
  rfl

/-! ## Field-wise reading of updated vectors -/

theorem MultiElementId.ext3 {a b : MultiElementId} (h1 : a._prev = b._prev)
    (h2 : a._next = b._next) (h3 : a._opposite = b._opposite) : a = b := by
  cases a; cases b; simp_all

theorem ent_of_le {c : Coll} {i : Nat} (h : c.length ≤ i) : ent c i = MultiElementId.null := by
  simp [ent, List.getD_eq_getElem?_getD, List.getElem?_eq_none h]

theorem prev_setPrev (c : Coll) (i x : Nat) (v : ElementId) :
    (ent (setPrev c i v) x)._prev = if x = i ∧ i < c.length then v else (ent c x)._prev := by
  rw [ent_setPrev]
  by_cases h : i = x ∧ i < c.length
  · obtain ⟨rfl, h2⟩ := h
    simp [h2]
  · have h' : ¬ (x = i ∧ i < c.length) := fun hh => h ⟨hh.1.symm, hh.2⟩
    simp [h, h']

theorem next_setPrev (c : Coll) (i x : Nat) (v : ElementId) :
    (ent (setPrev c i v) x)._next = (ent c x)._next := by
  rw [ent_setPrev]; split <;> rfl

theorem opposite_setPrev (c : Coll) (i x : Nat) (v : ElementId) :
    (ent (setPrev c i v) x)._opposite = (ent c x)._opposite := by
  rw [ent_setPrev]; split <;> rfl

theorem prev_setNext (c : Coll) (i x : Nat) (v : ElementId) :
    (ent (setNext c i v) x)._prev = (ent c x)._prev := by
  rw [ent_setNext]; split <;> rfl

theorem next_setNext (c : Coll) (i x : Nat) (v : ElementId) :
    (ent (setNext c i v) x)._next = if x = i ∧ i < c.length then v else (ent c x)._next := by
  rw [ent_setNext]
  by_cases h : i = x ∧ i < c.length
  · obtain ⟨rfl, h2⟩ := h
    simp [h2]
  · have h' : ¬ (x = i ∧ i < c.length) := fun hh => h ⟨hh.1.symm, hh.2⟩
    simp [h, h']

theorem opposite_setNext (c : Coll) (i x : Nat) (v : ElementId) :
    (ent (setNext c i v) x)._opposite = (ent c x)._opposite := by
  rw [ent_setNext]; split <;> rfl

theorem prev_setOpposite (c : Coll) (i x : Nat) (v : ElementId) :
    (ent (setOpposite c i v) x)._prev = (ent c x)._prev := by
  rw [ent_setOpposite]; split <;> rfl

theorem next_setOpposite (c : Coll) (i x : Nat) (v : ElementId) :
    (ent (setOpposite c i v) x)._next = (ent c x)._next := by
  rw [ent_setOpposite]; split <;> rfl

theorem opposite_setOpposite (c : Coll) (i x : Nat) (v : ElementId) :
    (ent (setOpposite c i v) x)._opposite
      = if x = i ∧ i < c.length then v else (ent c x)._opposite := by
  rw [ent_setOpposite]
  by_cases h : i = x ∧ i < c.length
  · obtain ⟨rfl, h2⟩ := h
    simp [h2]
  · have h' : ¬ (x = i ∧ i < c.length) := fun hh => h ⟨hh.1.symm, hh.2⟩
    simp [h, h']

theorem ent_set' (c : Coll) (i x : Nat) (m : MultiElementId) :
    ent (c.set i m) x = if x = i ∧ i < c.length then m else ent c x := by
  rw [ent_set]
  by_cases h : i = x ∧ i < c.length
  · obtain ⟨rfl, h2⟩ := h
    simp [h2]
  · have h' : ¬ (x = i ∧ i < c.length) := fun hh => h ⟨hh.1.symm, hh.2⟩
    simp [h, h']

/-! ## The branches of `add` on a well-formed vector -/

theorem ent_resetSingleton (c : Coll) (i x : Nat) :
    ent (resetSingleton c (some i) i) x
      = if x = i ∧ (ent c i).isSingleton (some i) = true then MultiElementId.null
        else ent c x := by
  unfold resetSingleton
  by_cases hs : (ent c i).isSingleton (some i) = true
  · simp only [hs, if_true, and_true, ent_set', MultiElementId.setToNull]
    by_cases hx : x = i
    · subst hx
      by_cases hl : x < c.length
      · simp [hl, MultiElementId.null]
      · simp [hl, ent_of_le (not_lt.mp hl)]
    · simp [hx]
  · simp [hs]

theorem length_resetSingleton (c : Coll) (id : ElementId) (i : Nat) :
    (resetSingleton c id i).length = c.length := by
  unfold resetSingleton; split <;> simp

/-- A property of the positions of `insAt g p e` holds when it holds before, at and after
the position of the new member. -/
theorem insAt_cases {g : List Nat} {p e : Nat} (hp : p ≤ g.length) {P : Nat → Nat → Prop}
    (hlt : ∀ j x, j < p → g[j]? = some x → P j x) (heq : P p e)
    (hgt : ∀ j x, p ≤ j → g[j]? = some x → P (j + 1) x) :
    ∀ j x, (insAt g p e)[j]? = some x → P j x := by
  intro j x hx
  rw [getElem?_insAt _ _ _ _ hp] at hx
  rcases Nat.lt_trichotomy j p with hj | hj | hj
  · rw [if_pos hj] at hx
    exact hlt j x hj hx
  · subst hj
    simp only [lt_irrefl, if_false, if_true, Option.some.injEq] at hx
    subst hx
    exact heq
  · have h1 : ¬ j < p := by omega
    have h2 : ¬ j = p := by omega
    rw [if_neg h1, if_neg h2] at hx
    obtain ⟨i, rfl⟩ : ∃ i, j = i + 1 := ⟨j - 1, by omega⟩
    exact hgt i x (by omega) hx

theorem addAfterLow_eq {c : Coll} {s e y : Nat}
    (he : ent c e = MultiElementId.null) (hsn : (ent c s)._next = some y)
    (hyl : y < c.length) (hes : e ≠ s) :
    addAfterLow c (some s) (some e) s e
      = .ok (setPrev (setNext (setNext (setPrev c e (some s)) e (some y)) s (some e)) y
          (some e)) := by
  have hse : ¬ s = e := fun h => hes h.symm
  simp only [addAfterLow, qAssert, he, hsn, idIsNull, MultiElementId.isNull, MultiElementId.null,
    index, hyl, bind, Except.bind, pure, Except.pure, Option.isNone_none, Option.isNone_some,
    Bool.not_false, if_true]
  simp [next_setPrev, next_setNext, hes, hse, hsn]

theorem addAfterLow_chain {c : Coll} {g : List Nat} {k s e : Nat}
    (hc : ∀ j x, g[j]? = some x → ent c x = chainEntry g j)
    (hnd : g.Nodup) (hk : g[k]? = some s) (hkt : k + 1 < g.length)
    (he : ent c e = MultiElementId.null) (heg : e ∉ g)
    (hb : ∀ x ∈ g, x < c.length) (hel : e < c.length) {c' : Coll}
    (hc' : c' = setPrev (setNext (setNext (setPrev c e (some s)) e (some g[k + 1])) s (some e))
        g[k + 1] (some e)) :
    ∀ j x, (insAt g (k + 1) e)[j]? = some x → ent c' x = chainEntry (insAt g (k + 1) e) j := by
  have hy : g[k + 1]? = some g[k + 1] := List.getElem?_eq_getElem hkt
  have hsl : s < c.length := hb s (mem_of_getElem? hk)
  have hyl : g[k + 1] < c.length := hb _ (mem_of_getElem? hy)
  have hes : e ≠ s := fun h => heg (h ▸ mem_of_getElem? hk)
  have hey : e ≠ g[k + 1] := fun h => heg (h ▸ mem_of_getElem? hy)
  have hG : ∀ i, (insAt g (k + 1) e)[i]?
      = if i < k + 1 then g[i]? else if i = k + 1 then some e else g[i - 1]? :=
    fun i => getElem?_insAt _ _ _ _ (by omega)
  refine insAt_cases (P := fun j x => ent c' x = chainEntry (insAt g (k + 1) e) j) (by omega)
    ?_ ?_ ?_ <;> subst hc'
  · intro j x hj hx
    have hxe : x ≠ e := fun h => heg (h ▸ mem_of_getElem? hx)
    have hxy : x = g[k + 1] ↔ j = k + 1 := idx_inj hnd hx hy
    have hxs : x = s ↔ j = k := idx_inj hnd hx hk
    have hcx := hc j x hx
    apply MultiElementId.ext3 <;>
      simp only [prev_setPrev, prev_setNext, next_setPrev, next_setNext, opposite_setPrev,
        opposite_setNext, length_setPrev, length_setNext, hxy, hxs, hxe, hcx, chainEntry, hG,
        length_insAt, hyl, hsl, hel, hx, and_true, false_and, if_false] <;>
      split_ifs <;>
      first | rfl | omega | contradiction | (simp [hk, hy]; done) | (congr 1; omega)
  · apply MultiElementId.ext3 <;>
      simp only [prev_setPrev, prev_setNext, next_setPrev, next_setNext, opposite_setPrev,
        opposite_setNext, length_setPrev, length_setNext, hes, hey, he, chainEntry, hG,
        length_insAt, hyl, hsl, hel, and_true, false_and, if_false, if_true,
        MultiElementId.null] <;>
      split_ifs <;>
      first | rfl | omega | contradiction | (simp [hk, hy]; done) | (congr 1; omega)
  · intro j x hj hx
    have hxe : x ≠ e := fun h => heg (h ▸ mem_of_getElem? hx)
    have hxy : x = g[k + 1] ↔ j = k + 1 := idx_inj hnd hx hy
    have hxs : x = s ↔ j = k := idx_inj hnd hx hk
    have hcx := hc j x hx
    apply MultiElementId.ext3 <;>
      simp only [prev_setPrev, prev_setNext, next_setPrev, next_setNext, opposite_setPrev,
        opposite_setNext, length_setPrev, length_setNext, hxy, hxs, hxe, hcx, chainEntry, hG,
        length_insAt, hyl, hsl, hel, hx, and_true, false_and, if_false, Nat.add_sub_cancel] <;>
      split_ifs <;>
      first | rfl | omega | contradiction | (simp [hk, hy]; done) | (congr 1; omega)

theorem addBeforeHigh_eq {c : Coll} {s e pv : Nat}
    (he : ent c e = MultiElementId.null) (hsp : (ent c s)._prev = some pv)
    (hpl : pv < c.length) :
    addBeforeHigh c (some e) (some s) e s
      = .ok (setNext (setPrev (setNext (setPrev c e (some pv)) e (some s)) s (some e)) pv
          (some e)) := by
  simp only [addBeforeHigh, qAssert, he, hsp, idIsNull, MultiElementId.isNull,
    MultiElementId.null, index, hpl, bind, Except.bind, pure, Except.pure, Option.isNone_none,
    Option.isNone_some, Bool.not_false, if_true]

theorem addBeforeHigh_chain {c : Coll} {g : List Nat} {k s e pv : Nat}
    (hc : ∀ j x, g[j]? = some x → ent c x = chainEntry g j)
    (hnd : g.Nodup) (hk : g[k + 1]? = some s) (hpv : g[k]? = some pv)
    (he : ent c e = MultiElementId.null) (heg : e ∉ g)
    (hb : ∀ x ∈ g, x < c.length) (hel : e < c.length) {c' : Coll}
    (hc' : c' = setNext (setPrev (setNext (setPrev c e (some pv)) e (some s)) s (some e)) pv
        (some e)) :
    ∀ j x, (insAt g (k + 1) e)[j]? = some x → ent c' x = chainEntry (insAt g (k + 1) e) j := by
  have hkl := lt_of_getElem? hk
  have hsl : s < c.length := hb s (mem_of_getElem? hk)
  have hpl : pv < c.length := hb _ (mem_of_getElem? hpv)
  have hes : e ≠ s := fun h => heg (h ▸ mem_of_getElem? hk)
  have hep : e ≠ pv := fun h => heg (h ▸ mem_of_getElem? hpv)
  have hG : ∀ i, (insAt g (k + 1) e)[i]?
      = if i < k + 1 then g[i]? else if i = k + 1 then some e else g[i - 1]? :=
    fun i => getElem?_insAt _ _ _ _ (by omega)
  refine insAt_cases (P := fun j x => ent c' x = chainEntry (insAt g (k + 1) e) j) (by omega)
    ?_ ?_ ?_ <;> subst hc'
  · intro j x hj hx
    have hxe : x ≠ e := fun h => heg (h ▸ mem_of_getElem? hx)
    have hxp : x = pv ↔ j = k := idx_inj hnd hx hpv
    have hxs : x = s ↔ j = k + 1 := idx_inj hnd hx hk
    have hcx := hc j x hx
    apply MultiElementId.ext3 <;>
      simp only [prev_setPrev, prev_setNext, next_setPrev, next_setNext, opposite_setPrev,
        opposite_setNext, length_setPrev, length_setNext, hxp, hxs, hxe, hcx, chainEntry, hG,
        length_insAt, hpl, hsl, hel, hx, and_true, false_and, if_false] <;>
      split_ifs <;>
      first | rfl | omega | contradiction | (simp [hk, hpv]; done) | (congr 1; omega)
  · apply MultiElementId.ext3 <;>
      simp only [prev_setPrev, prev_setNext, next_setPrev, next_setNext, opposite_setPrev,
        opposite_setNext, length_setPrev, length_setNext, hes, hep, he, chainEntry, hG,
        length_insAt, hpl, hsl, hel, and_true, false_and, if_false, if_true,
        MultiElementId.null] <;>
      split_ifs <;>
      first | rfl | omega | contradiction | (simp [hk, hpv]; done) | (congr 1; omega)
  · intro j x hj hx
    have hxe : x ≠ e := fun h => heg (h ▸ mem_of_getElem? hx)
    have hxp : x = pv ↔ j = k := idx_inj hnd hx hpv
    have hxs : x = s ↔ j = k + 1 := idx_inj hnd hx hk
    have hcx := hc j x hx
    apply MultiElementId.ext3 <;>
      simp only [prev_setPrev, prev_setNext, next_setPrev, next_setNext, opposite_setPrev,
        opposite_setNext, length_setPrev, length_setNext, hxp, hxs, hxe, hcx, chainEntry, hG,
        length_insAt, hpl, hsl, hel, hx, and_true, false_and, if_false, Nat.add_sub_cancel] <;>
      split_ifs <;>
      first | rfl | omega | contradiction | (simp [hk, hpv]; done) | (congr 1; omega)

theorem addToHead_eq {c : Coll} {s e t : Nat}
    (he : ent c e = MultiElementId.null) (hso : (ent c s)._opposite = some t)
    (htl : t < c.length) (hst : s ≠ t) (hes : e ≠ s) :
    addToHead c (some e) (some s) e s
      = .ok (setOpposite (setPrev (setOpposite (setNext (setOpposite c t (some e)) e (some s)) e
          (some t)) s (some e)) s none) := by
  have hse : ¬ s = e := fun h => hes h.symm
  simp only [addToHead, qAssert, he, hso, idIsNull, MultiElementId.isNull, MultiElementId.null,
    index, htl, bind, Except.bind, pure, Except.pure, Option.isNone_none, Option.isNone_some,
    Bool.not_false, if_true]
  simp [opposite_setNext, opposite_setOpposite, hst, hso]

theorem addToHead_chain {c : Coll} {g : List Nat} {s e t : Nat}
    (hc : ∀ j x, g[j]? = some x → ent c x = chainEntry g j)
    (hnd : g.Nodup) (h2 : 2 ≤ g.length) (hk : g[0]? = some s) (ht : g[g.length - 1]? = some t)
    (he : ent c e = MultiElementId.null) (heg : e ∉ g)
    (hb : ∀ x ∈ g, x < c.length) (hel : e < c.length) {c' : Coll}
    (hc' : c' = setOpposite (setPrev (setOpposite (setNext (setOpposite c t (some e)) e (some s))
        e (some t)) s (some e)) s none) :
    ∀ j x, (insAt g 0 e)[j]? = some x → ent c' x = chainEntry (insAt g 0 e) j := by
  have hsl : s < c.length := hb s (mem_of_getElem? hk)
  have htl : t < c.length := hb _ (mem_of_getElem? ht)
  have hes : e ≠ s := fun h => heg (h ▸ mem_of_getElem? hk)
  have het : e ≠ t := fun h => heg (h ▸ mem_of_getElem? ht)
  have hG : ∀ i, (insAt g 0 e)[i]?
      = if i < 0 then g[i]? else if i = 0 then some e else g[i - 1]? :=
    fun i => getElem?_insAt _ _ _ _ (by omega)
  refine insAt_cases (P := fun j x => ent c' x = chainEntry (insAt g 0 e) j) (by omega)
    ?_ ?_ ?_ <;> subst hc'
  · intro j x hj hx
    omega
  · apply MultiElementId.ext3 <;>
      simp only [prev_setPrev, prev_setNext, next_setPrev, next_setNext, opposite_setPrev,
        opposite_setNext, prev_setOpposite, next_setOpposite, opposite_setOpposite,
        length_setPrev, length_setNext, length_setOpposite, hes, het, he, chainEntry, hG,
        length_insAt, htl, hsl, hel, and_true, false_and, if_false, if_true,
        MultiElementId.null] <;>
      split_ifs <;>
      first | rfl | omega | contradiction | (simp [hk, ht]; done) | (congr 1; omega)
  · intro j x hj hx
    have hxe : x ≠ e := fun h => heg (h ▸ mem_of_getElem? hx)
    have hxt : x = t ↔ j = g.length - 1 := idx_inj hnd hx ht
    have hxs : x = s ↔ j = 0 := idx_inj hnd hx hk
    have hcx := hc j x hx
    apply MultiElementId.ext3 <;>
      simp only [prev_setPrev, prev_setNext, next_setPrev, next_setNext, opposite_setPrev,
        opposite_setNext, prev_setOpposite, next_setOpposite, opposite_setOpposite,
        length_setPrev, length_setNext, length_setOpposite, hxt, hxs, hxe, hcx, chainEntry, hG,
        length_insAt, htl, hsl, hel, hx, and_true, false_and, if_false, Nat.add_sub_cancel] <;>
      split_ifs <;>
      first | rfl | omega | contradiction | (simp [hk, ht]; done) | (congr 1; omega)

theorem addToTail_eq {c : Coll} {s e h : Nat}
    (he : ent c e = MultiElementId.null) (hso : (ent c s)._opposite = some h)
    (hhl : h < c.length) (hsh : s ≠ h) (hes : e ≠ s) :
    addToTail c (some s) (some e) s e
      = .ok (setOpposite (setNext (setOpposite (setNext (setPrev (setOpposite c h (some e)) e
          (some s)) e (some e)) e (some h)) s (some e)) s none) := by
  have hse : ¬ s = e := fun h => hes h.symm
  simp only [addToTail, qAssert, he, hso, idIsNull, MultiElementId.isNull, MultiElementId.null,
    index, hhl, bind, Except.bind, pure, Except.pure, Option.isNone_none, Option.isNone_some,
    Bool.not_false, if_true]
  simp [opposite_setNext, opposite_setPrev, opposite_setOpposite, hsh, hso]

theorem addToTail_chain {c : Coll} {g : List Nat} {s e h : Nat}
    (hc : ∀ j x, g[j]? = some x → ent c x = chainEntry g j)
    (hnd : g.Nodup) (h2 : 2 ≤ g.length) (hk : g[g.length - 1]? = some s) (hh : g[0]? = some h)
    (he : ent c e = MultiElementId.null) (heg : e ∉ g)
    (hb : ∀ x ∈ g, x < c.length) (hel : e < c.length) {c' : Coll}
    (hc' : c' = setOpposite (setNext (setOpposite (setNext (setPrev (setOpposite c h (some e)) e
          (some s)) e (some e)) e (some h)) s (some e)) s none) :
    ∀ j x, (insAt g g.length e)[j]? = some x → ent c' x = chainEntry (insAt g g.length e) j := by
  have hsl : s < c.length := hb s (mem_of_getElem? hk)
  have hhl : h < c.length := hb _ (mem_of_getElem? hh)
  have hes : e ≠ s := fun h => heg (h ▸ mem_of_getElem? hk)
  have heh : e ≠ h := fun h' => heg (h' ▸ mem_of_getElem? hh)
  have hG : ∀ i, (insAt g g.length e)[i]?
      = if i < g.length then g[i]? else if i = g.length then some e else g[i - 1]? :=
    fun i => getElem?_insAt _ _ _ _ (by omega)
  refine insAt_cases (P := fun j x => ent c' x = chainEntry (insAt g g.length e) j) (by omega)
    ?_ ?_ ?_ <;> subst hc'
  · intro j x hj hx
    have hxe : x ≠ e := fun h => heg (h ▸ mem_of_getElem? hx)
    have hxh : x = h ↔ j = 0 := idx_inj hnd hx hh
    have hxs : x = s ↔ j = g.length - 1 := idx_inj hnd hx hk
    have hcx := hc j x hx
    apply MultiElementId.ext3 <;>
      simp only [prev_setPrev, prev_setNext, next_setPrev, next_setNext, opposite_setPrev,
        opposite_setNext, prev_setOpposite, next_setOpposite, opposite_setOpposite,
        length_setPrev, length_setNext, length_setOpposite, hxh, hxs, hxe, hcx, chainEntry, hG,
        length_insAt, hhl, hsl, hel, hx, and_true, false_and, if_false] <;>
      split_ifs <;>
      first | rfl | omega | contradiction | (simp [hk, hh]; done) | (congr 1; omega)
  · apply MultiElementId.ext3 <;>
      simp only [prev_setPrev, prev_setNext, next_setPrev, next_setNext, opposite_setPrev,
        opposite_setNext, prev_setOpposite, next_setOpposite, opposite_setOpposite,
        length_setPrev, length_setNext, length_setOpposite, hes, heh, he, chainEntry, hG,
        length_insAt, hhl, hsl, hel, and_true, false_and, if_false, if_true,
        MultiElementId.null] <;>
      split_ifs <;>
      first | rfl | omega | contradiction | (simp [hk, hh]; done) | (congr 1; omega)
  · intro j x hj hx
    have := lt_of_getElem? hx
    omega

/-! ## Changing one group of a well-formed vector -/

theorem mem_filter_ne {gs : List (List Nat)} {g a : List Nat} :
    a ∈ gs.filter (fun b => decide (b ≠ g)) ↔ a ∈ gs ∧ a ≠ g := by
  simp [List.mem_filter]

theorem filter_ne_of_not_mem {gs : List (List Nat)} {g : List Nat} (h : g ∉ gs) :
    gs.filter (fun b => decide (b ≠ g)) = gs := by
  rw [List.filter_eq_self]
  intro a ha
  have : a ≠ g := fun hh => h (hh ▸ ha)
  simpa using this

theorem Represents.nil_not_mem {c : Coll} {gs : List (List Nat)} (h : Represents c gs) :
    ([] : List Nat) ∉ gs := fun hm => by
  have := h.two [] hm
  simp at this

/-- Replacing the group `g` by `g'`: the members of `g'` come from `g` or were ungrouped,
they hold the entries of their positions in `g'`, members that left are ungrouped and
all other entries are untouched. -/
theorem Represents.replace {c c' : Coll} {gs : List (List Nat)} (h : Represents c gs)
    (hlen : c'.length = c.length) (g g' : List Nat) (hg : g ∈ gs ∨ g = [])
    (h2 : 2 ≤ g'.length) (hnd : g'.Nodup) (hb : ∀ x ∈ g', x < c.length)
    (hnew : ∀ x ∈ g', x ∈ g ∨ ∀ a ∈ gs, x ∉ a)
    (hchain : ∀ j x, g'[j]? = some x → ent c' x = chainEntry g' j)
    (hframe : ∀ x, x ∉ g → x ∉ g' → ent c' x = ent c x)
    (hgone : ∀ x ∈ g, x ∉ g' → x < c.length → Ungrouped c' x) :
    Represents c' (g' :: gs.filter (fun b => decide (b ≠ g))) := by
  have hdis : ∀ a ∈ gs, a ≠ g → ∀ x, x ∈ a → x ∉ g' := by
    intro a ha hag x hxa hxg'
    rcases hnew x hxg' with hx | hx
    · rcases hg with hgs | hgs
      · exact hag (h.disjoint a ha g hgs x hxa hx)
      · rw [hgs] at hx; simp at hx
    · exact hx a ha hxa
  have hdis2 : ∀ a ∈ gs, a ≠ g → ∀ x, x ∈ a → x ∉ g := by
    intro a ha hag x hxa hxg
    rcases hg with hgs | hgs
    · exact hag (h.disjoint a ha g hgs x hxa hxg)
    · rw [hgs] at hxg; simp at hxg
  refine ⟨?_, ?_, ?_, ?_, ?_, ?_, ?_⟩
  · rw [List.nodup_cons]
    refine ⟨?_, h.distinct.filter _⟩
    intro hm
    obtain ⟨hm1, hm2⟩ := mem_filter_ne.mp hm
    have hx : g'[0]? = some g'[0] := List.getElem?_eq_getElem (by omega)
    exact hdis g' hm1 hm2 _ (mem_of_getElem? hx) (mem_of_getElem? hx)
  · intro a ha
    rcases List.mem_cons.mp ha with rfl | ha
    · exact h2
    · exact h.two a (mem_filter_ne.mp ha).1
  · intro a ha
    rcases List.mem_cons.mp ha with rfl | ha
    · exact hnd
    · exact h.nodup a (mem_filter_ne.mp ha).1
  · intro a ha b hb' x hxa hxb
    rcases List.mem_cons.mp ha with ha0 | ha1
    · rcases List.mem_cons.mp hb' with hb0 | hb1
      · rw [ha0, hb0]
      · obtain ⟨hb1, hb2⟩ := mem_filter_ne.mp hb1
        rw [ha0] at hxa
        exact absurd hxa (hdis b hb1 hb2 x hxb)
    · obtain ⟨ha1, ha2⟩ := mem_filter_ne.mp ha1
      rcases List.mem_cons.mp hb' with hb0 | hb1
      · rw [hb0] at hxb
        exact absurd hxb (hdis a ha1 ha2 x hxa)
      · exact h.disjoint a ha1 b (mem_filter_ne.mp hb1).1 x hxa hxb
  · intro a ha x hxa
    rw [hlen]
    rcases List.mem_cons.mp ha with rfl | ha
    · exact hb x hxa
    · exact h.bound a (mem_filter_ne.mp ha).1 x hxa
  · intro a ha j x hx
    rcases List.mem_cons.mp ha with rfl | ha
    · exact hchain j x hx
    · obtain ⟨ha1, ha2⟩ := mem_filter_ne.mp ha
      have hxa := mem_of_getElem? hx
      rw [hframe x (hdis2 a ha1 ha2 x hxa) (hdis a ha1 ha2 x hxa)]
      exact h.chain a ha1 j x hx
  · intro i hi hn
    rw [hlen] at hi
    have hig' : i ∉ g' := hn g' (List.mem_cons_self _ _)
    by_cases hig : i ∈ g
    · exact hgone i hig hig' hi
    · have hrest : Ungrouped c i := by
        apply h.rest i hi
        intro a ha hia
        have hag : a ≠ g := fun hh => hig (hh ▸ hia)
        exact hn a (List.mem_cons_of_mem _ (mem_filter_ne.mpr ⟨ha, hag⟩)) hia
      unfold Ungrouped at hrest ⊢
      rw [hframe i hig hig']
      exact hrest

/-- Dissolving the group `g`: its members become ungrouped, all other entries are
untouched. -/
theorem Represents.dissolve {c c' : Coll} {gs : List (List Nat)} (h : Represents c gs)
    (hlen : c'.length = c.length) (g : List Nat) (hg : g ∈ gs)
    (hframe : ∀ x, x ∉ g → ent c' x = ent c x)
    (hgone : ∀ x ∈ g, Ungrouped c' x) :
    Represents c' (gs.filter (fun b => decide (b ≠ g))) := by
  have hdis2 : ∀ a ∈ gs, a ≠ g → ∀ x, x ∈ a → x ∉ g :=
    fun a ha hag x hxa hxg => hag (h.disjoint a ha g hg x hxa hxg)
  refine ⟨h.distinct.filter _, ?_, ?_, ?_, ?_, ?_, ?_⟩
  · intro a ha
    exact h.two a (mem_filter_ne.mp ha).1
  · intro a ha
    exact h.nodup a (mem_filter_ne.mp ha).1
  · intro a ha b hb' x hxa hxb
    exact h.disjoint a (mem_filter_ne.mp ha).1 b (mem_filter_ne.mp hb').1 x hxa hxb
  · intro a ha x hxa
    rw [hlen]
    exact h.bound a (mem_filter_ne.mp ha).1 x hxa
  · intro a ha j x hx
    obtain ⟨ha1, ha2⟩ := mem_filter_ne.mp ha
    rw [hframe x (hdis2 a ha1 ha2 x (mem_of_getElem? hx))]
    exact h.chain a ha1 j x hx
  · intro i hi hn
    rw [hlen] at hi
    by_cases hig : i ∈ g
    · exact hgone i hig
    · have hrest : Ungrouped c i := by
        apply h.rest i hi
        intro a ha hia
        have hag : a ≠ g := fun hh => hig (hh ▸ hia)
        exact hn a (mem_filter_ne.mpr ⟨ha, hag⟩) hia
      unfold Ungrouped at hrest ⊢
      rw [hframe i hig]
      exact hrest

/-- Changing only entries of ungrouped ids, which stay ungrouped, keeps the groups. -/
theorem Represents.congr {c c' : Coll} {gs : List (List Nat)} (h : Represents c gs)
    (hlen : c'.length = c.length)
    (hframe : ∀ x, (∃ a ∈ gs, x ∈ a) → ent c' x = ent c x)
    (hrest : ∀ x, x < c.length → (∀ a ∈ gs, x ∉ a) → Ungrouped c' x) :
    Represents c' gs := by
  refine ⟨h.distinct, h.two, h.nodup, h.disjoint, ?_, ?_, ?_⟩
  · intro a ha x hxa
    rw [hlen]
    exact h.bound a ha x hxa
  · intro a ha j x hx
    rw [hframe x ⟨a, ha, mem_of_getElem? hx⟩]
    exact h.chain a ha j x hx
  · intro i hi hn
    rw [hlen] at hi
    exact hrest i hi hn

/-! ## The singleton resets of `add` -/

theorem Represents.member_entry {c : Coll} {gs : List (List Nat)} (h : Represents c gs)
    {x : Nat} (hx : ∃ a ∈ gs, x ∈ a) :
    (ent c x).isSingleton (some x) = false ∧ (ent c x).isNull = false := by
  obtain ⟨a, ha, hxa⟩ := hx
  obtain ⟨j, hj⟩ := List.mem_iff_getElem?.mp hxa
  rw [h.chain a ha j x hj]
  exact ⟨chainEntry_isSingleton (h.nodup a ha) (h.two a ha) hj, chainEntry_isNull hj⟩

theorem Ungrouped.reset_null {c : Coll} {i : Nat} (h : Ungrouped c i) :
    ent (resetSingleton c (some i) i) i = MultiElementId.null := by
  rw [ent_resetSingleton]
  rcases h with h | h
  · simp [h]
  · simp [h, MultiElementId.isSingleton, MultiElementId.isHead, MultiElementId.isTail, idIsNull]

theorem Represents.of_resetSingleton {c : Coll} {gs : List (List Nat)} (h : Represents c gs)
    (i : Nat) : Represents (resetSingleton c (some i) i) gs := by
  refine h.congr (length_resetSingleton _ _ _) ?_ ?_
  · intro x hx
    rw [ent_resetSingleton]
    by_cases hxi : x = i
    · subst hxi
      simp [(h.member_entry hx).1]
    · simp [hxi]
  · intro x hxl hx
    by_cases hxi : x = i
    · subst hxi
      exact Or.inl (h.rest x hxl hx).reset_null
    · have := h.rest x hxl hx
      unfold Ungrouped at this ⊢
      rw [ent_resetSingleton]
      simpa [hxi] using this

theorem ent_resetSingleton_of_ne {c : Coll} {i x : Nat} (h : x ≠ i) :
    ent (resetSingleton c (some i) i) x = ent c x := by
  rw [ent_resetSingleton]; simp [h]

theorem length_afterResets (c : Coll) (lo hi : Nat) : (afterResets c lo hi).length = c.length := by
  simp [afterResets, length_resetSingleton]

theorem Represents.of_afterResets {c : Coll} {gs : List (List Nat)} (h : Represents c gs)
    (lo hi : Nat) : Represents (afterResets c lo hi) gs :=
  (h.of_resetSingleton lo).of_resetSingleton hi

theorem Represents.of_afterResets_null {c : Coll} {gs : List (List Nat)} (h : Represents c gs)
    {lo hi x : Nat} (hne : lo ≠ hi) (hx : x = lo ∨ x = hi) (hxl : x < c.length)
    (hu : ∀ a ∈ gs, x ∉ a) : ent (afterResets c lo hi) x = MultiElementId.null := by
  unfold afterResets
  rcases hx with rfl | rfl
  · rw [ent_resetSingleton_of_ne hne]
    exact (h.rest x hxl hu).reset_null
  · have h1 := h.of_resetSingleton lo
    exact (h1.rest x (by rw [length_resetSingleton]; exact hxl) hu).reset_null

/-! ## `add` into an existing group -/

/-- Putting the ungrouped id `e` into the group `g` at position `p`, given the entries
of the new chain and that nothing else changed. -/
theorem Represents.insert {c c' : Coll} {gs : List (List Nat)} (h : Represents c gs)
    {g : List Nat} (hg : g ∈ gs) {e : Nat} (hel : e < c.length) (heg : ∀ a ∈ gs, e ∉ a)
    (p : Nat) (hlen : c'.length = c.length)
    (hchain : ∀ j x, (insAt g p e)[j]? = some x → ent c' x = chainEntry (insAt g p e) j)
    (hframe : ∀ x, x ∉ g → x ≠ e → ent c' x = ent c x) :
    Represents c' (insAt g p e :: gs.filter (fun b => decide (b ≠ g))) := by
  refine h.replace hlen g (insAt g p e) (Or.inl hg) ?_ ?_ ?_ ?_ hchain ?_ ?_
  · rw [length_insAt]; have := h.two g hg; omega
  · exact nodup_insAt (h.nodup g hg) (heg g hg)
  · intro x hx
    rcases (mem_insAt g p e x).mp hx with rfl | hx
    · exact hel
    · exact h.bound g hg x hx
  · intro x hx
    rcases (mem_insAt g p e x).mp hx with rfl | hx
    · exact Or.inr heg
    · exact Or.inl hx
  · intro x hxg hxg'
    exact hframe x hxg (fun hxe => hxg' ((mem_insAt g p e x).mpr (Or.inl hxe)))
  · intro x hxg hxg'
    exact absurd ((mem_insAt g p e x).mpr (Or.inr hxg)) hxg'

theorem addBranches_member_low {c : Coll} {gs : List (List Nat)} (h : Represents c gs)
    {g : List Nat} (hg : g ∈ gs) {k s e : Nat} (hk : g[k]? = some s) (hel : e < c.length)
    (heg : ∀ a ∈ gs, e ∉ a) (he : ent c e = MultiElementId.null) :
    ∃ c', addBranches c (some s) (some e) s e = .ok c' ∧ c'.length = c.length
      ∧ Represents c' (insAt g (k + 1) e :: gs.filter (fun b => decide (b ≠ g))) := by
  have hnd := h.nodup g hg
  have h2 := h.two g hg
  have hkl := lt_of_getElem? hk
  have hc := h.chain g hg
  have hb := h.bound g hg
  have hes : e ≠ s := fun hh => heg g hg (hh ▸ mem_of_getElem? hk)
  have hs := hc k s hk
  have hh0 : g[0]? = some g[0] := List.getElem?_eq_getElem (by omega)
  have hnx : ∀ x, x ∉ g → ∀ i, i ∈ g → ¬ i = x := fun x hx i hi hix => hx (hix ▸ hi)
  have hc1 : ((ent c s).isNull && (ent c e).isNull) = false := by
    rw [hs, chainEntry_isNull hk]; rfl
  have hc2 : (ent c e).isHead (some e) = false := by
    rw [he]; rfl
  have hc3 : (ent c s).isTail (some s) = decide (k + 1 = g.length) := by
    rw [hs, chainEntry_isTail hnd hk]
  have hc4 : (ent c s).isNull = false := by
    rw [hs, chainEntry_isNull hk]
  unfold addBranches
  simp only [hc1, hc2, hc3, hc4, Bool.false_eq_true, if_false, decide_eq_true_eq, Bool.not_false,
    if_true]
  by_cases hkt : k + 1 = g.length
  · have hk' : g[g.length - 1]? = some s := by
      rw [← hkt]; simpa using hk
    have hso : (ent c s)._opposite = some g[0] := by
      rw [hs]; simp [chainEntry, hkt, hh0]; omega
    have hsh : s ≠ g[0] := fun hh => by
      have := (idx_inj hnd hk hh0).mp hh; omega
    rw [if_pos hkt, addToTail_eq he hso (hb _ (mem_of_getElem? hh0)) hsh hes]
    refine ⟨_, rfl, by simp [length_setOpposite, length_setNext, length_setPrev], ?_⟩
    have hins : insAt g (k + 1) e = insAt g g.length e := by rw [hkt]
    rw [hins]
    refine h.insert hg hel heg g.length (by simp [length_setOpposite, length_setNext,
      length_setPrev]) (addToTail_chain hc hnd h2 hk' hh0 he (heg g hg) hb hel rfl) ?_
    intro x hxg hxe
    have h1 := hnx x hxg s (mem_of_getElem? hk)
    have h2 := hnx x hxg _ (mem_of_getElem? hh0)
    have h3 : ¬ e = x := fun hh => hxe hh.symm
    simp [ent_setOpposite, ent_setNext, ent_setPrev, h1, h2, h3]
  · have hy : g[k + 1]? = some g[k + 1] := List.getElem?_eq_getElem (by omega)
    have hsn : (ent c s)._next = some g[k + 1] := by
      rw [hs]; simp [chainEntry, hkt, hy]
    rw [if_neg hkt, addAfterLow_eq he hsn (hb _ (mem_of_getElem? hy)) hes]
    refine ⟨_, rfl, by simp [length_setOpposite, length_setNext, length_setPrev], ?_⟩
    refine h.insert hg hel heg (k + 1) (by simp [length_setOpposite, length_setNext,
      length_setPrev]) (addAfterLow_chain hc hnd hk (by omega) he (heg g hg) hb hel rfl) ?_
    intro x hxg hxe
    have h1 := hnx x hxg s (mem_of_getElem? hk)
    have h2 := hnx x hxg _ (mem_of_getElem? hy)
    have h3 : ¬ e = x := fun hh => hxe hh.symm
    simp [ent_setOpposite, ent_setNext, ent_setPrev, h1, h2, h3]

theorem addBranches_member_high {c : Coll} {gs : List (List Nat)} (h : Represents c gs)
    {g : List Nat} (hg : g ∈ gs) {k s e : Nat} (hk : g[k]? = some s) (hel : e < c.length)
    (heg : ∀ a ∈ gs, e ∉ a) (he : ent c e = MultiElementId.null) :
    ∃ c', addBranches c (some e) (some s) e s = .ok c' ∧ c'.length = c.length
      ∧ Represents c' (insAt g k e :: gs.filter (fun b => decide (b ≠ g))) := by
  have hnd := h.nodup g hg
  have h2 := h.two g hg
  have hkl := lt_of_getElem? hk
  have hc := h.chain g hg
  have hb := h.bound g hg
  have hes : e ≠ s := fun hh => heg g hg (hh ▸ mem_of_getElem? hk)
  have hs := hc k s hk
  have hnx : ∀ x, x ∉ g → ∀ i, i ∈ g → ¬ i = x := fun x hx i hi hix => hx (hix ▸ hi)
  have hc1 : ((ent c e).isNull && (ent c s).isNull) = false := by
    rw [hs, chainEntry_isNull hk]; simp
  have hc2 : (ent c s).isHead (some s) = decide (k = 0) := by
    rw [hs, chainEntry_isHead hnd h2 hk]
  have hc3 : (ent c e).isTail (some e) = false := by
    rw [he]; rfl
  have hc4 : (ent c e).isNull = true := by
    rw [he]; rfl
  have hc5 : (ent c s).isNull = false := by
    rw [hs, chainEntry_isNull hk]
  unfold addBranches
  simp only [hc1, hc2, hc3, hc4, hc5, Bool.false_eq_true, if_false, decide_eq_true_eq,
    Bool.not_false, Bool.not_true, if_true]
  by_cases hk0 : k = 0
  · subst hk0
    have ht : g[g.length - 1]? = some g[g.length - 1] := List.getElem?_eq_getElem (by omega)
    have hso : (ent c s)._opposite = some g[g.length - 1] := by
      rw [hs]; simp [chainEntry, ht]
    have hst : s ≠ g[g.length - 1] := fun hh => by
      have := (idx_inj hnd hk ht).mp hh; omega
    rw [if_pos rfl, addToHead_eq he hso (hb _ (mem_of_getElem? ht)) hst hes]
    refine ⟨_, rfl, by simp [length_setOpposite, length_setNext, length_setPrev], ?_⟩
    refine h.insert hg hel heg 0 (by simp [length_setOpposite, length_setNext,
      length_setPrev]) (addToHead_chain hc hnd h2 hk ht he (heg g hg) hb hel rfl) ?_
    intro x hxg hxe
    have h1 := hnx x hxg s (mem_of_getElem? hk)
    have h2 := hnx x hxg _ (mem_of_getElem? ht)
    have h3 : ¬ e = x := fun hh => hxe hh.symm
    simp [ent_setOpposite, ent_setNext, ent_setPrev, h1, h2, h3]
  · obtain ⟨k, rfl⟩ : ∃ i, k = i + 1 := ⟨k - 1, by omega⟩
    have hpv : g[k]? = some g[k] := List.getElem?_eq_getElem (by omega)
    have hsp : (ent c s)._prev = some g[k] := by
      rw [hs]; simp [chainEntry, hpv]
    rw [if_neg hk0, addBeforeHigh_eq he hsp (hb _ (mem_of_getElem? hpv))]
    refine ⟨_, rfl, by simp [length_setOpposite, length_setNext, length_setPrev], ?_⟩
    refine h.insert hg hel heg (k + 1) (by simp [length_setOpposite, length_setNext,
      length_setPrev]) (addBeforeHigh_chain hc hnd hk hpv he (heg g hg) hb hel rfl) ?_
    intro x hxg hxe
    have h1 := hnx x hxg s (mem_of_getElem? hk)
    have h2 := hnx x hxg _ (mem_of_getElem? hpv)
    have h3 : ¬ e = x := fun hh => hxe hh.symm
    simp [ent_setOpposite, ent_setNext, ent_setPrev, h1, h2, h3]

/-! ## `add` of two ungrouped ids, and `add` as a whole -/

theorem ent_addFresh {c : Coll} {lo hi : Nat} (hne : lo ≠ hi) (hlo : lo < c.length)
    (hhi : hi < c.length) (x : Nat) :
    ent (addFresh c (some lo) (some hi) lo hi) x
      = if x = hi then ⟨some lo, some hi, some lo⟩
        else if x = lo then ⟨(ent c lo)._prev, some hi, some hi⟩ else ent c x := by
  have hne' : hi ≠ lo := fun h => hne h.symm
  apply MultiElementId.ext3 <;>
    simp only [addFresh, prev_setPrev, prev_setNext, next_setPrev, next_setNext,
      opposite_setPrev, opposite_setNext, prev_setOpposite, next_setOpposite,
      opposite_setOpposite, length_setPrev, length_setNext, length_setOpposite, hlo, hhi,
      and_true] <;>
    split_ifs <;> first | rfl | omega | contradiction | (subst_vars; rfl)

theorem length_addFresh (c : Coll) (lowId highId : ElementId) (lo hi : Nat) :
    (addFresh c lowId highId lo hi).length = c.length := by
  simp [addFresh, length_setPrev, length_setNext, length_setOpposite]

theorem addBranches_fresh {c : Coll} {gs : List (List Nat)} (h : Represents c gs)
    {lo hi : Nat} (hlt : lo < hi) (hhi : hi < c.length)
    (hlg : ∀ a ∈ gs, lo ∉ a) (hhg : ∀ a ∈ gs, hi ∉ a)
    (hl0 : ent c lo = MultiElementId.null) (hh0 : ent c hi = MultiElementId.null) :
    ∃ c', addBranches c (some lo) (some hi) lo hi = .ok c' ∧ c'.length = c.length
      ∧ Represents c' ([lo, hi] :: gs) := by
  have hlo : lo < c.length := by omega
  have hne : lo ≠ hi := by omega
  have hc1 : ((ent c lo).isNull && (ent c hi).isNull) = true := by
    rw [hl0, hh0]; rfl
  refine ⟨addFresh c (some lo) (some hi) lo hi, ?_, length_addFresh _ _ _ _ _, ?_⟩
  · unfold addBranches
    rw [if_pos hc1]; rfl
  · have hr := h.replace (length_addFresh c (some lo) (some hi) lo hi) [] [lo, hi]
      (Or.inr rfl) (by simp) (by simp [hne]) ?_ ?_ ?_ ?_ ?_
    · rwa [filter_ne_of_not_mem h.nil_not_mem] at hr
    · intro x hx
      simp only [List.mem_cons, List.mem_singleton, List.not_mem_nil, or_false] at hx
      rcases hx with rfl | rfl <;> assumption
    · intro x hx
      simp only [List.mem_cons, List.mem_singleton, List.not_mem_nil, or_false] at hx
      rcases hx with rfl | rfl
      · exact Or.inr hlg
      · exact Or.inr hhg
    · intro j x hx
      rw [ent_addFresh hne hlo hhi]
      match j, hx with
      | 0, hx =>
        simp only [List.getElem?_cons_zero, Option.some.injEq] at hx
        subst hx
        simp [hne, chainEntry, hl0, MultiElementId.null]
      | 1, hx =>
        simp only [List.getElem?_cons_succ, List.getElem?_cons_zero, Option.some.injEq] at hx
        subst hx
        simp [chainEntry]
      | j + 2, hx => simp at hx
    · intro x _ hx
      simp only [List.mem_cons, List.mem_singleton, List.not_mem_nil, or_false, not_or] at hx
      rw [ent_addFresh hne hlo hhi]
      simp [hx.1, hx.2]
    · intro x hx
      simp at hx

/-- Adding the ungrouped id `e` to the group member `s` puts `e` right before `s` when
`e < s` and right after `s` otherwise. -/
theorem add_member {c : Coll} {gs : List (List Nat)} (h : Represents c gs)
    {g : List Nat} (hg : g ∈ gs) {k s e : Nat} (hk : g[k]? = some s) (hel : e < c.length)
    (heg : ∀ a ∈ gs, e ∉ a) :
    ∃ c', add c (some s) (some e) = .ok (c', some (min s e)) ∧ c'.length = c.length
      ∧ Represents c' (insAt g (if e < s then k else k + 1) e
          :: gs.filter (fun b => decide (b ≠ g))) := by
  have hsl : s < c.length := h.bound g hg s (mem_of_getElem? hk)
  have hes : e ≠ s := fun hh => heg g hg (hh ▸ mem_of_getElem? hk)
  rcases Nat.lt_or_gt_of_ne hes with hlt | hlt
  · have h0 := h.of_afterResets e s
    have he0 := h.of_afterResets_null (Nat.ne_of_lt hlt) (Or.inl rfl) hel heg
    have hel0 : e < (afterResets c e s).length := by rw [length_afterResets]; exact hel
    obtain ⟨c', hc', hl', hr⟩ := addBranches_member_high h0 hg hk hel0 heg he0
    refine ⟨c', ?_, by rw [hl', length_afterResets], ?_⟩
    · rw [add_of_gt c e s hlt hsl, hc', Nat.min_eq_right (Nat.le_of_lt hlt)]; rfl
    · rwa [if_pos hlt]
  · have h0 := h.of_afterResets s e
    have he0 := h.of_afterResets_null (Nat.ne_of_lt hlt) (Or.inr rfl) hel heg
    have hel0 : e < (afterResets c s e).length := by rw [length_afterResets]; exact hel
    obtain ⟨c', hc', hl', hr⟩ := addBranches_member_low h0 hg hk hel0 heg he0
    refine ⟨c', ?_, by rw [hl', length_afterResets], ?_⟩
    · rw [add_of_lt c s e hlt hel, hc', Nat.min_eq_left (Nat.le_of_lt hlt)]; rfl
    · rwa [if_neg (by omega)]

/-- Adding an ungrouped id to another ungrouped id forms the group of the two, the lower
id first. -/
theorem add_fresh {c : Coll} {gs : List (List Nat)} (h : Represents c gs)
    {s e : Nat} (hne : s ≠ e) (hsl : s < c.length) (hel : e < c.length)
    (hsg : ∀ a ∈ gs, s ∉ a) (heg : ∀ a ∈ gs, e ∉ a) :
    ∃ c', add c (some s) (some e) = .ok (c', some (min s e)) ∧ c'.length = c.length
      ∧ Represents c' ([min s e, max s e] :: gs) := by
  rcases Nat.lt_or_gt_of_ne hne with hlt | hlt
  · have h0 := h.of_afterResets s e
    have hs0 := h.of_afterResets_null (Nat.ne_of_lt hlt) (Or.inl rfl) hsl hsg
    have he0 := h.of_afterResets_null (Nat.ne_of_lt hlt) (Or.inr rfl) hel heg
    have hel0 : e < (afterResets c s e).length := by rw [length_afterResets]; exact hel
    obtain ⟨c', hc', hl', hr⟩ := addBranches_fresh h0 hlt hel0 hsg heg hs0 he0
    refine ⟨c', ?_, by rw [hl', length_afterResets], ?_⟩
    · rw [add_of_lt c s e hlt hel, hc', Nat.min_eq_left (Nat.le_of_lt hlt)]; rfl
    · rwa [Nat.min_eq_left (Nat.le_of_lt hlt), Nat.max_eq_right (Nat.le_of_lt hlt)]
  · have h0 := h.of_afterResets e s
    have hs0 := h.of_afterResets_null (Nat.ne_of_lt hlt) (Or.inr rfl) hsl hsg
    have he0 := h.of_afterResets_null (Nat.ne_of_lt hlt) (Or.inl rfl) hel heg
    have hsl0 : s < (afterResets c e s).length := by rw [length_afterResets]; exact hsl
    obtain ⟨c', hc', hl', hr⟩ := addBranches_fresh h0 hlt hsl0 heg hsg he0 hs0
    refine ⟨c', ?_, by rw [hl', length_afterResets], ?_⟩
    · rw [add_of_gt c e s hlt hsl, hc', Nat.min_eq_right (Nat.le_of_lt hlt)]; rfl
    · rwa [Nat.min_eq_right (Nat.le_of_lt hlt), Nat.max_eq_left (Nat.le_of_lt hlt)]

/-! ## The branches of `remove` on a well-formed vector -/

theorem prev_set (c : Coll) (i x : Nat) (m : MultiElementId) :
    (ent (c.set i m) x)._prev = if x = i ∧ i < c.length then m._prev else (ent c x)._prev := by
  rw [ent_set']; split <;> rfl

theorem next_set (c : Coll) (i x : Nat) (m : MultiElementId) :
    (ent (c.set i m) x)._next = if x = i ∧ i < c.length then m._next else (ent c x)._next := by
  rw [ent_set']; split <;> rfl

theorem opposite_set (c : Coll) (i x : Nat) (m : MultiElementId) :
    (ent (c.set i m) x)._opposite
      = if x = i ∧ i < c.length then m._opposite else (ent c x)._opposite := by
  rw [ent_set']; split <;> rfl

theorem length_eraseIdx_of_lt {g : List Nat} {k : Nat} (hk : k < g.length) :
    (g.eraseIdx k).length = g.length - 1 := by
  rw [List.length_eraseIdx]; simp [hk]

/-- A property of the positions of `g.eraseIdx k` holds when it holds before and from the
position of the member that left. -/
theorem eraseIdx_cases {g : List Nat} {k : Nat} {P : Nat → Nat → Prop}
    (hlt : ∀ j x, j < k → g[j]? = some x → P j x)
    (hge : ∀ j x, k ≤ j → g[j + 1]? = some x → P j x) :
    ∀ j x, (g.eraseIdx k)[j]? = some x → P j x := by
  intro j x hx
  rw [List.getElem?_eraseIdx] at hx
  by_cases hj : j < k
  · rw [if_pos hj] at hx
    exact hlt j x hj hx
  · rw [if_neg hj] at hx
    exact hge j x (by omega) hx

theorem removeMiddle_eq {c : Coll} {e pv nx : Nat}
    (hp : (ent c e)._prev = some pv) (hn : (ent c e)._next = some nx)
    (hpl : pv < c.length) (hnl : nx < c.length) :
    removeMiddle c e
      = .ok ((setPrev (setNext c pv (some nx)) nx (some pv)).set e ⟨none, none, none⟩) := by
  simp only [removeMiddle, qAssert, hp, hn, idIsNull, index, hpl, hnl, bind, Except.bind, pure,
    Except.pure, Option.isNone_some, Bool.not_false, if_true, MultiElementId.setToNull]
  simp [prev_setNext, hp, length_setNext, hnl]

theorem removeMiddle_chain {c : Coll} {g : List Nat} {k e pv nx : Nat}
    (hc : ∀ j x, g[j]? = some x → ent c x = chainEntry g j)
    (hnd : g.Nodup) (hpv : g[k]? = some pv) (hk : g[k + 1]? = some e)
    (hnx : g[k + 2]? = some nx) (hb : ∀ x ∈ g, x < c.length) {c' : Coll}
    (hc' : c' = (setPrev (setNext c pv (some nx)) nx (some pv)).set e ⟨none, none, none⟩) :
    ∀ j x, (g.eraseIdx (k + 1))[j]? = some x → ent c' x = chainEntry (g.eraseIdx (k + 1)) j := by
  have hkl := lt_of_getElem? hnx
  have hel : e < c.length := hb e (mem_of_getElem? hk)
  have hpl : pv < c.length := hb _ (mem_of_getElem? hpv)
  have hnl : nx < c.length := hb _ (mem_of_getElem? hnx)
  have hG : ∀ i, (g.eraseIdx (k + 1))[i]? = if i < k + 1 then g[i]? else g[i + 1]? :=
    fun i => List.getElem?_eraseIdx _ _ _
  have hL : (g.eraseIdx (k + 1)).length = g.length - 1 := length_eraseIdx_of_lt (by omega)
  refine eraseIdx_cases (P := fun j x => ent c' x = chainEntry (g.eraseIdx (k + 1)) j) ?_ ?_
    <;> subst hc'
  · intro j x hj hx
    have hxe : x = e ↔ j = k + 1 := idx_inj hnd hx hk
    have hxp : x = pv ↔ j = k := idx_inj hnd hx hpv
    have hxn : x = nx ↔ j = k + 2 := idx_inj hnd hx hnx
    have hcx := hc j x hx
    apply MultiElementId.ext3 <;>
      simp only [prev_setPrev, prev_setNext, next_setPrev, next_setNext, opposite_setPrev,
        opposite_setNext, prev_set, next_set, opposite_set, length_setPrev, length_setNext,
        hxe, hxp, hxn, hcx, chainEntry, hG, hL, hel, hpl, hnl, hx, and_true, false_and,
        if_false] <;>
      split_ifs <;>
      first | rfl | omega | contradiction | (simp [hk, hpv, hnx]; done) | (congr 1; omega) |
        (rw [← hnx]; congr 1; omega) | (rw [← hpv]; congr 1; omega) | (rw [← hk]; congr 1; omega)
  · intro j x hj hx
    have hxe : x = e ↔ j + 1 = k + 1 := idx_inj hnd hx hk
    have hxp : x = pv ↔ j + 1 = k := idx_inj hnd hx hpv
    have hxn : x = nx ↔ j + 1 = k + 2 := idx_inj hnd hx hnx
    have hcx := hc (j + 1) x hx
    apply MultiElementId.ext3 <;>
      simp only [prev_setPrev, prev_setNext, next_setPrev, next_setNext, opposite_setPrev,
        opposite_setNext, prev_set, next_set, opposite_set, length_setPrev, length_setNext,
        hxe, hxp, hxn, hcx, chainEntry, hG, hL, hel, hpl, hnl, hx, and_true, false_and,
        if_false, Nat.add_sub_cancel] <;>
      split_ifs <;>
      first | rfl | omega | contradiction | (simp [hk, hpv, hnx]; done) | (congr 1; omega) |
        (rw [← hnx]; congr 1; omega) | (rw [← hpv]; congr 1; omega) | (rw [← hk]; congr 1; omega)

theorem removeHead_eq {c : Coll} {e nh t : Nat}
    (hn : (ent c e)._next = some nh) (ho : (ent c e)._opposite = some t)
    (hnl : nh < c.length) (htl : t < c.length) :
    removeHead c e
      = .ok ((setOpposite (setPrev (setOpposite c nh (some t)) nh none) t (some nh)).set e
          ⟨none, none, none⟩) := by
  simp only [removeHead, qAssert, hn, ho, idIsNull, index, hnl, htl, bind, Except.bind, pure,
    Except.pure, Option.isNone_some, Bool.not_false, if_true, MultiElementId.setToNull]
  simp [next_setPrev, next_setOpposite, hn]

theorem removeHead_chain {c : Coll} {g : List Nat} {e nh t : Nat}
    (hc : ∀ j x, g[j]? = some x → ent c x = chainEntry g j)
    (hnd : g.Nodup) (h3 : 3 ≤ g.length) (hk : g[0]? = some e) (hnh : g[1]? = some nh)
    (ht : g[g.length - 1]? = some t) (hb : ∀ x ∈ g, x < c.length) {c' : Coll}
    (hc' : c' = (setOpposite (setPrev (setOpposite c nh (some t)) nh none) t (some nh)).set e
          ⟨none, none, none⟩) :
    ∀ j x, (g.eraseIdx 0)[j]? = some x → ent c' x = chainEntry (g.eraseIdx 0) j := by
  have hel : e < c.length := hb e (mem_of_getElem? hk)
  have hnl : nh < c.length := hb _ (mem_of_getElem? hnh)
  have htl : t < c.length := hb _ (mem_of_getElem? ht)
  have hG : ∀ i, (g.eraseIdx 0)[i]? = if i < 0 then g[i]? else g[i + 1]? :=
    fun i => List.getElem?_eraseIdx _ _ _
  have hL : (g.eraseIdx 0).length = g.length - 1 := length_eraseIdx_of_lt (by omega)
  refine eraseIdx_cases (P := fun j x => ent c' x = chainEntry (g.eraseIdx 0) j) ?_ ?_
    <;> subst hc'
  · intro j x hj hx
    omega
  · intro j x hj hx
    have hjl := lt_of_getElem? hx
    have hxe : x = e ↔ j + 1 = 0 := idx_inj hnd hx hk
    have hxn : x = nh ↔ j + 1 = 1 := idx_inj hnd hx hnh
    have hxt : x = t ↔ j + 1 = g.length - 1 := idx_inj hnd hx ht
    have hcx := hc (j + 1) x hx
    apply MultiElementId.ext3 <;>
      simp only [prev_setPrev, prev_setNext, next_setPrev, next_setNext, opposite_setPrev,
        opposite_setNext, prev_setOpposite, next_setOpposite, opposite_setOpposite, prev_set,
        next_set, opposite_set, length_setPrev, length_setNext, length_setOpposite,
        hxe, hxn, hxt, hcx, chainEntry, hG, hL, hel, hnl, htl, hx, and_true, false_and,
        if_false, Nat.add_sub_cancel] <;>
      split_ifs <;>
      first | rfl | omega | contradiction | (simp [hk, hnh, ht]; done) | (congr 1; omega) |
        (rw [← hnh]; congr 1; omega) | (rw [← ht]; congr 1; omega) | (rw [← hk]; congr 1; omega)

theorem removeTail_eq {c : Coll} {e h nt : Nat}
    (ho : (ent c e)._opposite = some h) (hp : (ent c e)._prev = some nt)
    (hhl : h < c.length) (hnl : nt < c.length) (heh : e ≠ h) :
    removeTail c e
      = .ok ((setOpposite (setNext (setOpposite c h (some nt)) nt (some nt)) nt (some h)).set e
          ⟨none, none, none⟩) := by
  simp only [removeTail, qAssert, hp, ho, idIsNull, index, hnl, hhl, bind, Except.bind, pure,
    Except.pure, Option.isNone_some, Bool.not_false, if_true, MultiElementId.setToNull]
  simp [prev_setOpposite, opposite_setNext, opposite_setOpposite, hp, ho, heh]

theorem removeTail_chain {c : Coll} {g : List Nat} {m e h nt : Nat}
    (hc : ∀ j x, g[j]? = some x → ent c x = chainEntry g j)
    (hnd : g.Nodup) (hm : g.length = m + 3) (hk : g[m + 2]? = some e)
    (hnt : g[m + 1]? = some nt) (hh : g[0]? = some h) (hb : ∀ x ∈ g, x < c.length) {c' : Coll}
    (hc' : c' = (setOpposite (setNext (setOpposite c h (some nt)) nt (some nt)) nt
          (some h)).set e ⟨none, none, none⟩) :
    ∀ j x, (g.eraseIdx (m + 2))[j]? = some x → ent c' x = chainEntry (g.eraseIdx (m + 2)) j := by
  have hel : e < c.length := hb e (mem_of_getElem? hk)
  have hnl : nt < c.length := hb _ (mem_of_getElem? hnt)
  have hhl : h < c.length := hb _ (mem_of_getElem? hh)
  have hG : ∀ i, (g.eraseIdx (m + 2))[i]? = if i < m + 2 then g[i]? else g[i + 1]? :=
    fun i => List.getElem?_eraseIdx _ _ _
  have hL : (g.eraseIdx (m + 2)).length = m + 2 := by
    rw [length_eraseIdx_of_lt (by omega)]; omega
  refine eraseIdx_cases (P := fun j x => ent c' x = chainEntry (g.eraseIdx (m + 2)) j) ?_ ?_
    <;> subst hc'
  · intro j x hj hx
    have hxe : x = e ↔ j = m + 2 := idx_inj hnd hx hk
    have hxn : x = nt ↔ j = m + 1 := idx_inj hnd hx hnt
    have hxh : x = h ↔ j = 0 := idx_inj hnd hx hh
    have hcx := hc j x hx
    apply MultiElementId.ext3 <;>
      simp only [prev_setPrev, prev_setNext, next_setPrev, next_setNext, opposite_setPrev,
        opposite_setNext, prev_setOpposite, next_setOpposite, opposite_setOpposite, prev_set,
        next_set, opposite_set, length_setPrev, length_setNext, length_setOpposite,
        hxe, hxn, hxh, hcx, chainEntry, hG, hL, hm, hel, hnl, hhl, hx, and_true, false_and,
        if_false, Nat.add_sub_cancel] <;>
      split_ifs <;>
      first | rfl | omega | contradiction | (simp [hk, hnt, hh]; done) | (congr 1; omega) |
        (rw [← hnt]; congr 1; omega) | (rw [← hh]; congr 1; omega) | (rw [← hk]; congr 1; omega)
  · intro j x hj hx
    have hjl := lt_of_getElem? hx
    omega

/-! ## `remove` as a whole -/

theorem mem_eraseIdx_of_ne {g : List Nat} {k e x : Nat} (hk : g[k]? = some e) (hx : x ∈ g)
    (hne : x ≠ e) : x ∈ g.eraseIdx k := by
  obtain ⟨i, hi⟩ := List.mem_iff_getElem?.mp hx
  have hik : i ≠ k := fun h => hne (by rw [h, hk] at hi; exact (Option.some.inj hi).symm)
  rw [List.mem_iff_getElem?]
  rcases Nat.lt_or_gt_of_ne hik with hlt | hgt
  · exact ⟨i, by rw [List.getElem?_eraseIdx, if_pos hlt]; exact hi⟩
  · refine ⟨i - 1, ?_⟩
    rw [List.getElem?_eraseIdx, if_neg (by omega)]
    have : i - 1 + 1 = i := by omega
    rw [this]; exact hi

theorem mem_of_mem_eraseIdx' {g : List Nat} {k x : Nat} (hx : x ∈ g.eraseIdx k) : x ∈ g :=
  (List.eraseIdx_sublist g k).subset hx

theorem not_mem_eraseIdx_self {g : List Nat} (hnd : g.Nodup) {k e : Nat} (hk : g[k]? = some e) :
    e ∉ g.eraseIdx k := by
  intro hm
  obtain ⟨i, hi⟩ := List.mem_iff_getElem?.mp hm
  rw [List.getElem?_eraseIdx] at hi
  by_cases hlt : i < k
  · rw [if_pos hlt] at hi
    have := (idx_inj hnd hi hk).mp rfl
    omega
  · rw [if_neg hlt] at hi
    have := (idx_inj hnd hi hk).mp rfl
    omega

/-- Taking the member `e` at position `k` out of the group `g` of at least three
members, given the entries of the new chain, a null entry for `e` and that nothing else
changed. -/
theorem Represents.erase {c c' : Coll} {gs : List (List Nat)} (h : Represents c gs)
    {g : List Nat} (hg : g ∈ gs) {k e : Nat} (hk : g[k]? = some e) (h3 : 3 ≤ g.length)
    (hlen : c'.length = c.length)
    (hchain : ∀ j x, (g.eraseIdx k)[j]? = some x → ent c' x = chainEntry (g.eraseIdx k) j)
    (hframe : ∀ x, x ∉ g → ent c' x = ent c x)
    (he : ent c' e = MultiElementId.null) :
    Represents c' (g.eraseIdx k :: gs.filter (fun b => decide (b ≠ g))) := by
  have hkl := lt_of_getElem? hk
  refine h.replace hlen g (g.eraseIdx k) (Or.inl hg) ?_ ?_ ?_ ?_ hchain ?_ ?_
  · rw [length_eraseIdx_of_lt hkl]; omega
  · exact (h.nodup g hg).sublist (List.eraseIdx_sublist g k)
  · intro x hx
    exact h.bound g hg x (mem_of_mem_eraseIdx' hx)
  · intro x hx
    exact Or.inl (mem_of_mem_eraseIdx' hx)
  · intro x hxg _
    exact hframe x hxg
  · intro x hxg hxg' _
    have hxe : x = e := by
      by_contra hne
      exact hxg' (mem_eraseIdx_of_ne hk hxg hne)
    rw [hxe]
    exact Or.inl he

theorem ent_set_self' {c : Coll} {i : Nat} (m : MultiElementId) (hi : i < c.length) :
    ent (c.set i m) i = m := by
  rw [ent_set']; simp [hi]

theorem remove_some {c : Coll} {e : Nat} (hel : e < c.length) :
    remove c (some e)
      = if (ent c e).isNull then .ok c
        else if (ent c e)._next = (ent c e)._opposite then removeLeavingTail c e
        else if (ent c e)._prev = (ent c e)._opposite then removeLeavingHead c e
        else if (ent c e).isHead (some e) then removeHead c e
        else if (ent c e).isTail (some e) then removeTail c e
        else removeMiddle c e := by
  simp only [remove, qAssert, idIsNull, index, hel, bind, Except.bind, pure, Except.pure,
    Option.isNone_some, Bool.not_false, if_true]

theorem remove_member_big {c : Coll} {gs : List (List Nat)} (h : Represents c gs)
    {g : List Nat} (hg : g ∈ gs) {k e : Nat} (hk : g[k]? = some e) (h3 : 3 ≤ g.length) :
    ∃ c', remove c (some e) = .ok c' ∧ c'.length = c.length
      ∧ Represents c' (g.eraseIdx k :: gs.filter (fun b => decide (b ≠ g)))
      ∧ ent c' e = MultiElementId.null := by
  have hnd := h.nodup g hg
  have h2 := h.two g hg
  have hkl := lt_of_getElem? hk
  have hc := h.chain g hg
  have hb := h.bound g hg
  have hel : e < c.length := hb e (mem_of_getElem? hk)
  have hs := hc k e hk
  have hnx : ∀ x, x ∉ g → ∀ i, i ∈ g → ¬ x = i := fun x hx i hi hix => hx (hix ▸ hi)
  have hnull : (ent c e).isNull = false := by rw [hs, chainEntry_isNull hk]
  have hhead : (ent c e).isHead (some e) = decide (k = 0) := by
    rw [hs, chainEntry_isHead hnd h2 hk]
  have htail : (ent c e).isTail (some e) = decide (k + 1 = g.length) := by
    rw [hs, chainEntry_isTail hnd hk]
  have hh0 : g[0]? = some g[0] := List.getElem?_eq_getElem (by omega)
  have ht0 : g[g.length - 1]? = some g[g.length - 1] := List.getElem?_eq_getElem (by omega)
  rw [remove_some hel, hnull, hhead, htail]
  simp only [Bool.false_eq_true, if_false, decide_eq_true_eq]
  by_cases hk0 : k = 0
  · subst hk0
    have h1 : g[1]? = some g[1] := List.getElem?_eq_getElem (by omega)
    have hn : (ent c e)._next = some g[1] := by
      rw [hs]; simp [chainEntry, h1]; omega
    have ho : (ent c e)._opposite = some g[g.length - 1] := by
      rw [hs]; simp [chainEntry, ht0]
    have hp : (ent c e)._prev = none := by
      rw [hs]; simp [chainEntry]
    have hne1 : g[1] ≠ g[g.length - 1] := fun hh => by
      have := (idx_inj hnd h1 ht0).mp hh; omega
    have hA : ¬ (ent c e)._next = (ent c e)._opposite := by
      rw [hn, ho]; simpa using hne1
    have hB : ¬ (ent c e)._prev = (ent c e)._opposite := by
      rw [hp, ho]; simp
    rw [if_neg hA, if_neg hB, if_pos rfl,
      removeHead_eq hn ho (hb _ (mem_of_getElem? h1)) (hb _ (mem_of_getElem? ht0))]
    refine ⟨_, rfl, by simp [length_setOpposite, length_setNext, length_setPrev], ?_, ?_⟩
    · refine h.erase hg hk h3 (by simp [length_setOpposite, length_setPrev])
        (removeHead_chain hc hnd h3 hk h1 ht0 hb rfl) ?_ ?_
      · intro x hxg
        have h1' := hnx x hxg e (mem_of_getElem? hk)
        have h2' := hnx x hxg _ (mem_of_getElem? h1)
        have h3' := hnx x hxg _ (mem_of_getElem? ht0)
        simp [ent_set', ent_setOpposite, ent_setPrev, h1', h2', h3', eq_comm]
      · exact ent_set_self' _ (by simp [length_setOpposite, length_setPrev, hel])
    · exact ent_set_self' _ (by simp [length_setOpposite, length_setPrev, hel])
  · obtain ⟨k, rfl⟩ : ∃ i, k = i + 1 := ⟨k - 1, by omega⟩
    have hpv : g[k]? = some g[k] := List.getElem?_eq_getElem (by omega)
    have hp : (ent c e)._prev = some g[k] := by
      rw [hs]; simp [chainEntry, hpv]
    by_cases hkt : k + 1 + 1 = g.length
    · have hm : g.length = (k - 1) + 3 := by omega
      have hk' : g[(k - 1) + 2]? = some e := by
        have : k - 1 + 2 = k + 1 := by omega
        rw [this]; exact hk
      have hpv' : g[(k - 1) + 1]? = some g[k] := by
        have : k - 1 + 1 = k := by omega
        rw [this]; exact hpv
      have hn : (ent c e)._next = some e := by
        rw [hs]; simp [chainEntry, hkt, hk]
      have ho : (ent c e)._opposite = some g[0] := by
        rw [hs]; simp [chainEntry, hkt, hh0]
      have heh : e ≠ g[0] := fun hh => by
        have := (idx_inj hnd hk hh0).mp hh; omega
      have hne1 : g[k] ≠ g[0] := fun hh => by
        have := (idx_inj hnd hpv hh0).mp hh; omega
      have hA : ¬ (ent c e)._next = (ent c e)._opposite := by
        rw [hn, ho]; simpa using heh
      have hB : ¬ (ent c e)._prev = (ent c e)._opposite := by
        rw [hp, ho]; simpa using hne1
      rw [if_neg hA, if_neg hB, if_neg (by omega), if_pos hkt,
        removeTail_eq ho hp (hb _ (mem_of_getElem? hh0)) (hb _ (mem_of_getElem? hpv)) heh]
      have hidx : g.eraseIdx (k + 1) = g.eraseIdx (k - 1 + 2) := by
        congr 1; omega
      refine ⟨_, rfl, by simp [length_setOpposite, length_setNext, length_setPrev], ?_, ?_⟩
      · refine h.erase hg hk h3 (by simp [length_setOpposite, length_setNext]) ?_ ?_ ?_
        · rw [hidx]
          exact removeTail_chain hc hnd hm hk' hpv' hh0 hb rfl
        · intro x hxg
          have h1' := hnx x hxg e (mem_of_getElem? hk)
          have h2' := hnx x hxg _ (mem_of_getElem? hpv)
          have h3' := hnx x hxg _ (mem_of_getElem? hh0)
          simp [ent_set', ent_setOpposite, ent_setNext, h1', h2', h3', eq_comm]
        · exact ent_set_self' _ (by simp [length_setOpposite, length_setNext, hel])
      · exact ent_set_self' _ (by simp [length_setOpposite, length_setNext, hel])
    · have hnxt : g[k + 2]? = some g[k + 2] := List.getElem?_eq_getElem (by omega)
      have hn : (ent c e)._next = some g[k + 2] := by
        rw [hs]; simp [chainEntry, hkt, hnxt]
      have ho : (ent c e)._opposite = none := by
        rw [hs]; simp [chainEntry, hkt]
      have hA : ¬ (ent c e)._next = (ent c e)._opposite := by
        rw [hn, ho]; simp
      have hB : ¬ (ent c e)._prev = (ent c e)._opposite := by
        rw [hp, ho]; simp
      rw [if_neg hA, if_neg hB, if_neg (by omega), if_neg hkt,
        removeMiddle_eq hp hn (hb _ (mem_of_getElem? hpv)) (hb _ (mem_of_getElem? hnxt))]
      refine ⟨_, rfl, by simp [length_setOpposite, length_setNext, length_setPrev], ?_, ?_⟩
      · refine h.erase hg hk h3 (by simp [length_setPrev, length_setNext])
          (removeMiddle_chain hc hnd hpv hk hnxt hb rfl) ?_ ?_
        · intro x hxg
          have h1' := hnx x hxg e (mem_of_getElem? hk)
          have h2' := hnx x hxg _ (mem_of_getElem? hpv)
          have h3' := hnx x hxg _ (mem_of_getElem? hnxt)
          simp [ent_set', ent_setPrev, ent_setNext, h1', h2', h3', eq_comm]
        · exact ent_set_self' _ (by simp [length_setPrev, length_setNext, hel])
      · exact ent_set_self' _ (by simp [length_setPrev, length_setNext, hel])

theorem removeLeavingTail_eq {c : Coll} {e t : Nat} (hn : (ent c e)._next = some t)
    (htl : t < c.length) :
    removeLeavingTail c e
      = .ok ((c.set t ⟨some t, some t, some t⟩).set e ⟨none, none, none⟩) := by
  simp only [removeLeavingTail, hn, index, htl, bind, Except.bind, pure, Except.pure, if_true,
    MultiElementId.setToNull, MultiElementId.setToSingleton]

theorem removeLeavingHead_eq {c : Coll} {e h : Nat} (hp : (ent c e)._prev = some h)
    (hhl : h < c.length) :
    removeLeavingHead c e
      = .ok ((c.set h ⟨some h, some h, some h⟩).set e ⟨none, none, none⟩) := by
  simp only [removeLeavingHead, hp, index, hhl, bind, Except.bind, pure, Except.pure, if_true,
    MultiElementId.setToNull, MultiElementId.setToSingleton]

/-- Removing a member of a group of two dissolves the group: the removed id gets a null
entry, the other member the singleton entry. -/
theorem remove_member_two {c : Coll} {gs : List (List Nat)} (h : Represents c gs)
    {g : List Nat} (hg : g ∈ gs) {k e : Nat} (hk : g[k]? = some e) (h2 : g.length = 2) :
    ∃ c', remove c (some e) = .ok c' ∧ c'.length = c.length
      ∧ Represents c' (gs.filter (fun b => decide (b ≠ g)))
      ∧ ent c' e = MultiElementId.null
      ∧ (∀ x ∈ g, x ≠ e → ent c' x = ⟨some x, some x, some x⟩)
      ∧ (∀ x, x ∉ g → ent c' x = ent c x) := by
  have hnd := h.nodup g hg
  have hkl := lt_of_getElem? hk
  have hc := h.chain g hg
  have hb := h.bound g hg
  have hel : e < c.length := hb e (mem_of_getElem? hk)
  have hs := hc k e hk
  have hnx : ∀ x, x ∉ g → ∀ i, i ∈ g → ¬ x = i := fun x hx i hi hix => hx (hix ▸ hi)
  have hnull : (ent c e).isNull = false := by rw [hs, chainEntry_isNull hk]
  have hh0 : g[0]? = some g[0] := List.getElem?_eq_getElem (by omega)
  have hh1 : g[1]? = some g[1] := List.getElem?_eq_getElem (by omega)
  have h01 : g[0] ≠ g[1] := fun hh => by
    have := (idx_inj hnd hh0 hh1).mp hh; omega
  have hmem : ∀ x ∈ g, x = g[0] ∨ x = g[1] := by
    intro x hx
    obtain ⟨i, hi⟩ := List.mem_iff_getElem?.mp hx
    have hil := lt_of_getElem? hi
    have hi01 : i = 0 ∨ i = 1 := by omega
    rcases hi01 with rfl | rfl
    · left; rw [hh0] at hi; exact (Option.some.inj hi).symm
    · right; rw [hh1] at hi; exact (Option.some.inj hi).symm
  rw [remove_some hel, hnull]
  simp only [Bool.false_eq_true, if_false]
  have hk01 : k = 0 ∨ k = 1 := by omega
  rcases hk01 with rfl | rfl
  · have he0 : e = g[0] := by rw [hh0] at hk; exact (Option.some.inj hk).symm
    have hn : (ent c e)._next = some g[1] := by
      rw [hs]; simp [chainEntry, h2, hh1]
    have ho : (ent c e)._opposite = some g[1] := by
      rw [hs]; simp [chainEntry, h2, hh1]
    have hA : (ent c e)._next = (ent c e)._opposite := by rw [hn, ho]
    have h1l := hb _ (mem_of_getElem? hh1)
    have hne : ¬ g[1] = e := fun hh => h01 (he0 ▸ hh.symm)
    rw [if_pos hA, removeLeavingTail_eq hn h1l]
    refine ⟨_, rfl, by simp, ?_, ?_, ?_, ?_⟩
    · refine h.dissolve (by simp) g hg ?_ ?_
      · intro x hxg
        have h1' := hnx x hxg e (mem_of_getElem? hk)
        have h2' := hnx x hxg _ (mem_of_getElem? hh1)
        simp [ent_set', h1', h2']
      · intro x hxg
        rcases hmem x hxg with hx | hx
        · left
          rw [hx, ← he0]
          exact ent_set_self' _ (by simp [hel])
        · right
          rw [hx]
          simp [ent_set', hne, h1l]
    · exact ent_set_self' _ (by simp [hel])
    · intro x hxg hxe
      rcases hmem x hxg with hx | hx
      · exact absurd (hx.trans he0.symm) hxe
      · rw [hx]
        simp [ent_set', hne, h1l]
    · intro x hxg
      have h1' := hnx x hxg e (mem_of_getElem? hk)
      have h2' := hnx x hxg _ (mem_of_getElem? hh1)
      simp [ent_set', h1', h2']
  · have he1 : e = g[1] := by rw [hh1] at hk; exact (Option.some.inj hk).symm
    have hn : (ent c e)._next = some e := by
      rw [hs]; simp [chainEntry, h2, hk]
    have ho : (ent c e)._opposite = some g[0] := by
      rw [hs]; simp [chainEntry, h2, hh0]
    have hp : (ent c e)._prev = some g[0] := by
      rw [hs]; simp [chainEntry, hh0]
    have hne : ¬ g[0] = e := fun hh => h01 (he1 ▸ hh)
    have hA : ¬ (ent c e)._next = (ent c e)._opposite := by
      rw [hn, ho]; simpa using fun hh : e = g[0] => hne hh.symm
    have hB : (ent c e)._prev = (ent c e)._opposite := by rw [hp, ho]
    have h0l := hb _ (mem_of_getElem? hh0)
    rw [if_neg hA, if_pos hB, removeLeavingHead_eq hp h0l]
    refine ⟨_, rfl, by simp, ?_, ?_, ?_, ?_⟩
    · refine h.dissolve (by simp) g hg ?_ ?_
      · intro x hxg
        have h1' := hnx x hxg e (mem_of_getElem? hk)
        have h2' := hnx x hxg _ (mem_of_getElem? hh0)
        simp [ent_set', h1', h2']
      · intro x hxg
        rcases hmem x hxg with hx | hx
        · right
          rw [hx]
          simp [ent_set', hne, h0l]
        · left
          rw [hx, ← he1]
          exact ent_set_self' _ (by simp [hel])
    · exact ent_set_self' _ (by simp [hel])
    · intro x hxg hxe
      rcases hmem x hxg with hx | hx
      · rw [hx]
        simp [ent_set', hne, h0l]
      · exact absurd (hx.trans he1.symm) hxe
    · intro x hxg
      have h1' := hnx x hxg e (mem_of_getElem? hk)
      have h2' := hnx x hxg _ (mem_of_getElem? hh0)
      simp [ent_set', h1', h2']

/-- Removing an ungrouped id changes no other entry and leaves the id with a null
entry. -/
theorem remove_rest {c : Coll} {gs : List (List Nat)} (h : Represents c gs)
    {e : Nat} (hel : e < c.length) (heg : ∀ a ∈ gs, e ∉ a) :
    ∃ c', remove c (some e) = .ok c' ∧ c'.length = c.length ∧ Represents c' gs
      ∧ ent c' e = MultiElementId.null ∧ (∀ x, x ≠ e → ent c' x = ent c x) := by
  rcases h.rest e hel heg with hu | hu
  · refine ⟨c, ?_, rfl, h, hu, fun _ _ => rfl⟩
    rw [remove_some hel, hu]; rfl
  · have hn : (ent c e)._next = some e := by rw [hu]
    have hA : (ent c e)._next = (ent c e)._opposite := by rw [hu]
    have hnull : (ent c e).isNull = false := by rw [hu]; rfl
    rw [remove_some hel, hnull]
    simp only [Bool.false_eq_true, if_false]
    rw [if_pos hA, removeLeavingTail_eq hn hel]
    have hfr : ∀ x, x ≠ e →
        ent ((c.set e ⟨some e, some e, some e⟩).set e ⟨none, none, none⟩) x = ent c x := by
      intro x hx
      simp [ent_set', hx]
    have hself : ent ((c.set e ⟨some e, some e, some e⟩).set e ⟨none, none, none⟩) e
        = MultiElementId.null := ent_set_self' _ (by simp [hel])
    refine ⟨_, rfl, by simp, ?_, hself, hfr⟩
    refine h.congr (by simp) ?_ ?_
    · intro x hx
      obtain ⟨a, ha, hxa⟩ := hx
      exact hfr x (fun hh => heg a ha (hh ▸ hxa))
    · intro x hxl hxg
      by_cases hxe : x = e
      · left; rw [hxe]; exact hself
      · have := h.rest x hxl hxg
        unfold Ungrouped at this ⊢
        rwa [hfr x hxe]

/-! ## What a well-formed vector shows to its callers -/

theorem length_le_of_nodup_lt {g : List Nat} {n : Nat} (hnd : g.Nodup) (hb : ∀ x ∈ g, x < n) :
    g.length ≤ n := by
  have hsub : g.toFinset ⊆ Finset.range n := by
    intro x hx
    rw [List.mem_toFinset] at hx
    exact Finset.mem_range.mpr (hb x hx)
  have hcard := Finset.card_le_card hsub
  rwa [List.toFinset_card_of_nodup hnd, Finset.card_range] at hcard

theorem Represents.length_le {c : Coll} {gs : List (List Nat)} (h : Represents c gs)
    {g : List Nat} (hg : g ∈ gs) : g.length ≤ c.length :=
  length_le_of_nodup_lt (h.nodup g hg) (h.bound g hg)

theorem chainEntry_not_ungrouped {g : List Nat} (hnd : g.Nodup) (h2 : 2 ≤ g.length) {j x : Nat}
    (hj : g[j]? = some x) :
    chainEntry g j ≠ MultiElementId.null ∧ chainEntry g j ≠ ⟨some x, some x, some x⟩ := by
  constructor
  · intro hh
    have := chainEntry_isNull hj
    rw [hh] at this
    simp [MultiElementId.isNull, MultiElementId.null, idIsNull] at this
  · intro hh
    have := chainEntry_isSingleton hnd h2 hj
    rw [hh] at this
    simp [MultiElementId.isSingleton, MultiElementId.isHead, MultiElementId.isTail,
      idIsNull] at this

/-- In a well-formed vector the ungrouped ids are those that are in no group. -/
theorem Represents.ungrouped_iff {c : Coll} {gs : List (List Nat)} (h : Represents c gs)
    {x : Nat} (hx : x < c.length) : Ungrouped c x ↔ ∀ a ∈ gs, x ∉ a := by
  constructor
  · intro hu a ha hxa
    obtain ⟨j, hj⟩ := List.mem_iff_getElem?.mp hxa
    have he := h.chain a ha j x hj
    have hn := chainEntry_not_ungrouped (h.nodup a ha) (h.two a ha) hj
    rcases hu with hu | hu
    · exact hn.1 (he ▸ hu)
    · exact hn.2 (he ▸ hu)
  · exact h.rest x hx

theorem Represents.typeOf_head_iff {c : Coll} {gs : List (List Nat)} (h : Represents c gs)
    {x : Nat} (hx : x < c.length) :
    typeOf c (some x) = .ok IdType.Head ↔ ∃ g ∈ gs, g[0]? = some x := by
  constructor
  · intro ht
    by_cases hm : ∀ a ∈ gs, x ∉ a
    · rw [h.typeOf_rest hx hm] at ht
      cases ht
    · push_neg at hm
      obtain ⟨a, ha, hxa⟩ := hm
      obtain ⟨j, hj⟩ := List.mem_iff_getElem?.mp hxa
      rw [h.typeOf_member ha hj] at ht
      by_cases h0 : j = 0
      · subst h0
        exact ⟨a, ha, hj⟩
      · rw [if_neg h0] at ht
        cases ht
  · rintro ⟨g, hg, hj⟩
    rw [h.typeOf_member hg hj, if_pos rfl]

theorem Represents.typeOf_tail_iff {c : Coll} {gs : List (List Nat)} (h : Represents c gs)
    {x : Nat} (hx : x < c.length) :
    typeOf c (some x) = .ok IdType.Tail ↔ ∃ g ∈ gs, ∃ j, 0 < j ∧ g[j]? = some x := by
  constructor
  · intro ht
    by_cases hm : ∀ a ∈ gs, x ∉ a
    · rw [h.typeOf_rest hx hm] at ht
      cases ht
    · push_neg at hm
      obtain ⟨a, ha, hxa⟩ := hm
      obtain ⟨j, hj⟩ := List.mem_iff_getElem?.mp hxa
      rw [h.typeOf_member ha hj] at ht
      by_cases h0 : j = 0
      · rw [if_pos h0] at ht
        cases ht
      · exact ⟨a, ha, j, by omega, hj⟩
  · rintro ⟨g, hg, j, hj0, hj⟩
    rw [h.typeOf_member hg hj, if_neg (by omega)]

theorem Represents.typeOf_not_iff {c : Coll} {gs : List (List Nat)} (h : Represents c gs)
    {x : Nat} (hx : x < c.length) :
    typeOf c (some x) = .ok IdType.Not ↔ ∀ a ∈ gs, x ∉ a := by
  constructor
  · intro ht a ha hxa
    obtain ⟨j, hj⟩ := List.mem_iff_getElem?.mp hxa
    rw [h.typeOf_member ha hj] at ht
    split at ht <;> cases ht
  · exact h.typeOf_rest hx

/-- The head of a group is its first member and iterating it yields the group. -/
theorem Represents.setById_of_head {c : Coll} {gs : List (List Nat)} (h : Represents c gs)
    {x : Nat} (hx : x < c.length) (ht : typeOf c (some x) = .ok IdType.Head) :
    ∃ g ∈ gs, g[0]? = some x ∧ ∀ fuel, c.length ≤ fuel → setById c fuel (some x) = .ok g := by
  obtain ⟨g, hg, hj⟩ := (h.typeOf_head_iff hx).mp ht
  refine ⟨g, hg, hj, fun fuel hf => ?_⟩
  rw [← hj]
  exact h.setById_head hg (le_trans (h.length_le hg) hf)

theorem eraseIdx_eq_erase {g : List Nat} (hnd : g.Nodup) {k e : Nat} (hk : g[k]? = some e) :
    g.eraseIdx k = g.erase e := by
  have hkl := lt_of_getElem? hk
  have he : g[k] = e := by
    rw [List.getElem?_eq_getElem hkl] at hk
    exact Option.some.inj hk
  rw [← he, hnd.erase_getElem k hkl]

/-- The first member of a group is `Head` and iterating it yields the group. -/
theorem Represents.first_member {c : Coll} {gs : List (List Nat)} (h : Represents c gs)
    {g : List Nat} (hg : g ∈ gs) {r : Nat} (hr : g[0]? = some r) :
    typeOf c (some r) = .ok IdType.Head
      ∧ ∀ fuel, c.length ≤ fuel → setById c fuel (some r) = .ok g := by
  refine ⟨by rw [h.typeOf_member hg hr, if_pos rfl], fun fuel hf => ?_⟩
  rw [← hr]
  exact h.setById_head hg (le_trans (h.length_le hg) hf)

theorem chainEntry_field_mem {g : List Nat} {j y : Nat}
    (h : (chainEntry g j)._prev = some y ∨ (chainEntry g j)._next = some y
      ∨ (chainEntry g j)._opposite = some y) : y ∈ g := by
  simp only [chainEntry] at h
  rcases h with h | h | h
  · split at h
    · cases h
    · exact mem_of_getElem? h
  · split at h <;> exact mem_of_getElem? h
  · split at h
    · exact mem_of_getElem? h
    · split at h
      · exact mem_of_getElem? h
      · cases h

/-- No entry outside a group refers to a member of the group. -/
theorem Represents.no_ref {c : Coll} {gs : List (List Nat)} (h : Represents c gs)
    {g : List Nat} (hg : g ∈ gs) {x i : Nat} (hx : x ∈ g) (hi : i ∉ g) (hil : i < c.length) :
    (ent c i)._prev ≠ some x ∧ (ent c i)._next ≠ some x ∧ (ent c i)._opposite ≠ some x := by
  by_cases him : ∃ a ∈ gs, i ∈ a
  · obtain ⟨a, ha, hia⟩ := him
    obtain ⟨j, hj⟩ := List.mem_iff_getElem?.mp hia
    have hag : a ≠ g := fun hh => hi (hh ▸ hia)
    have hxa : x ∉ a := fun hh => hag (h.disjoint a ha g hg x hh hx)
    rw [h.chain a ha j i hj]
    exact ⟨fun hh => hxa (chainEntry_field_mem (Or.inl hh)),
      fun hh => hxa (chainEntry_field_mem (Or.inr (Or.inl hh))),
      fun hh => hxa (chainEntry_field_mem (Or.inr (Or.inr hh)))⟩
  · push_neg at him
    have hne : i ≠ x := fun hh => hi (hh ▸ hx)
    rcases h.rest i hil him with hu | hu <;> rw [hu]
    · simp [MultiElementId.null]
    · simp [hne]

theorem sublist_insAt (g : List Nat) (p e : Nat) : g.Sublist (insAt g p e) := by
  have h : (g.take p ++ g.drop p).Sublist (g.take p ++ e :: g.drop p) :=
    List.Sublist.append (List.Sublist.refl _) (List.sublist_cons_self _ _)
  rwa [List.take_append_drop] at h

/-- The chain condition of `Represents`, checked position by position. -/
theorem chain_of_positions {c : Coll} {gs : List (List Nat)}
    (h : ∀ g ∈ gs, ∀ j, j < g.length → ent c (g.getD j 0) = chainEntry g j) :
    ∀ g ∈ gs, ∀ j x, g[j]? = some x → ent c x = chainEntry g j := by
  intro g hg j x hx
  have hj := lt_of_getElem? hx
  have := h g hg j hj
  rwa [List.getD_eq_getElem?_getD, hx] at this

/-! ## Reachable collections are well-formed -/

theorem Represents.not_mem_of_free {c : Coll} {gs : List (List Nat)} (h : Represents c gs)
    {e : Nat} (hf : Free c e) : ∀ a ∈ gs, e ∉ a := by
  intro a ha hea
  have hm := h.member_entry ⟨a, ha, hea⟩
  rcases hf with hf | hf
  · rw [hm.2] at hf; cases hf
  · rw [hm.1] at hf; cases hf

theorem Ungrouped.free {c : Coll} {i : Nat} (h : Ungrouped c i) : Free c i := by
  rcases h with h | h
  · left; rw [h]; rfl
  · right; rw [h]
    simp [MultiElementId.isSingleton, MultiElementId.isHead, MultiElementId.isTail, idIsNull]

theorem represents_resize (n : Nat) : Represents (resize n) [] := by
  refine ⟨List.nodup_nil, ?_, ?_, ?_, ?_, ?_, ?_⟩
  · intro g hg; cases hg
  · intro g hg; cases hg
  · intro g hg; cases hg
  · intro g hg; cases hg
  · intro g hg; cases hg
  · intro i _ _
    exact Or.inl (ent_resize n i)

theorem length_resize (n : Nat) : (resize n).length = n := by simp [resize]

theorem sameGroups_specAdd_member {gs A : List (List Nat)} {g g' : List Nat} {s e : Nat}
    (hdis : ∀ a ∈ gs, ∀ b ∈ gs, ∀ x, x ∈ a → x ∈ b → a = b)
    (hsame : SameGroups gs A) (hg : g ∈ gs) (hs : s ∈ g) (hg' : g'.Perm (e :: g)) :
    SameGroups (g' :: gs.filter (fun b => decide (b ≠ g))) (specAdd A s e) := by
  obtain ⟨G, hG, hgG⟩ := hsame.1 g hg
  have hany : A.any (fun G => decide (s ∈ G)) = true := by
    rw [List.any_eq_true]
    exact ⟨G, hG, by simpa using hgG.subset hs⟩
  unfold specAdd
  rw [if_pos hany]
  constructor
  · intro a ha
    rcases List.mem_cons.mp ha with rfl | ha
    · refine ⟨e :: G, ?_, hg'.trans (List.Perm.cons e hgG)⟩
      rw [List.mem_map]
      exact ⟨G, hG, by rw [if_pos (hgG.subset hs)]⟩
    · obtain ⟨ha1, ha2⟩ := mem_filter_ne.mp ha
      obtain ⟨G2, hG2, haG2⟩ := hsame.1 a ha1
      have hs2 : s ∉ G2 := fun hh => ha2 (hdis a ha1 g hg s (haG2.symm.subset hh) hs)
      refine ⟨G2, ?_, haG2⟩
      rw [List.mem_map]
      exact ⟨G2, hG2, by rw [if_neg hs2]⟩
  · intro G' hG'
    rw [List.mem_map] at hG'
    obtain ⟨G2, hG2, rfl⟩ := hG'
    obtain ⟨a, ha, haG2⟩ := hsame.2 G2 hG2
    by_cases hs2 : s ∈ G2
    · have hag : a = g := hdis a ha g hg s (haG2.symm.subset hs2) hs
      subst hag
      rw [if_pos hs2]
      exact ⟨g', List.mem_cons_self _ _, hg'.trans (List.Perm.cons e haG2)⟩
    · rw [if_neg hs2]
      have hag : a ≠ g := fun hh => hs2 (haG2.subset (hh ▸ hs))
      exact ⟨a, List.mem_cons_of_mem _ (mem_filter_ne.mpr ⟨ha, hag⟩), haG2⟩

theorem sameGroups_specAdd_fresh {gs A : List (List Nat)} {g' : List Nat} {s e : Nat}
    (hsame : SameGroups gs A) (hs : ∀ a ∈ gs, s ∉ a) (hg' : g'.Perm [s, e]) :
    SameGroups (g' :: gs) (specAdd A s e) := by
  have hany : ¬ A.any (fun G => decide (s ∈ G)) = true := by
    rw [List.any_eq_true]
    rintro ⟨G, hG, hsG⟩
    obtain ⟨a, ha, haG⟩ := hsame.2 G hG
    exact hs a ha (haG.symm.subset (by simpa using hsG))
  unfold specAdd
  rw [if_neg hany]
  constructor
  · intro a ha
    rcases List.mem_cons.mp ha with rfl | ha
    · exact ⟨[s, e], List.mem_cons_self _ _, hg'⟩
    · obtain ⟨G, hG, haG⟩ := hsame.1 a ha
      exact ⟨G, List.mem_cons_of_mem _ hG, haG⟩
  · intro G hG
    rcases List.mem_cons.mp hG with rfl | hG
    · exact ⟨g', List.mem_cons_self _ _, hg'⟩
    · obtain ⟨a, ha, haG⟩ := hsame.2 G hG
      exact ⟨a, List.mem_cons_of_mem _ ha, haG⟩

theorem sameGroups_specRemove {gs A : List (List Nat)} {g : List Nat} {e : Nat}
    (hdis : ∀ a ∈ gs, ∀ b ∈ gs, ∀ x, x ∈ a → x ∈ b → a = b)
    (htwo : ∀ a ∈ gs, 2 ≤ a.length)
    (hsame : SameGroups gs A) (hg : g ∈ gs) (he : e ∈ g) :
    SameGroups
      (if 2 ≤ (g.erase e).length then g.erase e :: gs.filter (fun b => decide (b ≠ g))
        else gs.filter (fun b => decide (b ≠ g)))
      (specRemove A e) := by
  have hother : ∀ a ∈ gs, a ≠ g → ∀ G, a.Perm G → G.erase e = G := by
    intro a ha hag G haG
    apply List.erase_of_not_mem
    intro heG
    exact hag (hdis a ha g hg e (haG.symm.subset heG) he)
  unfold specRemove
  constructor
  · intro a ha
    have hcase : (a = g.erase e ∧ 2 ≤ (g.erase e).length) ∨ (a ∈ gs ∧ a ≠ g) := by
      split at ha
      · rcases List.mem_cons.mp ha with rfl | ha
        · left; exact ⟨rfl, by assumption⟩
        · right; exact mem_filter_ne.mp ha
      · right; exact mem_filter_ne.mp ha
    rcases hcase with ⟨rfl, hlen⟩ | ⟨ha1, ha2⟩
    · obtain ⟨G, hG, hgG⟩ := hsame.1 g hg
      refine ⟨G.erase e, ?_, hgG.erase e⟩
      rw [List.mem_filter, List.mem_map]
      refine ⟨⟨G, hG, rfl⟩, ?_⟩
      rw [decide_eq_true_eq, ← (hgG.erase e).length_eq]
      exact hlen
    · obtain ⟨G, hG, haG⟩ := hsame.1 a ha1
      refine ⟨G, ?_, haG⟩
      rw [List.mem_filter, List.mem_map]
      refine ⟨⟨G, hG, hother a ha1 ha2 G haG⟩, ?_⟩
      rw [decide_eq_true_eq, ← haG.length_eq]
      exact htwo a ha1
  · intro G' hG'
    rw [List.mem_filter, List.mem_map] at hG'
    obtain ⟨⟨G, hG, rfl⟩, hlen⟩ := hG'
    rw [decide_eq_true_eq] at hlen
    obtain ⟨a, ha, haG⟩ := hsame.2 G hG
    by_cases hag : a = g
    · subst hag
      have hlen' : 2 ≤ (a.erase e).length := by rw [(haG.erase e).length_eq]; exact hlen
      rw [if_pos hlen']
      exact ⟨a.erase e, List.mem_cons_self _ _, haG.erase e⟩
    · rw [hother a ha hag G haG]
      refine ⟨a, ?_, haG⟩
      split
      · exact List.mem_cons_of_mem _ (mem_filter_ne.mpr ⟨ha, hag⟩)
      · exact mem_filter_ne.mpr ⟨ha, hag⟩

theorem sameGroups_specRemove_rest {gs A : List (List Nat)} {e : Nat}
    (htwo : ∀ a ∈ gs, 2 ≤ a.length)
    (hsame : SameGroups gs A) (he : ∀ a ∈ gs, e ∉ a) :
    SameGroups gs (specRemove A e) := by
  have hother : ∀ a ∈ gs, ∀ G, a.Perm G → G.erase e = G := by
    intro a ha G haG
    apply List.erase_of_not_mem
    intro heG
    exact he a ha (haG.symm.subset heG)
  unfold specRemove
  constructor
  · intro a ha
    obtain ⟨G, hG, haG⟩ := hsame.1 a ha
    refine ⟨G, ?_, haG⟩
    rw [List.mem_filter, List.mem_map]
    refine ⟨⟨G, hG, hother a ha G haG⟩, ?_⟩
    rw [decide_eq_true_eq, ← haG.length_eq]
    exact htwo a ha
  · intro G' hG'
    rw [List.mem_filter, List.mem_map] at hG'
    obtain ⟨⟨G, hG, rfl⟩, _⟩ := hG'
    obtain ⟨a, ha, haG⟩ := hsame.2 G hG
    rw [hother a ha G haG]
    exact ⟨a, ha, haG⟩

theorem perm_minmax (s e : Nat) : [min s e, max s e].Perm [s, e] := by
  rcases Nat.le_total s e with h | h
  · rw [Nat.min_eq_left h, Nat.max_eq_right h]
  · rw [Nat.min_eq_right h, Nat.max_eq_left h]
    exact List.Perm.swap _ _ _

/-- Every reachable vector has the capacity it started with and holds groups that are,
up to order, the sets of ids merged so far. -/
theorem Reach.invariant {n : Nat} {c : Coll} {A : List (List Nat)} (h : Reach n c A) :
    c.length = n ∧ ∃ gs, Represents c gs ∧ SameGroups gs A := by
  induction h with
  | init =>
    have hsame : SameGroups [] [] :=
      And.intro (fun g hg => by cases hg) (fun G hG => by cases hG)
    exact ⟨length_resize n, [], represents_resize n, hsame⟩
  | @add c c' A s e r _ hs he hne hfree hadd ih =>
    obtain ⟨hlen, gs, hrep, hsame⟩ := ih
    have heg := hrep.not_mem_of_free hfree
    have hel : e < c.length := by rw [hlen]; exact he
    have hsl : s < c.length := by rw [hlen]; exact hs
    by_cases hsg : ∃ g ∈ gs, s ∈ g
    · obtain ⟨g, hg, hsm⟩ := hsg
      obtain ⟨k, hk⟩ := List.mem_iff_getElem?.mp hsm
      obtain ⟨c'', hc'', hl'', hr''⟩ := add_member hrep hg hk hel heg
      rw [hadd] at hc''
      have hcc : c' = c'' := by
        injection hc'' with hc''
        exact (Prod.mk.inj hc'').1
      subst hcc
      exact ⟨hl''.trans hlen, _, hr'',
        sameGroups_specAdd_member hrep.disjoint hsame hg hsm (perm_insAt _ _ _)⟩
    · push_neg at hsg
      obtain ⟨c'', hc'', hl'', hr''⟩ := add_fresh hrep hne hsl hel hsg heg
      rw [hadd] at hc''
      have hcc : c' = c'' := by
        injection hc'' with hc''
        exact (Prod.mk.inj hc'').1
      subst hcc
      exact ⟨hl''.trans hlen, _, hr'', sameGroups_specAdd_fresh hsame hsg (perm_minmax s e)⟩
  | @remove c c' A e _ he hrem ih =>
    obtain ⟨hlen, gs, hrep, hsame⟩ := ih
    have hel : e < c.length := by rw [hlen]; exact he
    by_cases heg : ∃ g ∈ gs, e ∈ g
    · obtain ⟨g, hg, hem⟩ := heg
      obtain ⟨k, hk⟩ := List.mem_iff_getElem?.mp hem
      have hlen_erase : (g.erase e).length = g.length - 1 := List.length_erase_of_mem hem
      have hsg := sameGroups_specRemove hrep.disjoint hrep.two hsame hg hem
      by_cases h3 : 3 ≤ g.length
      · obtain ⟨c'', hc'', hl'', hr'', _⟩ := remove_member_big hrep hg hk h3
        rw [hrem] at hc''
        injection hc'' with hcc
        subst hcc
        rw [eraseIdx_eq_erase (hrep.nodup g hg) hk] at hr''
        rw [if_pos (by omega)] at hsg
        exact ⟨hl''.trans hlen, _, hr'', hsg⟩
      · have h2 : g.length = 2 := by have := hrep.two g hg; omega
        obtain ⟨c'', hc'', hl'', hr'', _⟩ := remove_member_two hrep hg hk h2
        rw [hrem] at hc''
        injection hc'' with hcc
        subst hcc
        rw [if_neg (by omega)] at hsg
        exact ⟨hl''.trans hlen, _, hr'', hsg⟩
    · push_neg at heg
      obtain ⟨c'', hc'', hl'', hr'', _⟩ := remove_rest hrep hel heg
      rw [hrem] at hc''
      injection hc'' with hcc
      subst hcc
      exact ⟨hl''.trans hlen, _, hr'', sameGroups_specRemove_rest hrep.two hsame heg⟩

/-! ## `add` on two free ids of an arbitrary vector -/

theorem Free.isNull_reset {c : Coll} {i : Nat} (h : Free c i) :
    (ent (resetSingleton c (some i) i) i).isNull = true := by
  rw [ent_resetSingleton]
  by_cases hs : (ent c i).isSingleton (some i) = true
  · simp [hs, MultiElementId.null, MultiElementId.isNull, idIsNull]
  · rcases h with h | h
    · simp [hs, h]
    · exact absurd h hs

theorem add_free_pair_lt {c : Coll} {lo hi : Nat} (hlt : lo < hi) (hhi : hi < c.length)
    (hfl : Free c lo) (hfh : Free c hi) :
    ∃ c', add c (some lo) (some hi) = .ok (c', some lo)
      ∧ add c (some hi) (some lo) = .ok (c', some lo)
      ∧ c'.length = c.length
      ∧ (∃ p, ent c' lo = ⟨p, some hi, some hi⟩) ∧ ent c' hi = ⟨some lo, some hi, some lo⟩ := by
  have hlo : lo < c.length := by omega
  have hne : lo ≠ hi := by omega
  have hne' : hi ≠ lo := by omega
  have h1 : (ent (afterResets c lo hi) lo).isNull = true := by
    unfold afterResets
    rw [ent_resetSingleton_of_ne hne]
    exact hfl.isNull_reset
  have h2 : (ent (afterResets c lo hi) hi).isNull = true := by
    unfold afterResets
    apply Free.isNull_reset
    unfold Free
    rw [ent_resetSingleton_of_ne hne']
    exact hfh
  have hlo0 : lo < (afterResets c lo hi).length := by rw [length_afterResets]; exact hlo
  have hhi0 : hi < (afterResets c lo hi).length := by rw [length_afterResets]; exact hhi
  have hb : addBranches (afterResets c lo hi) (some lo) (some hi) lo hi
      = .ok (addFresh (afterResets c lo hi) (some lo) (some hi) lo hi) := by
    unfold addBranches
    rw [h1, h2]; rfl
  refine ⟨addFresh (afterResets c lo hi) (some lo) (some hi) lo hi, ?_, ?_, ?_, ?_, ?_⟩
  · rw [add_of_lt c lo hi hlt hhi, hb]; rfl
  · rw [add_of_gt c lo hi hlt hhi, hb]; rfl
  · rw [length_addFresh, length_afterResets]
  · refine ⟨(ent (afterResets c lo hi) lo)._prev, ?_⟩
    rw [ent_addFresh hne hlo0 hhi0]
    simp [hne]
  · rw [ent_addFresh hne hlo0 hhi0]
    simp

theorem typeOf_pair_head {c : Coll} {lo hi : Nat} (hne : lo ≠ hi) (hlo : lo < c.length)
    {p : ElementId} (h : ent c lo = ⟨p, some hi, some hi⟩) :
    typeOf c (some lo) = .ok IdType.Head := by
  have hne' : ¬ hi = lo := fun hh => hne hh.symm
  simp [typeOf, qAssert, idIsNull, index, hlo, bind, Except.bind, pure, Except.pure, h,
    MultiElementId.isNull, MultiElementId.isSingleton, MultiElementId.isHead,
    MultiElementId.isTail, hne']

theorem typeOf_pair_tail {c : Coll} {lo hi : Nat} (hne : lo ≠ hi) (hhi : hi < c.length)
    (h : ent c hi = ⟨some lo, some hi, some lo⟩) :
    typeOf c (some hi) = .ok IdType.Tail := by
  simp [typeOf, qAssert, idIsNull, index, hhi, bind, Except.bind, pure, Except.pure, h,
    MultiElementId.isNull, MultiElementId.isSingleton, MultiElementId.isHead,
    MultiElementId.isTail, hne]

theorem setById_pair {c : Coll} {lo hi : Nat} (hne : lo ≠ hi) (hlo : lo < c.length)
    (hhi : hi < c.length) {p : ElementId} (h1 : ent c lo = ⟨p, some hi, some hi⟩)
    (h2 : ent c hi = ⟨some lo, some hi, some lo⟩) {fuel : Nat} (hf : 2 ≤ fuel) :
    setById c fuel (some lo) = .ok [lo, hi] := by
  obtain ⟨f, rfl⟩ : ∃ f, fuel = f + 2 := ⟨fuel - 2, by omega⟩
  have hne' : ¬ hi = lo := fun hh => hne hh.symm
  have hi1 : incrementPointer c (some lo) = .ok (some hi) := by
    simp [incrementPointer, index, hlo, bind, Except.bind, pure, Except.pure, h1,
      MultiElementId.hasNext, MultiElementId.isTail, idIsNull, hne']
  have hi2 : incrementPointer c (some hi) = .ok none := by
    simp [incrementPointer, index, hhi, bind, Except.bind, pure, Except.pure, h2,
      MultiElementId.hasNext, MultiElementId.isTail, idIsNull]
  simp only [setById, qAssert, idIsNull, bind, Except.bind, iterate_succ, hi1, hi2,
    iterate_none]
  rfl

theorem mem_of_getElem?' {α : Type} {l : List α} {i : Nat} {x : α} (h : l[i]? = some x) :
    x ∈ l :=
  List.mem_iff_getElem?.mpr ⟨i, h⟩

/-! ## The replay of `onTargetGraphChanged` -/

theorem mem_emitNodesAdded {tg : TransformedGraph} {nodeIds : List Nat} {s : Signal} :
    s ∈ emitNodesAdded tg nodeIds ↔
      ∃ x ∈ nodeIds, ((tg._previousNodesState x).added = false ∧ (tg._nodesState x).added = true)
        ∧ s = Signal.nodeAdded x := by
  simp only [emitNodesAdded, List.mem_filterMap]
  constructor
  · rintro ⟨x, hx, h⟩
    split at h
    · rename_i hc
      simp only [Bool.and_eq_true, Bool.not_eq_true'] at hc
      exact ⟨x, hx, hc, (Option.some.inj h).symm⟩
    · cases h
  · rintro ⟨x, hx, hc, rfl⟩
    refine ⟨x, hx, ?_⟩
    simp [hc.1, hc.2]

theorem mem_emitNodesRemoved {tg : TransformedGraph} {nodeIds : List Nat} {s : Signal} :
    s ∈ emitNodesRemoved tg nodeIds ↔
      ∃ x ∈ nodeIds,
        ((tg._previousNodesState x).removed = false ∧ (tg._nodesState x).removed = true)
        ∧ s = Signal.nodeWillBeRemoved x := by
  simp only [emitNodesRemoved, List.mem_filterMap]
  constructor
  · rintro ⟨x, hx, h⟩
    split at h
    · rename_i hc
      simp only [Bool.and_eq_true, Bool.not_eq_true'] at hc
      exact ⟨x, hx, hc, (Option.some.inj h).symm⟩
    · cases h
  · rintro ⟨x, hx, hc, rfl⟩
    refine ⟨x, hx, ?_⟩
    simp [hc.1, hc.2]

theorem mem_emitEdges {tg : TransformedGraph} {edgeIds : List Nat} {s : Signal} :
    s ∈ emitEdges tg edgeIds ↔
      ∃ x ∈ edgeIds,
        (((tg._previousEdgesState x).added = false ∧ (tg._edgesState x).added = true)
          ∧ s = Signal.edgeAdded x)
        ∨ (¬ ((tg._previousEdgesState x).added = false ∧ (tg._edgesState x).added = true)
          ∧ ((tg._previousEdgesState x).removed = false ∧ (tg._edgesState x).removed = true)
          ∧ s = Signal.edgeWillBeRemoved x) := by
  simp only [emitEdges, List.mem_filterMap]
  constructor
  · rintro ⟨x, hx, h⟩
    refine ⟨x, hx, ?_⟩
    split at h
    · rename_i hc
      simp only [Bool.and_eq_true, Bool.not_eq_true'] at hc
      exact Or.inl ⟨hc, (Option.some.inj h).symm⟩
    · rename_i hc
      simp only [Bool.and_eq_true, Bool.not_eq_true'] at hc
      split at h
      · rename_i hd
        simp only [Bool.and_eq_true, Bool.not_eq_true'] at hd
        exact Or.inr ⟨hc, hd, (Option.some.inj h).symm⟩
      · cases h
  · rintro ⟨x, hx, h⟩
    refine ⟨x, hx, ?_⟩
    rcases h with ⟨hc, rfl⟩ | ⟨hc, hd, rfl⟩
    · simp [hc.1, hc.2]
    · have hc' : ¬ ((!(tg._previousEdgesState x).added && (tg._edgesState x).added) = true) := by
        simpa only [Bool.and_eq_true, Bool.not_eq_true'] using hc
      rw [if_neg hc']
      simp [hd.1, hd.2]

/-- The signals of one replay: additions of nodes, then the signals of the edges, then
removals of nodes. -/
theorem replay_parts (nodeIds edgeIds : List Nat) (tg : TransformedGraph) :
    (onTargetGraphChanged nodeIds edgeIds tg).1
      = emitNodesAdded tg nodeIds ++ (emitEdges tg edgeIds ++ emitNodesRemoved tg nodeIds) := by
  simp [onTargetGraphChanged, List.append_assoc]

theorem mem_replay {nodeIds edgeIds : List Nat} {tg : TransformedGraph} {s : Signal} :
    s ∈ (onTargetGraphChanged nodeIds edgeIds tg).1 ↔
      s ∈ emitNodesAdded tg nodeIds ∨ s ∈ emitEdges tg edgeIds
        ∨ s ∈ emitNodesRemoved tg nodeIds := by
  rw [replay_parts]
  simp only [List.mem_append]

theorem nodeAdded_mem_replay {nodeIds edgeIds : List Nat} {tg : TransformedGraph} {x : Nat} :
    Signal.nodeAdded x ∈ (onTargetGraphChanged nodeIds edgeIds tg).1 ↔
      x ∈ nodeIds ∧ (tg._previousNodesState x).added = false
        ∧ (tg._nodesState x).added = true := by
  rw [mem_replay, mem_emitNodesAdded, mem_emitEdges, mem_emitNodesRemoved]
  constructor
  · rintro (⟨y, hy, hc, h⟩ | ⟨y, _, h⟩ | ⟨y, _, _, h⟩)
    · cases h
      exact ⟨hy, hc.1, hc.2⟩
    · rcases h with ⟨_, h⟩ | ⟨_, _, h⟩ <;> cases h
    · cases h
  · rintro ⟨hx, h1, h2⟩
    exact Or.inl ⟨x, hx, ⟨h1, h2⟩, rfl⟩

theorem nodeWillBeRemoved_mem_replay {nodeIds edgeIds : List Nat} {tg : TransformedGraph}
    {x : Nat} :
    Signal.nodeWillBeRemoved x ∈ (onTargetGraphChanged nodeIds edgeIds tg).1 ↔
      x ∈ nodeIds ∧ (tg._previousNodesState x).removed = false
        ∧ (tg._nodesState x).removed = true := by
  rw [mem_replay, mem_emitNodesAdded, mem_emitEdges, mem_emitNodesRemoved]
  constructor
  · rintro (⟨y, _, _, h⟩ | ⟨y, _, h⟩ | ⟨y, hy, hc, h⟩)
    · cases h
    · rcases h with ⟨_, h⟩ | ⟨_, _, h⟩ <;> cases h
    · cases h
      exact ⟨hy, hc.1, hc.2⟩
  · rintro ⟨hx, h1, h2⟩
    exact Or.inr (Or.inr ⟨x, hx, ⟨h1, h2⟩, rfl⟩)

theorem edgeAdded_mem_replay {nodeIds edgeIds : List Nat} {tg : TransformedGraph} {x : Nat} :
    Signal.edgeAdded x ∈ (onTargetGraphChanged nodeIds edgeIds tg).1 ↔
      x ∈ edgeIds ∧ (tg._previousEdgesState x).added = false
        ∧ (tg._edgesState x).added = true := by
  rw [mem_replay, mem_emitNodesAdded, mem_emitEdges, mem_emitNodesRemoved]
  constructor
  · rintro (⟨y, _, _, h⟩ | ⟨y, hy, h⟩ | ⟨y, _, _, h⟩)
    · cases h
    · rcases h with ⟨hc, h⟩ | ⟨_, _, h⟩
      · cases h
        exact ⟨hy, hc.1, hc.2⟩
      · cases h
    · cases h
  · rintro ⟨hx, h1, h2⟩
    exact Or.inr (Or.inl ⟨x, hx, Or.inl ⟨⟨h1, h2⟩, rfl⟩⟩)

theorem edgeWillBeRemoved_mem_replay {nodeIds edgeIds : List Nat} {tg : TransformedGraph}
    {x : Nat} :
    Signal.edgeWillBeRemoved x ∈ (onTargetGraphChanged nodeIds edgeIds tg).1 ↔
      x ∈ edgeIds
        ∧ ¬ ((tg._previousEdgesState x).added = false ∧ (tg._edgesState x).added = true)
        ∧ (tg._previousEdgesState x).removed = false ∧ (tg._edgesState x).removed = true := by
  rw [mem_replay, mem_emitNodesAdded, mem_emitEdges, mem_emitNodesRemoved]
  constructor
  · rintro (⟨y, _, _, h⟩ | ⟨y, hy, h⟩ | ⟨y, _, _, h⟩)
    · cases h
    · rcases h with ⟨_, h⟩ | ⟨hc, hd, h⟩
      · cases h
      · cases h
        exact ⟨hy, hc, hd.1, hd.2⟩
    · cases h
  · rintro ⟨hx, hc, h1, h2⟩
    exact Or.inr (Or.inl ⟨x, hx, Or.inr ⟨hc, ⟨h1, h2⟩, rfl⟩⟩)

/-- Positions in the replay: a signal about an edge comes before every removal of a
node. -/
theorem replay_edge_before_nodeRemoved {nodeIds edgeIds : List Nat} {tg : TransformedGraph}
    {i j a b : Nat}
    (hi : (onTargetGraphChanged nodeIds edgeIds tg).1[i]? = some (Signal.edgeWillBeRemoved a))
    (hj : (onTargetGraphChanged nodeIds edgeIds tg).1[j]? = some (Signal.nodeWillBeRemoved b)) :
    i < j := by
  rw [replay_parts] at hi hj
  have hA : ∀ s ∈ emitNodesAdded tg nodeIds, ∃ x, s = Signal.nodeAdded x := by
    intro s hs
    obtain ⟨x, _, _, h⟩ := mem_emitNodesAdded.mp hs
    exact ⟨x, h⟩
  have hE : ∀ s ∈ emitEdges tg edgeIds,
      ∃ x, s = Signal.edgeAdded x ∨ s = Signal.edgeWillBeRemoved x := by
    intro s hs
    obtain ⟨x, _, h⟩ := mem_emitEdges.mp hs
    rcases h with ⟨_, h⟩ | ⟨_, _, h⟩
    · exact ⟨x, Or.inl h⟩
    · exact ⟨x, Or.inr h⟩
  have hR : ∀ s ∈ emitNodesRemoved tg nodeIds, ∃ x, s = Signal.nodeWillBeRemoved x := by
    intro s hs
    obtain ⟨x, _, _, h⟩ := mem_emitNodesRemoved.mp hs
    exact ⟨x, h⟩
  rw [List.getElem?_append] at hi hj
  -- the removal of a node is not among the additions of nodes
  have hj1 : ¬ j < (emitNodesAdded tg nodeIds).length := by
    intro hlt
    rw [if_pos hlt] at hj
    obtain ⟨x, hx⟩ := hA _ (mem_of_getElem?' hj)
    cases hx
  rw [if_neg hj1, List.getElem?_append] at hj
  have hj2 : ¬ j - (emitNodesAdded tg nodeIds).length < (emitEdges tg edgeIds).length := by
    intro hlt
    rw [if_pos hlt] at hj
    obtain ⟨x, hx⟩ := hE _ (mem_of_getElem?' hj)
    rcases hx with hx | hx <;> cases hx
  -- the removal of an edge is among the signals of the edges
  have hi1 : ¬ i < (emitNodesAdded tg nodeIds).length := by
    intro hlt
    rw [if_pos hlt] at hi
    obtain ⟨x, hx⟩ := hA _ (mem_of_getElem?' hi)
    cases hx
  rw [if_neg hi1, List.getElem?_append] at hi
  have hi2 : i - (emitNodesAdded tg nodeIds).length < (emitEdges tg edgeIds).length := by
    by_contra hge
    rw [if_neg hge] at hi
    obtain ⟨x, hx⟩ := hR _ (mem_of_getElem?' hi)
    cases hx
  omega

/-! ## The signals of `rebuild` -/

theorem rebuild_shape (nodeIds edgeIds : List Nat) (changes : List Change)
    (tg : TransformedGraph) :
    (rebuild nodeIds edgeIds changes tg).1
      = Signal.graphWillChange
          :: ((onTargetGraphChanged nodeIds edgeIds (changes.foldl track tg)).1
            ++ [Signal.graphChanged]) := by
  simp [rebuild]

theorem graphChanged_not_mem_replay (nodeIds edgeIds : List Nat) (tg : TransformedGraph) :
    Signal.graphChanged ∉ (onTargetGraphChanged nodeIds edgeIds tg).1 := by
  rw [mem_replay, mem_emitNodesAdded, mem_emitEdges, mem_emitNodesRemoved]
  rintro (⟨y, _, _, h⟩ | ⟨y, _, h⟩ | ⟨y, _, _, h⟩)
  · cases h
  · rcases h with ⟨_, h⟩ | ⟨_, _, h⟩ <;> cases h
  · cases h

/-- The per-element states after tracking do not depend on `_cancelled`. -/
theorem track_ignores_cancelled (tg : TransformedGraph) (cancelled : Bool) (ch : Change) :
    track { tg with _cancelled := cancelled } ch
      = { track tg ch with _cancelled := cancelled } := by
  cases ch <;> rfl

theorem foldl_track_ignores_cancelled (changes : List Change) (tg : TransformedGraph)
    (cancelled : Bool) :
    changes.foldl track { tg with _cancelled := cancelled }
      = { changes.foldl track tg with _cancelled := cancelled } := by
  induction changes generalizing tg with
  | nil => rfl
  | cons ch rest ih =>
    simp only [List.foldl_cons]
    rw [track_ignores_cancelled, ih]

theorem rebuild_ignores_cancelled (nodeIds edgeIds : List Nat) (changes : List Change)
    (tg : TransformedGraph) (cancelled : Bool) :
    (rebuild nodeIds edgeIds changes { tg with _cancelled := cancelled }).1
      = (rebuild nodeIds edgeIds changes tg).1 := by
  rw [rebuild_shape, rebuild_shape, foldl_track_ignores_cancelled]
  rfl

/-- Positions in the replay: the addition of a node comes before every signal about an
edge. -/
theorem replay_nodeAdded_before_edgeRemoved {nodeIds edgeIds : List Nat}
    {tg : TransformedGraph} {i j a b : Nat}
    (hi : (onTargetGraphChanged nodeIds edgeIds tg).1[i]? = some (Signal.nodeAdded a))
    (hj : (onTargetGraphChanged nodeIds edgeIds tg).1[j]? = some (Signal.edgeWillBeRemoved b)) :
    i < j := by
  rw [replay_parts] at hi hj
  rw [List.getElem?_append] at hi hj
  have hj1 : ¬ j < (emitNodesAdded tg nodeIds).length := by
    intro hlt
    rw [if_pos hlt] at hj
    obtain ⟨x, _, _, hx⟩ := mem_emitNodesAdded.mp (mem_of_getElem?' hj)
    cases hx
  have hi1 : i < (emitNodesAdded tg nodeIds).length := by
    by_contra hge
    rw [if_neg hge] at hi
    rcases List.mem_append.mp (mem_of_getElem?' hi) with hm | hm
    · obtain ⟨x, _, h⟩ := mem_emitEdges.mp hm
      rcases h with ⟨_, h⟩ | ⟨_, _, h⟩ <;> cases h
    · obtain ⟨x, _, _, hx⟩ := mem_emitNodesRemoved.mp hm
      cases hx
  omega

/-! ## Alternating calls on a State, and the largest component -/

theorem State.calls_append (s : State) (cs : List StateCall) (a : StateCall) :
    s.calls (cs ++ [a]) = (s.calls cs).call a := by
  simp [State.calls, List.foldl_append]

/-- The State that a strictly alternating sequence of calls leaves, from `Unchanged`. -/
theorem State.calls_alternating (cs : List StateCall) (h : cs.Chain' (· ≠ ·)) :
    (({} : State).calls cs).state
      = if cs.length % 2 = 0 then Value.Unchanged
        else if cs.getLast? = some StateCall.add then Value.Added else Value.Removed := by
  induction cs using List.reverseRecOn with
  | nil => rfl
  | append_singleton l a ih =>
    rw [List.chain'_append] at h
    obtain ⟨hl, _, hlast⟩ := h
    have ih := ih hl
    rw [State.calls_append, List.length_append, List.length_singleton,
      List.getLast?_append, List.getLast?_singleton]
    by_cases hev : l.length % 2 = 0
    · rw [if_pos hev] at ih
      have hodd : ¬ (l.length + 1) % 2 = 0 := by omega
      rw [if_neg hodd]
      cases a <;> simp [State.call, State.add, State.remove, ih]
    · rw [if_neg hev] at ih
      have hev2 : (l.length + 1) % 2 = 0 := by omega
      rw [if_pos hev2]
      have hne : l ≠ [] := by
        intro hh; subst hh; simp at hev
      obtain ⟨b, hb⟩ : ∃ b, l.getLast? = some b := by
        cases hgl : l.getLast? with
        | none => exact absurd (List.getLast?_eq_none_iff.mp hgl) hne
        | some b => exact ⟨b, rfl⟩
      have hba : b ≠ a := hlast b (by simp [hb]) a (by simp)
      rw [hb] at ih
      cases a <;> cases b <;> simp_all [State.call, State.add, State.remove]

theorem largest_foldl_le (numNodes : Nat → Nat) :
    ∀ (ids : List Nat) (acc : ElementId × Nat), (∀ x ∈ ids, numNodes x ≤ acc.2) →
      ids.foldl (largestStep numNodes) acc = acc := by
  intro ids
  induction ids with
  | nil => intro acc _; rfl
  | cons a rest ih =>
    intro acc h
    have ha : ¬ numNodes a > acc.2 := by
      have := h a (List.mem_cons_self _ _); omega
    rw [List.foldl_cons, largestStep, if_neg ha]
    exact ih acc (fun x hx => h x (List.mem_cons_of_mem _ hx))

theorem largest_foldl_gt (numNodes : Nat → Nat) :
    ∀ (ids : List Nat) (acc : ElementId × Nat), (∃ x ∈ ids, acc.2 < numNodes x) →
      ∃ (i r : Nat), ids[i]? = some r
        ∧ ids.foldl (largestStep numNodes) acc = (some r, numNodes r)
        ∧ acc.2 < numNodes r
        ∧ (∀ (j x : Nat), j < i → ids[j]? = some x → numNodes x < numNodes r)
        ∧ ∀ x ∈ ids, numNodes x ≤ numNodes r := by
  intro ids
  induction ids with
  | nil => rintro acc ⟨x, hx, _⟩; cases hx
  | cons a rest ih =>
    intro acc hex
    rw [List.foldl_cons]
    by_cases ha : numNodes a > acc.2
    · rw [largestStep, if_pos ha]
      by_cases hrest : ∃ x ∈ rest, numNodes a < numNodes x
      · obtain ⟨i, r, hir, hfold, hlt, hbefore, hall⟩ := ih (some a, numNodes a) hrest
        refine ⟨i + 1, r, by simpa using hir, hfold, by simp only at hlt; omega, ?_, ?_⟩
        · intro j x hj hjx
          cases j with
          | zero =>
            simp only [List.getElem?_cons_zero, Option.some.injEq] at hjx
            subst hjx; exact hlt
          | succ j =>
            exact hbefore j x (by omega) (by simpa using hjx)
        · intro x hx
          rcases List.mem_cons.mp hx with rfl | hx
          · exact Nat.le_of_lt hlt
          · exact hall x hx
      · push_neg at hrest
        refine ⟨0, a, by simp, largest_foldl_le numNodes rest _ hrest, ha, ?_, ?_⟩
        · intro j x hj; omega
        · intro x hx
          rcases List.mem_cons.mp hx with rfl | hx
          · exact Nat.le_refl _
          · exact hrest x hx
    · rw [largestStep, if_neg ha]
      have hrest : ∃ x ∈ rest, acc.2 < numNodes x := by
        obtain ⟨x, hx, hlt⟩ := hex
        rcases List.mem_cons.mp hx with rfl | hx
        · exact absurd hlt ha
        · exact ⟨x, hx, hlt⟩
      obtain ⟨i, r, hir, hfold, hlt, hbefore, hall⟩ := ih acc hrest
      refine ⟨i + 1, r, by simpa using hir, hfold, hlt, ?_, ?_⟩
      · intro j x hj hjx
        cases j with
        | zero =>
          simp only [List.getElem?_cons_zero, Option.some.injEq] at hjx
          subst hjx; omega
        | succ j =>
          exact hbefore j x (by omega) (by simpa using hjx)
      · intro x hx
        rcases List.mem_cons.mp hx with rfl | hx
        · omega
        · exact hall x hx

/-! ## What two well-formed vectors with the same groups show -/

/-- Iterating from a member of a group yields the members from that one on. -/
theorem Represents.setById_member {c : Coll} {gs : List (List Nat)} (h : Represents c gs)
    {g : List Nat} (hg : g ∈ gs) {j x : Nat} (hj : g[j]? = some x) {fuel : Nat}
    (hf : c.length ≤ fuel) : setById c fuel (some x) = .ok (g.drop j) := by
  have hjl := lt_of_getElem? hj
  have hlen := h.length_le hg
  have hi := h.iterate_from hg fuel j (by omega) (by omega)
  rw [hj] at hi
  rw [setById, hi]
  rfl

/-- The entry, the type and the iteration of an id whose group is the same in two
well-formed vectors of the same capacity. -/
theorem Represents.observe_congr {c c' : Coll} {gs gs' : List (List Nat)}
    (h : Represents c gs) (h' : Represents c' gs') (hlen : c'.length = c.length) {x : Nat}
    (hx : x < c.length) (hsame : ∀ a, x ∈ a → (a ∈ gs ↔ a ∈ gs')) :
    (∃ t, typeOf c' (some x) = .ok t ∧ typeOf c (some x) = .ok t)
      ∧ (∃ l, ∀ fuel, c.length ≤ fuel →
          setById c' fuel (some x) = .ok l ∧ setById c fuel (some x) = .ok l)
      ∧ (ent c' x = ent c x ∨ (Ungrouped c x ∧ Ungrouped c' x)) := by
  by_cases hm : ∃ a ∈ gs, x ∈ a
  · obtain ⟨a, ha, hxa⟩ := hm
    have ha' : a ∈ gs' := (hsame a hxa).mp ha
    obtain ⟨j, hj⟩ := List.mem_iff_getElem?.mp hxa
    refine ⟨⟨_, h'.typeOf_member ha' hj, h.typeOf_member ha hj⟩, ⟨a.drop j, fun fuel hf => ?_⟩,
      Or.inl ?_⟩
    · exact ⟨h'.setById_member ha' hj (by rw [hlen]; exact hf), h.setById_member ha hj hf⟩
    · rw [h'.chain a ha' j x hj, h.chain a ha j x hj]
  · push_neg at hm
    have hm' : ∀ a ∈ gs', x ∉ a := fun a ha hxa => hm a ((hsame a hxa).mpr ha) hxa
    have hx' : x < c'.length := by rw [hlen]; exact hx
    have hu := h.rest x hx hm
    have hu' := h'.rest x hx' hm'
    refine ⟨⟨_, hu'.typeOf_eq hx', hu.typeOf_eq hx⟩, ⟨[x], fun fuel hf => ?_⟩, Or.inr ⟨hu, hu'⟩⟩
    exact ⟨hu'.setById_eq hx' (by omega), hu.setById_eq hx (by omega)⟩

theorem mem_cons_filter_ne {gs : List (List Nat)} {g a : List Nat} (hg : g ∈ gs) :
    a ∈ g :: gs.filter (fun b => decide (b ≠ g)) ↔ a ∈ gs := by
  rw [List.mem_cons, mem_filter_ne]
  constructor
  · rintro (rfl | ⟨h, _⟩)
    · exact hg
    · exact h
  · intro h
    by_cases hag : a = g
    · exact Or.inl hag
    · exact Or.inr ⟨h, hag⟩

/-- The groups after `add(s, e)` and then `remove(e)` are the groups before. -/
theorem add_then_remove {c : Coll} {gs : List (List Nat)} (h : Represents c gs) {s e : Nat}
    (hs : s < c.length) (he : e < c.length) (hne : s ≠ e) (hfe : Free c e) :
    ∃ c' r c'' gs'', add c (some s) (some e) = .ok (c', r) ∧ remove c' (some e) = .ok c''
      ∧ c''.length = c.length ∧ Represents c'' gs'' ∧ ∀ a, a ∈ gs ↔ a ∈ gs'' := by
  have heg := h.not_mem_of_free hfe
  by_cases hsg : ∃ g ∈ gs, s ∈ g
  · obtain ⟨g, hg, hsm⟩ := hsg
    obtain ⟨k, hk⟩ := List.mem_iff_getElem?.mp hsm
    obtain ⟨c', hadd, hl', hr'⟩ := add_member h hg hk he heg
    generalize hp : (if e < s then k else k + 1) = p at hr'
    have hmem : insAt g p e ∈ insAt g p e :: gs.filter (fun b => decide (b ≠ g)) :=
      List.mem_cons_self _ _
    have hein : e ∈ insAt g p e := (mem_insAt _ _ _ _).mpr (Or.inl rfl)
    obtain ⟨q, hq⟩ := List.mem_iff_getElem?.mp hein
    have h3 : 3 ≤ (insAt g p e).length := by
      rw [length_insAt]; have := h.two g hg; omega
    obtain ⟨c'', hrem, hl'', hr'', _⟩ := remove_member_big hr' hmem hq h3
    rw [eraseIdx_eq_erase (hr'.nodup _ hmem) hq, erase_insAt (heg g hg)] at hr''
    have hnot : insAt g p e ∉ gs.filter (fun b => decide (b ≠ g)) := by
      intro hh
      exact heg _ (mem_filter_ne.mp hh).1 hein
    have hfil : (insAt g p e :: gs.filter (fun b => decide (b ≠ g))).filter
        (fun b => decide (b ≠ insAt g p e)) = gs.filter (fun b => decide (b ≠ g)) := by
      rw [List.filter_cons_of_neg (by simp)]
      exact filter_ne_of_not_mem hnot
    rw [hfil] at hr''
    exact ⟨c', _, c'', _, hadd, hrem, hl''.trans hl', hr'',
      fun a => (mem_cons_filter_ne hg).symm⟩
  · push_neg at hsg
    obtain ⟨c', hadd, hl', hr'⟩ := add_fresh h hne hs he hsg heg
    have hmem : [min s e, max s e] ∈ [min s e, max s e] :: gs := List.mem_cons_self _ _
    have hein : e ∈ [min s e, max s e] := (perm_minmax s e).symm.subset (by simp)
    obtain ⟨q, hq⟩ := List.mem_iff_getElem?.mp hein
    obtain ⟨c'', hrem, hl'', hr'', _⟩ := remove_member_two hr' hmem hq rfl
    have hnot : [min s e, max s e] ∉ gs := fun hh => heg _ hh hein
    have hfil : ([min s e, max s e] :: gs).filter (fun b => decide (b ≠ [min s e, max s e]))
        = gs := by
      rw [List.filter_cons_of_neg (by simp)]
      exact filter_ne_of_not_mem hnot
    rw [hfil] at hr''
    exact ⟨c', _, c'', _, hadd, hrem, hl''.trans hl', hr'', fun a => Iff.rfl⟩

/-! ## Counting the ids that are not `Tail` -/

theorem nodup_map_coe_of_disjoint {l : List (List Nat)} (hl : l.Pairwise List.Disjoint)
    (hn : ∀ g ∈ l, g ≠ []) : (l.map (fun (g : List Nat) => Multiset.ofList g)).Nodup := by
  have hnd : l.Nodup := by
    refine hl.imp_of_mem ?_
    intro a b ha _ hd hab
    obtain ⟨x, hx⟩ := List.exists_mem_of_ne_nil a (hn a ha)
    exact hd hx (hab ▸ hx)
  refine (List.nodup_map_iff_inj_on hnd).mpr ?_
  intro a ha b hb hab
  by_contra hne
  have hp : a.Perm b := Multiset.coe_eq_coe.mp hab
  obtain ⟨x, hx⟩ := List.exists_mem_of_ne_nil a (hn a ha)
  have hsymm : Symmetric (List.Disjoint : List Nat → List Nat → Prop) :=
    fun _ _ hd => hd.symm
  exact hl.forall hsymm ha hb hne hx (hp.subset hx)

/-- Two lists of groups with the same member sets have the same number of groups. -/
theorem SameGroups.length_eq {gs A : List (List Nat)} (hsame : SameGroups gs A)
    (hgs : gs.Pairwise List.Disjoint) (hA : A.Pairwise List.Disjoint)
    (hne : ∀ g ∈ gs, g ≠ []) : gs.length = A.length := by
  have hneA : ∀ G ∈ A, G ≠ [] := by
    intro G hG hh
    obtain ⟨g, hg, hgG⟩ := hsame.2 G hG
    rw [hh] at hgG
    exact hne g hg (List.Perm.eq_nil hgG)
  have h1 := nodup_map_coe_of_disjoint hgs hne
  have h2 := nodup_map_coe_of_disjoint hA hneA
  have hperm : (gs.map (fun (g : List Nat) => Multiset.ofList g)).Perm
      (A.map (fun (g : List Nat) => Multiset.ofList g)) := by
    rw [List.perm_ext_iff_of_nodup h1 h2]
    intro m
    simp only [List.mem_map]
    constructor
    · rintro ⟨g, hg, rfl⟩
      obtain ⟨G, hG, hgG⟩ := hsame.1 g hg
      exact ⟨G, hG, (Multiset.coe_eq_coe.mpr hgG).symm⟩
    · rintro ⟨G, hG, rfl⟩
      obtain ⟨g, hg, hgG⟩ := hsame.2 G hG
      exact ⟨g, hg, Multiset.coe_eq_coe.mpr hgG⟩
  have := hperm.length_eq
  simpa using this

/-- The events that the loop of one component adds: polls of `cancelled()` that gave false
and phases, and at the end, when the function returns from inside the loop, one poll
that gave true. -/
theorem pageRankWhile_events {F : Type} (env : PageRankEnv F) (target : PageRankTarget)
    (cancelled : Nat → Bool) (nodeIds : List Nat) (nodeToIndexMap : List (ElementId × Nat)) :
    ∀ (fuel : Nat) (st : PageRankLoop F) (events : List PageRankEvent),
      ∃ new : List PageRankEvent,
        (∀ e ∈ new, e ≠ PageRankEvent.cancelled true ∧ e ≠ PageRankEvent.createAttribute)
        ∧ (pageRankWhile env target cancelled nodeIds nodeToIndexMap fuel st events
              = (none, events ++ new ++ [PageRankEvent.cancelled true])
            ∨ ∃ st', pageRankWhile env target cancelled nodeIds nodeToIndexMap fuel st events
              = (some st', events ++ new)) := by
  intro fuel
  induction fuel with
  | zero =>
    intro st events
    exact ⟨[], (fun e he => by cases he), Or.inr ⟨st, by simp [pageRankWhile]⟩⟩
  | succ fuel ih =>
    intro st events
    rw [pageRankWhile]
    by_cases hc : pageRankContinues env st = true
    · rw [if_pos hc]
      by_cases hcan : cancelled st.totalIterationCount = true
      · rw [if_pos hcan]
        exact ⟨[], (fun e he => by cases he), Or.inl (by simp)⟩
      · rw [if_neg hcan]
        obtain ⟨new, hq, hres⟩ := ih (pageRankIteration env target nodeIds nodeToIndexMap st)
          (events ++ [PageRankEvent.cancelled false,
            PageRankEvent.setPhase (PageRankPhase.pageRankIteration
              (st.totalIterationCount + 1))])
        refine ⟨[PageRankEvent.cancelled false,
            PageRankEvent.setPhase (PageRankPhase.pageRankIteration
              (st.totalIterationCount + 1))] ++ new, ?_, ?_⟩
        · intro e he
          rcases List.mem_append.mp he with he | he
          · simp only [List.mem_cons, List.mem_singleton, List.not_mem_nil, or_false] at he
            rcases he with rfl | rfl
            · exact ⟨by simp, by simp⟩
            · exact ⟨by simp, by simp⟩
          · exact hq e he
        · rcases hres with hres | ⟨st', hres⟩
          · left
            rw [hres]
            simp [List.append_assoc]
          · right
            refine ⟨st', ?_⟩
            rw [hres]
            simp [List.append_assoc]
    · rw [if_neg hc]
      exact ⟨[], (fun e he => by cases he), Or.inr ⟨st, by simp⟩⟩

/-- The events that the loop over the components adds. -/
theorem pageRankComponents_events {F : Type} (env : PageRankEnv F) (target : PageRankTarget)
    (cancelled : Nat → Bool) :
    ∀ (components : List (List Nat)) (scores : Nat → F) (total : Nat)
      (events : List PageRankEvent),
      ∃ new : List PageRankEvent,
        (∀ e ∈ new, e ≠ PageRankEvent.cancelled true ∧ e ≠ PageRankEvent.createAttribute)
        ∧ (pageRankComponents env target cancelled components scores total events
              = (none, events ++ new ++ [PageRankEvent.cancelled true])
            ∨ ∃ scores', pageRankComponents env target cancelled components scores total events
              = (some scores', events ++ new)) := by
  intro components
  induction components with
  | nil =>
    intro scores total events
    exact ⟨[], (fun e he => by cases he), Or.inr ⟨scores, by simp [pageRankComponents]⟩⟩
  | cons nodeIds rest ih =>
    intro scores total events
    rw [pageRankComponents]
    simp only
    obtain ⟨new, hq, hres⟩ := pageRankWhile_events env target cancelled nodeIds
      (buildIndexMap nodeIds) env.PAGERANK_ITERATION_LIMIT
      { pageRankVector :=
          List.replicate nodeIds.length (env.div env.one (env.ofInt nodeIds.length))
        newPageRankVector := List.replicate nodeIds.length env.zero
        change := env.floatMax
        iterationCount := 0
        changeBuffer := []
        previousBufferChangeAverage := env.zero
        pagerankAcceleration := env.floatMax
        totalIterationCount := total } events
    rcases hres with hres | ⟨st', hres⟩
    · rw [hres]
      exact ⟨new, hq, Or.inl rfl⟩
    · rw [hres]
      simp only
      obtain ⟨new2, hq2, hres2⟩ := ih
        (nodeIds.foldl
          (fun scores nodeId => fun id =>
            if id = nodeId then
              (st'.pageRankVector.map
                (fun value => env.div value (maxAbs env st'.pageRankVector))).getD
                (mapGet (buildIndexMap nodeIds) (some nodeId)) env.zero
            else scores id)
          scores)
        st'.totalIterationCount (events ++ new)
      refine ⟨new ++ new2, ?_, ?_⟩
      · intro e he
        rcases List.mem_append.mp he with he | he
        · exact hq e he
        · exact hq2 e he
      · rcases hres2 with hres2 | ⟨scores', hres2⟩
        · left
          rw [hres2]
          simp [List.append_assoc]
        · right
          refine ⟨scores', ?_⟩
          rw [hres2]
          simp [List.append_assoc]

/-- A run of `calculatePageRank` ends in one of two ways: with a poll of `cancelled()`
that gave true, the attributes untouched, or with the creation of the attribute, no poll
having given true. -/
theorem calculatePageRank_cases {F : Type} (env : PageRankEnv F) (target : PageRankTarget)
    (cancelled : Nat → Bool) (attributes : Attributes F) :
    ∃ new : List PageRankEvent,
      (∀ e ∈ new, e ≠ PageRankEvent.cancelled true ∧ e ≠ PageRankEvent.createAttribute)
      ∧ (((calculatePageRank env target cancelled attributes).events
            = PageRankEvent.setPhase PageRankPhase.pageRank :: new
                ++ [PageRankEvent.cancelled true]
          ∧ (calculatePageRank env target cancelled attributes).attributes = attributes)
        ∨ ((calculatePageRank env target cancelled attributes).events
            = PageRankEvent.setPhase PageRankPhase.pageRank :: new
                ++ [PageRankEvent.createAttribute]
          ∧ ∃ created, (calculatePageRank env target cancelled attributes).attributes
              = createAttribute attributes "Node PageRank" created)) := by
  obtain ⟨new, hq, hres⟩ := pageRankComponents_events env target cancelled target.components
    (fun _ => env.zero) 0 [PageRankEvent.setPhase PageRankPhase.pageRank]
  refine ⟨new, hq, ?_⟩
  unfold calculatePageRank
  rcases hres with hres | ⟨scores', hres⟩
  · left
    rw [hres]
    exact ⟨by simp, rfl⟩
  · right
    rw [hres]
    exact ⟨by simp, _, rfl⟩

theorem pageRankWhile_succ {F : Type} (env : PageRankEnv F) (target : PageRankTarget)
    (cancelled : Nat → Bool) (nodeIds : List Nat) (nodeToIndexMap : List (ElementId × Nat))
    (fuel : Nat) (st : PageRankLoop F) (events : List PageRankEvent) :
    pageRankWhile env target cancelled nodeIds nodeToIndexMap (fuel + 1) st events
      = if pageRankContinues env st then
          if cancelled st.totalIterationCount then
            (none, events ++ [PageRankEvent.cancelled true])
          else
            pageRankWhile env target cancelled nodeIds nodeToIndexMap fuel
              (pageRankIteration env target nodeIds nodeToIndexMap st)
              (events ++ [PageRankEvent.cancelled false,
                PageRankEvent.setPhase (PageRankPhase.pageRankIteration
                  (st.totalIterationCount + 1))])
        else (some st, events) := rfl

/-- The fuel that `calculatePageRank` gives the loop of a component does not cut it short:
once the iterations left up to `PAGERANK_ITERATION_LIMIT` fit into the fuel, more fuel
changes nothing. -/
theorem pageRankWhile_fuel {F : Type} (env : PageRankEnv F) (target : PageRankTarget)
    (cancelled : Nat → Bool) (nodeIds : List Nat) (nodeToIndexMap : List (ElementId × Nat)) :
    ∀ (fuel : Nat) (st : PageRankLoop F) (events : List PageRankEvent),
      env.PAGERANK_ITERATION_LIMIT - st.iterationCount ≤ fuel →
      pageRankWhile env target cancelled nodeIds nodeToIndexMap (fuel + 1) st events
        = pageRankWhile env target cancelled nodeIds nodeToIndexMap fuel st events := by
  intro fuel
  induction fuel with
  | zero =>
    intro st events hle
    have hc : pageRankContinues env st = false := by
      have hlt : ¬ st.iterationCount < env.PAGERANK_ITERATION_LIMIT := by omega
      simp [pageRankContinues, hlt]
    rw [pageRankWhile_succ, hc]
    rfl
  | succ fuel ih =>
    intro st events hle
    rw [pageRankWhile_succ env target cancelled nodeIds nodeToIndexMap (fuel + 1) st events,
      pageRankWhile_succ env target cancelled nodeIds nodeToIndexMap fuel st events]
    by_cases hc : pageRankContinues env st = true
    · rw [if_pos hc, if_pos hc]
      by_cases hcan : cancelled st.totalIterationCount = true
      · rw [if_pos hcan, if_pos hcan]
      · rw [if_neg hcan, if_neg hcan]
        apply ih
        simp only [pageRankIteration]
        omega
    · rw [if_neg hc, if_neg hc]

/-! ## The claims about `add` on ungrouped ids -/

/-- C1: the scenario `add(null, 5)` then `add(5, 9)` on a fresh collection resized to ten
entries.  The first call does not succeed: `add` overwrites `elementId` by the null
`setId` and then indexes the vector with a null id, which is outside the vector.
Without that call, `add(5, 9)` alone leaves `typeOf(5) = Head`, `typeOf(9) = Tail` and
`setById(5)` yields `[5, 9]`. -/
theorem scenario_add_null_then_merge :
    add (resize 10) none (some 5) = .error Fault.outOfRange
      ∧ ∃ c', add (resize 10) (some 5) (some 9) = .ok (c', some 5)
          ∧ typeOf c' (some 5) = .ok IdType.Head
          ∧ typeOf c' (some 9) = .ok IdType.Tail
          ∧ setById c' 10 (some 5) = .ok [5, 9] :=
  ⟨rfl, _, rfl, rfl, rfl, rfl⟩

/-- C2: `add(null, elementId)` never starts a singleton group: for every collection and
every `elementId` the call is a fault, the failed `Q_ASSERT` for a null `elementId` and
an index outside the vector for every other one, because `elementId` is overwritten by
the null `setId` before the vector is indexed. -/
theorem add_null_setId_faults (c : Coll) (elementId : ElementId) :
    add c none elementId
      = .error (if idIsNull elementId then Fault.assertion else Fault.outOfRange) := by
  cases elementId with
  | none => rfl
  | some e => rfl

/-- C3: for distinct ids `a`, `b` within capacity whose entries are null or singletons,
`add(a, b)` succeeds, returns the lower id, and forms the group of the two: the lower id
is `Head`, the higher one `Tail`, and iterating `setById` of the lower id yields the
lower and then the higher id. -/
theorem add_ungrouped_pair (c : Coll) (a b : Nat) (hab : a ≠ b) (ha : a < c.length)
    (hb : b < c.length) (hfa : Free c a) (hfb : Free c b) :
    ∃ c', add c (some a) (some b) = .ok (c', some (min a b))
      ∧ typeOf c' (some (min a b)) = .ok IdType.Head
      ∧ typeOf c' (some (max a b)) = .ok IdType.Tail
      ∧ ∀ fuel, 2 ≤ fuel → setById c' fuel (some (min a b)) = .ok [min a b, max a b] := by
  rcases Nat.lt_or_gt_of_ne hab with hlt | hlt
  · obtain ⟨c', h1, _, hl, ⟨p, hp⟩, hq⟩ := add_free_pair_lt hlt hb hfa hfb
    rw [Nat.min_eq_left (Nat.le_of_lt hlt), Nat.max_eq_right (Nat.le_of_lt hlt)]
    have ha' : a < c'.length := by rw [hl]; exact ha
    have hb' : b < c'.length := by rw [hl]; exact hb
    exact ⟨c', h1, typeOf_pair_head hab ha' hp, typeOf_pair_tail hab hb' hq,
      fun fuel hf => setById_pair hab ha' hb' hp hq hf⟩
  · obtain ⟨c', _, h1, hl, ⟨p, hp⟩, hq⟩ := add_free_pair_lt hlt ha hfb hfa
    rw [Nat.min_eq_right (Nat.le_of_lt hlt), Nat.max_eq_left (Nat.le_of_lt hlt)]
    have ha' : a < c'.length := by rw [hl]; exact ha
    have hb' : b < c'.length := by rw [hl]; exact hb
    exact ⟨c', h1, typeOf_pair_head hab.symm hb' hp, typeOf_pair_tail hab.symm ha' hq,
      fun fuel hf => setById_pair hab.symm hb' ha' hp hq hf⟩

/-- Witness of C3: ids 9 and 5 of a collection of ten null entries. -/
theorem add_ungrouped_pair_witness :
    (9 ≠ 5 ∧ 9 < (resize 10).length ∧ 5 < (resize 10).length ∧ Free (resize 10) 9
        ∧ Free (resize 10) 5)
      ∧ ∃ c', add (resize 10) (some 9) (some 5) = .ok (c', some (min 9 5))
          ∧ typeOf c' (some (min 9 5)) = .ok IdType.Head
          ∧ typeOf c' (some (max 9 5)) = .ok IdType.Tail
          ∧ ∀ fuel, 2 ≤ fuel → setById c' fuel (some (min 9 5)) = .ok [min 9 5, max 9 5] :=
  ⟨by decide, add_ungrouped_pair (resize 10) 9 5 (by decide) (by decide) (by decide)
    (by decide) (by decide)⟩

/-! ## The claims about reachable collections -/

/-- C4: every state reached from the all-null collection of capacity `n` by calls of
`remove` and calls of `add` within its precondition is well-formed: there are member
sequences `gs`, without repetition and pairwise disjoint (an id is in at most one group),
such that the member at position `j` of a group `g` holds `_prev = g[j-1]` (null for the
head), `_next = g[j+1]` (itself for the tail) and `_opposite` linking head and tail, and
all other ids are ungrouped. -/
theorem reachable_wellFormed (n : Nat) (c : Coll) (A : List (List Nat))
    (h : Reach n c A) : c.length = n ∧ WellFormed c := by
  obtain ⟨hlen, gs, hrep, _⟩ := h.invariant
  exact ⟨hlen, gs, hrep⟩

/-- Witness of C4: the state after `add(5, 9)`, `add(9, 7)` and `remove(5)` on a collection
of capacity ten. -/
theorem reachable_wellFormed_witness :
    ∃ c1 c2 c3, add (resize 10) (some 5) (some 9) = .ok (c1, some 5)
      ∧ add c1 (some 9) (some 7) = .ok (c2, some 7)
      ∧ remove c2 (some 5) = .ok c3
      ∧ c3.length = 10 ∧ WellFormed c3 :=
  ⟨_, _, _, rfl, rfl, rfl,
    reachable_wellFormed 10 _ _
      (Reach.remove
        (Reach.add
          (Reach.add Reach.init (s := 5) (e := 9) (by decide) (by decide) (by decide)
            (by decide) rfl)
          (s := 9) (e := 7) (by decide) (by decide) (by decide) (by decide) rfl)
        (e := 5) (by decide) rfl)⟩

/-- C5: in every reachable state, iterating `setById(h)` for an id `h` that `typeOf`
reports as `Head` ends within `n` steps (`n` the capacity) and yields `h` first, no id
twice, and exactly the ids of one group of merged ids; and every group of merged ids has
such a head. -/
theorem reachable_setById (n : Nat) (c : Coll) (A : List (List Nat)) (h : Reach n c A) :
    (∀ hd, hd < n → typeOf c (some hd) = .ok IdType.Head →
        ∃ G ∈ A, ∃ l, (∀ fuel, n ≤ fuel → setById c fuel (some hd) = .ok l)
          ∧ l.head? = some hd ∧ l.Nodup ∧ ∀ x, x ∈ l ↔ x ∈ G)
      ∧ (∀ G ∈ A, ∃ hd ∈ G, hd < n ∧ typeOf c (some hd) = .ok IdType.Head) := by
  obtain ⟨hlen, gs, hrep, hsame⟩ := h.invariant
  constructor
  · intro hd hhd ht
    obtain ⟨g, hg, hj, hset⟩ := hrep.setById_of_head (by rw [hlen]; exact hhd) ht
    obtain ⟨G, hG, hgG⟩ := hsame.1 g hg
    refine ⟨G, hG, g, fun fuel hf => hset fuel (by rw [hlen]; exact hf), ?_, hrep.nodup g hg,
      fun x => hgG.mem_iff⟩
    rw [List.head?_eq_getElem?]
    exact hj
  · intro G hG
    obtain ⟨g, hg, hgG⟩ := hsame.2 G hG
    have h2 := hrep.two g hg
    have hj : g[0]? = some g[0] := List.getElem?_eq_getElem (by omega)
    refine ⟨g[0], hgG.subset (mem_of_getElem? hj), ?_, ?_⟩
    · rw [← hlen]
      exact hrep.bound g hg _ (mem_of_getElem? hj)
    · rw [hrep.typeOf_member hg hj, if_pos rfl]

/-- Witness of C5: the state after `add(5, 9)` and `add(9, 7)` on a collection of capacity
ten. -/
theorem reachable_setById_witness :
    ∃ c1 c2, add (resize 10) (some 5) (some 9) = .ok (c1, some 5)
      ∧ add c1 (some 9) (some 7) = .ok (c2, some 7)
      ∧ (∀ hd, hd < 10 → typeOf c2 (some hd) = .ok IdType.Head →
          ∃ G ∈ specAdd (specAdd [] 5 9) 9 7, ∃ l,
            (∀ fuel, 10 ≤ fuel → setById c2 fuel (some hd) = .ok l)
              ∧ l.head? = some hd ∧ l.Nodup ∧ ∀ x, x ∈ l ↔ x ∈ G)
      ∧ (∀ G ∈ specAdd (specAdd [] 5 9) 9 7,
          ∃ hd ∈ G, hd < 10 ∧ typeOf c2 (some hd) = .ok IdType.Head) :=
  ⟨_, _, rfl, rfl,
    reachable_setById 10 _ _
      (Reach.add
        (Reach.add Reach.init (s := 5) (e := 9) (by decide) (by decide) (by decide)
          (by decide) rfl)
        (s := 9) (e := 7) (by decide) (by decide) (by decide) (by decide) rfl)⟩

/-- C6: in every reachable state there are the member sequences `gs` of the groups, each
of at least two ids and yielded by `setById` of its first id, the same sets as the groups
of merged ids, such that for every id within capacity `typeOf` is `Not` iff the id is in
no group of merged ids, `Head` iff it is the first member of a group, and `Tail` iff it is
a member at any later position, interior or last. -/
theorem reachable_typeOf (n : Nat) (c : Coll) (A : List (List Nat)) (h : Reach n c A) :
    ∃ gs, SameGroups gs A
      ∧ (∀ g ∈ gs, 2 ≤ g.length ∧ ∀ fuel, n ≤ fuel → setById c fuel g[0]? = .ok g)
      ∧ ∀ id, id < n →
          (typeOf c (some id) = .ok IdType.Not ↔ ∀ G ∈ A, id ∉ G)
          ∧ (typeOf c (some id) = .ok IdType.Head ↔ ∃ g ∈ gs, g[0]? = some id)
          ∧ (typeOf c (some id) = .ok IdType.Tail
              ↔ ∃ g ∈ gs, ∃ j, 0 < j ∧ g[j]? = some id) := by
  obtain ⟨hlen, gs, hrep, hsame⟩ := h.invariant
  refine ⟨gs, hsame, ?_, ?_⟩
  · intro g hg
    refine ⟨hrep.two g hg, fun fuel hf => hrep.setById_head hg ?_⟩
    exact le_trans (hrep.length_le hg) (by rw [hlen]; exact hf)
  · intro id hid
    have hid' : id < c.length := by rw [hlen]; exact hid
    refine ⟨?_, hrep.typeOf_head_iff hid', hrep.typeOf_tail_iff hid'⟩
    rw [hrep.typeOf_not_iff hid']
    constructor
    · intro hn G hG hiG
      obtain ⟨g, hg, hgG⟩ := hsame.2 G hG
      exact hn g hg (hgG.symm.subset hiG)
    · intro hn g hg hig
      obtain ⟨G, hG, hgG⟩ := hsame.1 g hg
      exact hn G hG (hgG.subset hig)

/-- Witness of C6: the state after `add(5, 9)` and `add(9, 7)` on a collection of capacity
ten, where 7 is an interior member. -/
theorem reachable_typeOf_witness :
    ∃ c1 c2, add (resize 10) (some 5) (some 9) = .ok (c1, some 5)
      ∧ add c1 (some 9) (some 7) = .ok (c2, some 7)
      ∧ ∃ gs, SameGroups gs (specAdd (specAdd [] 5 9) 9 7)
        ∧ (∀ g ∈ gs, 2 ≤ g.length ∧ ∀ fuel, 10 ≤ fuel → setById c2 fuel g[0]? = .ok g)
        ∧ ∀ id, id < 10 →
            (typeOf c2 (some id) = .ok IdType.Not
                ↔ ∀ G ∈ specAdd (specAdd [] 5 9) 9 7, id ∉ G)
            ∧ (typeOf c2 (some id) = .ok IdType.Head ↔ ∃ g ∈ gs, g[0]? = some id)
            ∧ (typeOf c2 (some id) = .ok IdType.Tail
                ↔ ∃ g ∈ gs, ∃ j, 0 < j ∧ g[j]? = some id) :=
  ⟨_, _, rfl, rfl,
    reachable_typeOf 10 _ _
      (Reach.add
        (Reach.add Reach.init (s := 5) (e := 9) (by decide) (by decide) (by decide)
          (by decide) rfl)
        (s := 9) (e := 7) (by decide) (by decide) (by decide) (by decide) rfl)⟩

/-! ## The claims about `add` and `remove` on well-formed collections -/

/-- C7: on a well-formed collection, for a `setId` that is ungrouped or the `Head` of its
group and an ungrouped `elementId` different from it, `add(setId, elementId)` succeeds
and returns the id `r` that identifies the resulting group: `typeOf(r)` is `Head`, and
iterating `setById(r)` yields a sequence that starts with `r` and contains both `setId`
and `elementId`. -/
theorem add_returns_head (c : Coll) (s e : Nat) (hwf : WellFormed c) (hs : s < c.length)
    (he : e < c.length) (hne : s ≠ e)
    (hse : Free c s ∨ typeOf c (some s) = .ok IdType.Head) (hfe : Free c e) :
    ∃ c' r l, add c (some s) (some e) = .ok (c', some r)
      ∧ typeOf c' (some r) = .ok IdType.Head
      ∧ (∀ fuel, c.length ≤ fuel → setById c' fuel (some r) = .ok l)
      ∧ l.head? = some r ∧ s ∈ l ∧ e ∈ l := by
  obtain ⟨gs, hrep⟩ := hwf
  have heg := hrep.not_mem_of_free hfe
  rcases hse with hfs | hhs
  · have hsg := hrep.not_mem_of_free hfs
    obtain ⟨c', hadd, hl, hr⟩ := add_fresh hrep hne hs he hsg heg
    have hfirst := hr.first_member (List.mem_cons_self _ _)
      (r := min s e) (by simp)
    refine ⟨c', min s e, [min s e, max s e], hadd, hfirst.1,
      fun fuel hf => hfirst.2 fuel (by rw [hl]; exact hf), by simp, ?_, ?_⟩
    · exact (perm_minmax s e).symm.subset (by simp)
    · exact (perm_minmax s e).symm.subset (by simp)
  · obtain ⟨g, hg, hk⟩ := (hrep.typeOf_head_iff hs).mp hhs
    obtain ⟨c', hadd, hl, hr⟩ := add_member hrep hg hk he heg
    have h2 := hrep.two g hg
    have h0 : (insAt g (if e < s then 0 else 0 + 1) e)[0]? = some (min s e) := by
      rw [getElem?_insAt _ _ _ _ (by split <;> omega)]
      by_cases hlt : e < s
      · simp [hlt, Nat.min_eq_right (Nat.le_of_lt hlt)]
      · have hle : s ≤ e := by omega
        simp [hlt, hk, Nat.min_eq_left hle]
    have hfirst := hr.first_member (List.mem_cons_self _ _) h0
    refine ⟨c', min s e, insAt g (if e < s then 0 else 0 + 1) e, hadd, hfirst.1,
      fun fuel hf => hfirst.2 fuel (by rw [hl]; exact hf), ?_, ?_, ?_⟩
    · rw [List.head?_eq_getElem?]; exact h0
    · exact (mem_insAt _ _ _ _).mpr (Or.inr (mem_of_getElem? hk))
    · exact (mem_insAt _ _ _ _).mpr (Or.inl rfl)

/-- Witness of C7: `add(5, 3)` on the well-formed state with the one group `[5, 9]`, whose
head is 5. -/
theorem add_returns_head_witness :
    ∃ c1, add (resize 10) (some 5) (some 9) = .ok (c1, some 5)
      ∧ ∃ c' r l, add c1 (some 5) (some 3) = .ok (c', some r)
        ∧ typeOf c' (some r) = .ok IdType.Head
        ∧ (∀ fuel, c1.length ≤ fuel → setById c' fuel (some r) = .ok l)
        ∧ l.head? = some r ∧ 5 ∈ l ∧ 3 ∈ l :=
  ⟨_, rfl,
    add_returns_head _ 5 3
      ⟨[[5, 9]], by
        refine ⟨by decide, by decide, by decide, by decide, by decide, ?_, by decide⟩
        intro g hg j x hx
        simp only [List.mem_singleton] at hg
        subst hg
        match j, hx with
        | 0, hx => cases hx; rfl
        | 1, hx => cases hx; rfl
        | j + 2, hx => simp at hx⟩
      (by decide) (by decide) (by decide) (Or.inr rfl) (by decide)⟩

/-- C8: on a well-formed collection with groups `gs`, for a `setId` whose group has the
member sequence `L` (`L = [setId]` for an ungrouped `setId`) and an ungrouped
`elementId` different from it, `add(setId, elementId)` succeeds and the group of `setId`
then has a member sequence `L'`, the one `setById` yields, that holds exactly the members
of `L` and `elementId`, each once, with the members of `L` in their previous order. -/
theorem add_extends_group (c : Coll) (gs : List (List Nat)) (L : List Nat) (s e : Nat)
    (hrep : Represents c gs) (hs : s < c.length) (he : e < c.length) (hne : s ≠ e)
    (hfe : Free c e) (hL : (L ∈ gs ∧ s ∈ L) ∨ (Free c s ∧ L = [s])) :
    ∃ c' r gs' L', add c (some s) (some e) = .ok (c', r) ∧ Represents c' gs' ∧ L' ∈ gs'
      ∧ s ∈ L' ∧ L'.Nodup ∧ L'.Perm (e :: L) ∧ L.Sublist L'
      ∧ ∀ fuel, c.length ≤ fuel → setById c' fuel L'[0]? = .ok L' := by
  have heg := hrep.not_mem_of_free hfe
  rcases hL with ⟨hLg, hsL⟩ | ⟨hfs, rfl⟩
  · obtain ⟨k, hk⟩ := List.mem_iff_getElem?.mp hsL
    obtain ⟨c', hadd, hl, hr⟩ := add_member hrep hLg hk he heg
    have hm : insAt L (if e < s then k else k + 1) e
        ∈ insAt L (if e < s then k else k + 1) e :: gs.filter (fun b => decide (b ≠ L)) :=
      List.mem_cons_self _ _
    refine ⟨c', _, _, _, hadd, hr, hm, (mem_insAt _ _ _ _).mpr (Or.inr hsL),
      nodup_insAt (hrep.nodup L hLg) (heg L hLg), perm_insAt _ _ _, sublist_insAt _ _ _,
      fun fuel hf => hr.setById_head hm ?_⟩
    exact le_trans (hr.length_le hm) (by rw [hl]; exact hf)
  · have hsg := hrep.not_mem_of_free hfs
    obtain ⟨c', hadd, hl, hr⟩ := add_fresh hrep hne hs he hsg heg
    have hm : [min s e, max s e] ∈ [min s e, max s e] :: gs := List.mem_cons_self _ _
    have hp : [min s e, max s e].Perm [e, s] :=
      (perm_minmax s e).trans (List.Perm.swap _ _ _)
    refine ⟨c', _, _, _, hadd, hr, hm, hp.symm.subset (by simp), hr.nodup _ hm, hp, ?_,
      fun fuel hf => hr.setById_head hm ?_⟩
    · rcases Nat.le_total s e with hle | hle
      · rw [Nat.min_eq_left hle, Nat.max_eq_right hle]
        exact List.Sublist.cons₂ _ (List.nil_sublist _)
      · rw [Nat.min_eq_right hle, Nat.max_eq_left hle]
        exact List.Sublist.cons _ (List.Sublist.refl _)
    · exact le_trans (hr.length_le hm) (by rw [hl]; exact hf)

/-- Witness of C8: `add(9, 7)` on the state with the one group `[5, 9]` puts 7 between
the two. -/
theorem add_extends_group_witness :
    ∃ c1, add (resize 10) (some 5) (some 9) = .ok (c1, some 5)
      ∧ ∃ c' r gs' L', add c1 (some 9) (some 7) = .ok (c', r) ∧ Represents c' gs' ∧ L' ∈ gs'
        ∧ 9 ∈ L' ∧ L'.Nodup ∧ L'.Perm (7 :: [5, 9]) ∧ [5, 9].Sublist L'
        ∧ ∀ fuel, c1.length ≤ fuel → setById c' fuel L'[0]? = .ok L' :=
  ⟨_, rfl,
    add_extends_group _ [[5, 9]] [5, 9] 9 7
      ⟨by decide, by decide, by decide, by decide, by decide,
        chain_of_positions (by decide), by decide⟩
      (by decide) (by decide) (by decide) (by decide) (Or.inl ⟨by decide, by decide⟩)⟩

/-- C9: on a well-formed collection with groups `gs`, removing a member `e` (head,
interior or tail) of a group whose member sequence `L` has at least three ids succeeds
and re-links the rest: `typeOf(e)` is `Not`, iterating `setById` of the first remaining
member yields `L` with `e` erased, that first member is `Head` and every later one
`Tail`. -/
theorem remove_from_large_group (c : Coll) (gs : List (List Nat)) (L : List Nat) (e : Nat)
    (hrep : Represents c gs) (hL : L ∈ gs) (he : e ∈ L) (h3 : 3 ≤ L.length) :
    ∃ c', remove c (some e) = .ok c'
      ∧ typeOf c' (some e) = .ok IdType.Not
      ∧ (∀ fuel, c.length ≤ fuel → setById c' fuel (L.erase e)[0]? = .ok (L.erase e))
      ∧ typeOf c' (L.erase e)[0]? = .ok IdType.Head
      ∧ ∀ j x, 0 < j → (L.erase e)[j]? = some x → typeOf c' (some x) = .ok IdType.Tail := by
  obtain ⟨k, hk⟩ := List.mem_iff_getElem?.mp he
  obtain ⟨c', hrem, hl, hr, hnull⟩ := remove_member_big hrep hL hk h3
  rw [eraseIdx_eq_erase (hrep.nodup L hL) hk] at hr
  have hm : L.erase e ∈ L.erase e :: gs.filter (fun b => decide (b ≠ L)) :=
    List.mem_cons_self _ _
  have hel : e < c'.length := by rw [hl]; exact hrep.bound L hL e he
  have h2 := hr.two _ hm
  have h0 : (L.erase e)[0]? = some (L.erase e)[0] := List.getElem?_eq_getElem (by omega)
  refine ⟨c', hrem, Ungrouped.typeOf_eq (Or.inl hnull) hel, fun fuel hf => ?_, ?_, ?_⟩
  · exact hr.setById_head hm (le_trans (hr.length_le hm) (by rw [hl]; exact hf))
  · rw [h0, hr.typeOf_member hm h0, if_pos rfl]
  · intro j x hj hx
    rw [hr.typeOf_member hm hx, if_neg (by omega)]

/-- Witness of C9: removing the interior member 7 of the group `[5, 7, 9]`. -/
theorem remove_from_large_group_witness :
    ∃ c1 c2, add (resize 10) (some 5) (some 9) = .ok (c1, some 5)
      ∧ add c1 (some 9) (some 7) = .ok (c2, some 7)
      ∧ ∃ c', remove c2 (some 7) = .ok c'
        ∧ typeOf c' (some 7) = .ok IdType.Not
        ∧ (∀ fuel, c2.length ≤ fuel →
            setById c' fuel ([5, 7, 9].erase 7)[0]? = .ok ([5, 7, 9].erase 7))
        ∧ typeOf c' ([5, 7, 9].erase 7)[0]? = .ok IdType.Head
        ∧ ∀ j x, 0 < j → ([5, 7, 9].erase 7)[j]? = some x →
            typeOf c' (some x) = .ok IdType.Tail :=
  ⟨_, _, rfl, rfl,
    remove_from_large_group _ [[5, 7, 9]] [5, 7, 9] 7
      ⟨by decide, by decide, by decide, by decide, by decide,
        chain_of_positions (by decide), by decide⟩
      (by decide) (by decide) (by decide)⟩

/-- C10: on a well-formed collection with groups `gs`, removing either member of a group
of two `[h, t]` succeeds and dissolves the group: both ids are `Not`, `setById` of the
remaining id yields that id alone, and no entry's `_prev`, `_next` or `_opposite` is the
removed id. -/
theorem remove_from_pair (c : Coll) (gs : List (List Nat)) (h t : Nat)
    (hrep : Represents c gs) (hg : [h, t] ∈ gs) :
    (∃ c', remove c (some h) = .ok c'
        ∧ typeOf c' (some h) = .ok IdType.Not ∧ typeOf c' (some t) = .ok IdType.Not
        ∧ (∀ fuel, 1 ≤ fuel → setById c' fuel (some t) = .ok [t])
        ∧ ∀ i, i < c'.length → (ent c' i)._prev ≠ some h ∧ (ent c' i)._next ≠ some h
            ∧ (ent c' i)._opposite ≠ some h)
      ∧ (∃ c', remove c (some t) = .ok c'
        ∧ typeOf c' (some h) = .ok IdType.Not ∧ typeOf c' (some t) = .ok IdType.Not
        ∧ (∀ fuel, 1 ≤ fuel → setById c' fuel (some h) = .ok [h])
        ∧ ∀ i, i < c'.length → (ent c' i)._prev ≠ some t ∧ (ent c' i)._next ≠ some t
            ∧ (ent c' i)._opposite ≠ some t) := by
  have hnd := hrep.nodup _ hg
  have hne : h ≠ t := by
    intro hh
    rw [hh] at hnd
    simp at hnd
  have hhl : h < c.length := hrep.bound _ hg h (by simp)
  have htl : t < c.length := hrep.bound _ hg t (by simp)
  have key : ∀ (k e o : Nat), [h, t][k]? = some e → o ∈ [h, t] → o ≠ e →
      (∀ x ∈ [h, t], x = e ∨ x = o) → e < c.length → o < c.length →
      ∃ c', remove c (some e) = .ok c'
        ∧ typeOf c' (some e) = .ok IdType.Not ∧ typeOf c' (some o) = .ok IdType.Not
        ∧ (∀ fuel, 1 ≤ fuel → setById c' fuel (some o) = .ok [o])
        ∧ ∀ i, i < c'.length → (ent c' i)._prev ≠ some e ∧ (ent c' i)._next ≠ some e
            ∧ (ent c' i)._opposite ≠ some e := by
    intro k e o hk ho hoe hall hel hol
    obtain ⟨c', hrem, hl, _, hnull, hsing, hframe⟩ := remove_member_two hrep hg hk rfl
    have hel' : e < c'.length := by rw [hl]; exact hel
    have hol' : o < c'.length := by rw [hl]; exact hol
    have huo : Ungrouped c' o := Or.inr (hsing o ho hoe)
    refine ⟨c', hrem, Ungrouped.typeOf_eq (Or.inl hnull) hel', huo.typeOf_eq hol',
      fun fuel hf => huo.setById_eq hol' hf, ?_⟩
    intro i hi
    by_cases hig : i ∈ [h, t]
    · rcases hall i hig with rfl | rfl
      · rw [hnull]; simp [MultiElementId.null]
      · rw [hsing i ho hoe]; simp [hoe]
    · rw [hframe i hig]
      exact hrep.no_ref hg (mem_of_getElem? hk) hig (by rw [← hl]; exact hi)
  constructor
  · obtain ⟨c', h1, h2, h3, h4, h5⟩ := key 0 h t rfl (by simp) hne.symm
      (fun x hx => by simpa using hx) hhl htl
    exact ⟨c', h1, h2, h3, h4, h5⟩
  · obtain ⟨c', h1, h2, h3, h4, h5⟩ := key 1 t h rfl (by simp) hne
      (fun x hx => by
        simp only [List.mem_cons, List.mem_singleton, List.not_mem_nil, or_false] at hx
        exact hx.symm) htl hhl
    exact ⟨c', h1, h3, h2, h4, h5⟩

/-- Witness of C10: the group `[5, 9]` of a collection of capacity ten. -/
theorem remove_from_pair_witness :
    ∃ c1, add (resize 10) (some 5) (some 9) = .ok (c1, some 5)
      ∧ (∃ c', remove c1 (some 5) = .ok c'
          ∧ typeOf c' (some 5) = .ok IdType.Not ∧ typeOf c' (some 9) = .ok IdType.Not
          ∧ (∀ fuel, 1 ≤ fuel → setById c' fuel (some 9) = .ok [9])
          ∧ ∀ i, i < c'.length → (ent c' i)._prev ≠ some 5 ∧ (ent c' i)._next ≠ some 5
              ∧ (ent c' i)._opposite ≠ some 5)
        ∧ (∃ c', remove c1 (some 9) = .ok c'
          ∧ typeOf c' (some 5) = .ok IdType.Not ∧ typeOf c' (some 9) = .ok IdType.Not
          ∧ (∀ fuel, 1 ≤ fuel → setById c' fuel (some 5) = .ok [5])
          ∧ ∀ i, i < c'.length → (ent c' i)._prev ≠ some 9 ∧ (ent c' i)._next ≠ some 9
              ∧ (ent c' i)._opposite ≠ some 9) :=
  ⟨_, rfl,
    remove_from_pair _ [[5, 9]] 5 9
      ⟨by decide, by decide, by decide, by decide, by decide,
        chain_of_positions (by decide), by decide⟩
      (by decide)⟩

/-! ## The claim about `remove` on an id that is not grouped -/

/-- C11: for every collection and every id `e` within capacity whose entry is null,
`remove(e)` succeeds and returns the collection as it was, entry for entry. -/
theorem remove_null_entry_noop (c : Coll) (e : Nat) (he : e < c.length)
    (hnull : (ent c e).isNull = true) : remove c (some e) = .ok c := by
  rw [remove_some he, if_pos hnull]

/-- Witness of C11: id 3 of a collection of ten null entries. -/
theorem remove_null_entry_noop_witness :
    (3 < (resize 10).length ∧ (ent (resize 10) 3).isNull = true)
      ∧ remove (resize 10) (some 3) = .ok (resize 10) :=
  ⟨by decide, remove_null_entry_noop (resize 10) 3 (by decide) (by decide)⟩

/-! ## The claims about the states and signals of TransformedGraph -/

/-- C12: from a State that starts `Unchanged`, `remove()` then `add()` gives `Unchanged`,
and `add()` then `remove()` gives `Unchanged`; `added()` and `removed()` are false in both
cases. -/
theorem state_opposite_calls_cancel :
    ((({} : State).remove).add = ({} : State)
        ∧ ((({} : State).remove).add).state = Value.Unchanged
        ∧ ((({} : State).remove).add).added = false
        ∧ ((({} : State).remove).add).removed = false)
      ∧ ((({} : State).add).remove = ({} : State)
        ∧ ((({} : State).add).remove).state = Value.Unchanged
        ∧ ((({} : State).add).remove).added = false
        ∧ ((({} : State).add).remove).removed = false) := by
  decide

/-- C13: whatever the previous-state snapshot, an element `x` whose state at the replay
is that of `add()` followed by `remove()` on `Unchanged`, or is `Unchanged` itself, gets
no signal from `onTargetGraphChanged`: neither `nodeAdded` nor `nodeWillBeRemoved` for a
node, neither `edgeAdded` nor `edgeWillBeRemoved` for an edge. -/
theorem replay_silent_when_net_unchanged (nodeIds edgeIds : List Nat) (tg : TransformedGraph)
    (x : Nat) :
    ((tg._nodesState x = (({} : State).add).remove ∨ tg._nodesState x = ({} : State)) →
        Signal.nodeAdded x ∉ (onTargetGraphChanged nodeIds edgeIds tg).1
          ∧ Signal.nodeWillBeRemoved x ∉ (onTargetGraphChanged nodeIds edgeIds tg).1)
      ∧ ((tg._edgesState x = (({} : State).add).remove ∨ tg._edgesState x = ({} : State)) →
        Signal.edgeAdded x ∉ (onTargetGraphChanged nodeIds edgeIds tg).1
          ∧ Signal.edgeWillBeRemoved x ∉ (onTargetGraphChanged nodeIds edgeIds tg).1) := by
  have hu : (({} : State).add).remove = ({} : State) := by decide
  constructor
  · intro h
    have hs : tg._nodesState x = ({} : State) := by
      rcases h with h | h
      · rw [h, hu]
      · exact h
    rw [nodeAdded_mem_replay, nodeWillBeRemoved_mem_replay, hs]
    exact ⟨fun hh => (by cases hh.2.2), fun hh => (by cases hh.2.2)⟩
  · intro h
    have hs : tg._edgesState x = ({} : State) := by
      rcases h with h | h
      · rw [h, hu]
      · exact h
    rw [edgeAdded_mem_replay, edgeWillBeRemoved_mem_replay, hs]
    exact ⟨fun hh => (by cases hh.2.2), fun hh => (by cases hh.2.2.2)⟩

/-- Witness of C13: node 1 and edge 1, added and then removed in the cycle and listed by
the source, with a previous snapshot that is `Unchanged` throughout. -/
theorem replay_silent_when_net_unchanged_witness :
    Signal.nodeAdded 1 ∉ (onTargetGraphChanged [0, 1] [0, 1]
        (track (track (track (track TransformedGraph.initial
          (Change.nodeAdded 1)) (Change.nodeWillBeRemoved 1)) (Change.edgeAdded 1))
          (Change.edgeWillBeRemoved 1))).1
      ∧ Signal.nodeWillBeRemoved 1 ∉ (onTargetGraphChanged [0, 1] [0, 1]
        (track (track (track (track TransformedGraph.initial
          (Change.nodeAdded 1)) (Change.nodeWillBeRemoved 1)) (Change.edgeAdded 1))
          (Change.edgeWillBeRemoved 1))).1
      ∧ Signal.edgeAdded 1 ∉ (onTargetGraphChanged [0, 1] [0, 1]
        (track (track (track (track TransformedGraph.initial
          (Change.nodeAdded 1)) (Change.nodeWillBeRemoved 1)) (Change.edgeAdded 1))
          (Change.edgeWillBeRemoved 1))).1
      ∧ Signal.edgeWillBeRemoved 1 ∉ (onTargetGraphChanged [0, 1] [0, 1]
        (track (track (track (track TransformedGraph.initial
          (Change.nodeAdded 1)) (Change.nodeWillBeRemoved 1)) (Change.edgeAdded 1))
          (Change.edgeWillBeRemoved 1))).1 :=
  ⟨((replay_silent_when_net_unchanged [0, 1] [0, 1] _ 1).1 (Or.inl rfl)).1,
    ((replay_silent_when_net_unchanged [0, 1] [0, 1] _ 1).1 (Or.inl rfl)).2,
    ((replay_silent_when_net_unchanged [0, 1] [0, 1] _ 1).2 (Or.inl rfl)).1,
    ((replay_silent_when_net_unchanged [0, 1] [0, 1] _ 1).2 (Or.inl rfl)).2⟩

/-- C14: the order of additions and edge removals in one replay.  On a TransformedGraph
whose first rebuild added the nodes 0, 1, 2 and the edge 0, a second rebuild in which
edge 0 is removed and edge 1 is added emits `edgeWillBeRemoved(0)` before `edgeAdded(1)`:
the edge loop of `onTargetGraphChanged` emits, edge by edge, either of the two signals,
so an addition can follow the removal of an edge. -/
theorem replay_edge_added_after_edge_removed :
    (rebuild [0, 1, 2] [0]
        [Change.nodeAdded 0, Change.nodeAdded 1, Change.nodeAdded 2, Change.edgeAdded 0]
        TransformedGraph.initial).1
      = [Signal.graphWillChange, Signal.nodeAdded 0, Signal.nodeAdded 1, Signal.nodeAdded 2,
          Signal.edgeAdded 0, Signal.graphChanged]
    ∧ (rebuild [0, 1, 2] [0, 1] [Change.edgeWillBeRemoved 0, Change.edgeAdded 1]
        (rebuild [0, 1, 2] [0]
          [Change.nodeAdded 0, Change.nodeAdded 1, Change.nodeAdded 2, Change.edgeAdded 0]
          TransformedGraph.initial).2).1
      = [Signal.graphWillChange, Signal.edgeWillBeRemoved 0, Signal.edgeAdded 1,
          Signal.graphChanged] := by
  decide

/-- C15: in the signals of one replay every `edgeWillBeRemoved` is emitted before every
`nodeWillBeRemoved`: the position of the one in the sequence is smaller than the
position of the other. -/
theorem replay_edge_removed_before_node_removed (nodeIds edgeIds : List Nat)
    (tg : TransformedGraph) (i j a b : Nat)
    (hi : (onTargetGraphChanged nodeIds edgeIds tg).1[i]? = some (Signal.edgeWillBeRemoved a))
    (hj : (onTargetGraphChanged nodeIds edgeIds tg).1[j]? = some (Signal.nodeWillBeRemoved b)) :
    i < j :=
  replay_edge_before_nodeRemoved hi hj

/-- Witness of C15: node 0 and the edge 0 are removed in one cycle. -/
theorem replay_edge_removed_before_node_removed_witness :
    ((onTargetGraphChanged [0] [0]
          (track (track TransformedGraph.initial
            (Change.nodeWillBeRemoved 0)) (Change.edgeWillBeRemoved 0))).1[0]?
        = some (Signal.edgeWillBeRemoved 0)
      ∧ (onTargetGraphChanged [0] [0]
          (track (track TransformedGraph.initial
            (Change.nodeWillBeRemoved 0)) (Change.edgeWillBeRemoved 0))).1[1]?
        = some (Signal.nodeWillBeRemoved 0))
      ∧ 0 < 1 :=
  ⟨⟨by decide, by decide⟩,
    replay_edge_removed_before_node_removed [0] [0]
      (track (track TransformedGraph.initial (Change.nodeWillBeRemoved 0))
        (Change.edgeWillBeRemoved 0)) 0 1 0 0 (by decide) (by decide)⟩

/-- C16: the replay emits `nodeAdded` for a node exactly when the node is listed, its
current state is `Added` and its state in the previous snapshot is not `Added`; so a node
that is `Added` in the previous snapshot gets no `nodeAdded` whatever its current state,
and neither does a node whose current state is `Unchanged`. -/
theorem nodeAdded_exactly_when_newly_added (nodeIds edgeIds : List Nat)
    (tg : TransformedGraph) (x : Nat) :
    (Signal.nodeAdded x ∈ (onTargetGraphChanged nodeIds edgeIds tg).1 ↔
        x ∈ nodeIds ∧ (tg._nodesState x).state = Value.Added
          ∧ (tg._previousNodesState x).state ≠ Value.Added)
      ∧ ((tg._previousNodesState x).state = Value.Added →
          Signal.nodeAdded x ∉ (onTargetGraphChanged nodeIds edgeIds tg).1)
      ∧ ((tg._nodesState x).state = Value.Unchanged →
          Signal.nodeAdded x ∉ (onTargetGraphChanged nodeIds edgeIds tg).1) := by
  have key : Signal.nodeAdded x ∈ (onTargetGraphChanged nodeIds edgeIds tg).1 ↔
      x ∈ nodeIds ∧ (tg._nodesState x).state = Value.Added
        ∧ (tg._previousNodesState x).state ≠ Value.Added := by
    rw [nodeAdded_mem_replay]
    simp only [State.added, decide_eq_false_iff_not, decide_eq_true_eq, ne_eq]
    tauto
  refine ⟨key, ?_, ?_⟩
  · intro hp hm
    exact (key.mp hm).2.2 hp
  · intro hc hm
    rw [(key.mp hm).2.1] at hc
    cases hc

/-- C18, as the code has it: `rebuild` reads no cancellation flag, so its signals do not
depend on `_cancelled`, and whatever the transform did before it stopped, `graphChanged`
is emitted exactly once, as the last signal. -/
theorem rebuild_emits_graphChanged_regardless (nodeIds edgeIds : List Nat)
    (changes : List Change) (tg : TransformedGraph) (cancelled : Bool) :
    (rebuild nodeIds edgeIds changes { tg with _cancelled := cancelled }).1
        = (rebuild nodeIds edgeIds changes tg).1
      ∧ (rebuild nodeIds edgeIds changes { tg with _cancelled := cancelled }).1.getLast?
        = some Signal.graphChanged
      ∧ (rebuild nodeIds edgeIds changes { tg with _cancelled := cancelled }).1.count
          Signal.graphChanged = 1 := by
  have hshape := rebuild_shape nodeIds edgeIds changes { tg with _cancelled := cancelled }
  have h2 := graphChanged_not_mem_replay nodeIds edgeIds
    (changes.foldl track { tg with _cancelled := cancelled })
  refine ⟨rebuild_ignores_cancelled nodeIds edgeIds changes tg cancelled, ?_, ?_⟩
  · rw [hshape, ← List.cons_append, List.getLast?_append]
    rfl
  · rw [hshape, List.count_cons_of_ne (by decide), List.count_append,
      List.count_eq_zero_of_not_mem h2]
    rfl

/-- Counterexample to C18: a rebuild with `_cancelled` set, whose transform stopped before
it changed anything, emits `graphWillChange` and then `graphChanged`. -/
theorem rebuild_cancelled_emits_graphChanged :
    ({ TransformedGraph.initial with _cancelled := true } : TransformedGraph)._cancelled = true
      ∧ Signal.graphChanged
          ∈ (rebuild [0] [0] [] { TransformedGraph.initial with _cancelled := true }).1 := by
  decide

/-! ## The claim about `Edge::oppositeId` -/

/-- C19: `oppositeId(n)` is `targetId` when `n` is `sourceId`, `sourceId` when `n` is
`targetId` and not `sourceId`, and the null id when `n` is neither; for a loop edge the
opposite of its endpoint is that endpoint. -/
theorem oppositeId_cases (e : Edge) (n : ElementId) :
    (n = e._sourceId → e.oppositeId n = e._targetId)
      ∧ (n ≠ e._sourceId → n = e._targetId → e.oppositeId n = e._sourceId)
      ∧ (n ≠ e._sourceId → n ≠ e._targetId → e.oppositeId n = none)
      ∧ (e.isLoop = true → e.oppositeId e._sourceId = e._sourceId
          ∧ e.oppositeId e._targetId = e._targetId) := by
  refine ⟨?_, ?_, ?_, ?_⟩
  · intro h
    simp [Edge.oppositeId, h]
  · intro h1 h2
    rw [Edge.oppositeId, if_neg h1, if_pos h2]
  · intro h1 h2
    rw [Edge.oppositeId, if_neg h1, if_neg h2]
  · intro hl
    have hst : e._sourceId = e._targetId := by simpa [Edge.isLoop] using hl
    constructor
    · simp [Edge.oppositeId, hst]
    · simp [Edge.oppositeId, hst]

/-! ## The claim about the failure reasons of the JSON parser -/

/-- C20: `parseGraphObject` returns false without a failure reason, whatever user data
and string conversions it is given, for a graph whose edge names the undeclared node
`"b"`, and for a graph whose edge has a number as its source; for a graph without an
`edges` member, for a node without an id and for an edge without a target it does set a
reason. -/
theorem parseGraphObject_silent_failures (userNodeData userEdgeData : Bool)
    (isNumeric : String → Bool) (stoi : String → Option Int) :
    parseGraphObject ⟨false, userNodeData, userEdgeData, isNumeric, stoi⟩
        (.object [("nodes", .array [.object [("id", .string "a")]]),
          ("edges", .array [.object [("source", .string "a"), ("target", .string "b")]])])
      = (.returned false, ⟨[], ["a"], []⟩)
    ∧ parseGraphObject ⟨false, userNodeData, userEdgeData, isNumeric, stoi⟩
        (.object [("nodes", .array [.object [("id", .string "a")]]),
          ("edges", .array [.object [("source", .number 0), ("target", .string "a")]])])
      = (.returned false, ⟨[], ["a"], []⟩)
    ∧ parseGraphObject ⟨false, userNodeData, userEdgeData, isNumeric, stoi⟩
        (.object [("nodes", .array [.object [("id", .string "a")]])])
      = (.returned false, ⟨["Graph doesn't contain nodes or edges arrays."], [], []⟩)
    ∧ parseGraphObject ⟨false, userNodeData, userEdgeData, isNumeric, stoi⟩
        (.object [("nodes", .array [.object [("label", .string "a")]]), ("edges", .array [])])
      = (.returned false, ⟨["Node has no ID."], [], []⟩)
    ∧ parseGraphObject ⟨false, userNodeData, userEdgeData, isNumeric, stoi⟩
        (.object [("nodes", .array [.object [("id", .string "a")]]),
          ("edges", .array [.object [("source", .string "a")]])])
      = (.returned false, ⟨["Edge has no source or target."], ["a"], []⟩) :=
  ⟨rfl, rfl, rfl, rfl, rfl⟩

/-! ## Claims about snapshots, call sequences and the largest component -/

/-- C23: after `onTargetGraphChanged` the previous-state snapshot of every node and of
every edge is the state the element had when the call began, and the current state of
every node and of every edge is `Unchanged`: `added()` and `removed()` are both false. -/
theorem onTargetGraphChanged_snapshots (nodeIds edgeIds : List Nat) (tg : TransformedGraph)
    (x : Nat) :
    ((onTargetGraphChanged nodeIds edgeIds tg).2._previousNodesState x = tg._nodesState x
      ∧ (onTargetGraphChanged nodeIds edgeIds tg).2._previousEdgesState x = tg._edgesState x)
    ∧ ((onTargetGraphChanged nodeIds edgeIds tg).2._nodesState x).state = Value.Unchanged
    ∧ ((onTargetGraphChanged nodeIds edgeIds tg).2._nodesState x).added = false
    ∧ ((onTargetGraphChanged nodeIds edgeIds tg).2._nodesState x).removed = false
    ∧ ((onTargetGraphChanged nodeIds edgeIds tg).2._edgesState x).state = Value.Unchanged
    ∧ ((onTargetGraphChanged nodeIds edgeIds tg).2._edgesState x).added = false
    ∧ ((onTargetGraphChanged nodeIds edgeIds tg).2._edgesState x).removed = false :=
  ⟨⟨rfl, rfl⟩, rfl, rfl, rfl, rfl, rfl, rfl⟩

/-- C28: a strictly alternating sequence of `add()` and `remove()` calls on a State that
starts `Unchanged` leaves `Unchanged` when its length is even, `Added` when its length is
odd and its last call is `add()`, `Removed` when its length is odd and its last call is
`remove()`; and in no State are `added()` and `removed()` both true. -/
theorem state_alternating_net_effect (cs : List StateCall) (h : cs.Chain' (· ≠ ·)) :
    (cs.length % 2 = 0 → (({} : State).calls cs).state = Value.Unchanged)
    ∧ (cs.length % 2 = 1 → cs.getLast? = some StateCall.add →
        (({} : State).calls cs).state = Value.Added)
    ∧ (cs.length % 2 = 1 → cs.getLast? = some StateCall.remove →
        (({} : State).calls cs).state = Value.Removed)
    ∧ ∀ s : State, ¬ (s.added = true ∧ s.removed = true) := by
  have hst := State.calls_alternating cs h
  refine ⟨?_, ?_, ?_, ?_⟩
  · intro hev
    rw [hst, if_pos hev]
  · intro hodd hlast
    rw [hst, if_neg (by omega), if_pos hlast]
  · intro hodd hlast
    rw [hst, if_neg (by omega), if_neg (by rw [hlast]; decide)]
  · intro s hs
    obtain ⟨h1, h2⟩ := hs
    simp only [State.added, State.removed, decide_eq_true_eq] at h1 h2
    rw [h1] at h2
    cases h2

/-- Witness of C28: the calls `remove(), add(), remove()` leave `Removed`. -/
theorem state_alternating_net_effect_witness :
    [StateCall.remove, StateCall.add, StateCall.remove].Chain' (· ≠ ·)
      ∧ (({} : State).calls [StateCall.remove, StateCall.add, StateCall.remove]).state
          = Value.Removed :=
  ⟨by simp, (state_alternating_net_effect [StateCall.remove, StateCall.add, StateCall.remove]
      (by simp)).2.2.1 rfl rfl⟩

/-- C29: `componentIdOfLargestComponent(componentIds)` is the null id when the list is
empty or every listed component has no node; otherwise it is the id `r` at the first
position of the list whose component has the largest `numNodes()` of the list: no listed
component has more nodes and every component listed before that position has fewer. -/
theorem componentIdOfLargestComponent_spec (numNodes : Nat → Nat) (componentIds : List Nat) :
    (componentIdOfLargestComponent numNodes [] = none)
    ∧ ((∀ x ∈ componentIds, numNodes x = 0) →
        componentIdOfLargestComponent numNodes componentIds = none)
    ∧ ((∃ x ∈ componentIds, numNodes x ≠ 0) →
        ∃ (i r : Nat), componentIds[i]? = some r
          ∧ componentIdOfLargestComponent numNodes componentIds = some r
          ∧ (∀ x ∈ componentIds, numNodes x ≤ numNodes r)
          ∧ ∀ (j x : Nat), j < i → componentIds[j]? = some x → numNodes x < numNodes r) := by
  refine ⟨rfl, ?_, ?_⟩
  · intro hzero
    unfold componentIdOfLargestComponent
    rw [largest_foldl_le numNodes componentIds (none, 0)
      (fun x hx => by simp only; have := hzero x hx; omega)]
  · rintro ⟨x, hx, hne⟩
    obtain ⟨i, r, hir, hfold, _, hbefore, hall⟩ :=
      largest_foldl_gt numNodes componentIds (none, 0) ⟨x, hx, by simp only; omega⟩
    refine ⟨i, r, hir, ?_, hall, hbefore⟩
    unfold componentIdOfLargestComponent
    rw [hfold]

/-! ## Further claims about the collection -/

/-- C22: in every state reached from the all-null collection of capacity `n` there are the
member sequences `gs` of the groups, the same sets as the groups of merged ids, each of at
least two ids and yielded by `setById` of its first id, such that in every group the head
entry has `_opposite` the tail id and a null `_prev`, the tail entry has `_opposite` the
head id and `_next` its own id, and every entry in between has a null `_opposite`; and
every id within capacity that is in no group has an entry that is all null or the
singleton with `_prev`, `_next` and `_opposite` its own id. -/
theorem reachable_links (n : Nat) (c : Coll) (A : List (List Nat)) (h : Reach n c A) :
    ∃ gs, SameGroups gs A
      ∧ (∀ g ∈ gs, 2 ≤ g.length
          ∧ (∀ fuel, n ≤ fuel → setById c fuel g[0]? = .ok g)
          ∧ (∀ hd tl, g.head? = some hd → g.getLast? = some tl →
              (ent c hd)._opposite = some tl ∧ (ent c hd)._prev = none
                ∧ (ent c tl)._opposite = some hd ∧ (ent c tl)._next = some tl)
          ∧ ∀ (j x : Nat), 0 < j → j + 1 < g.length → g[j]? = some x →
              (ent c x)._opposite = none)
      ∧ ∀ i, i < n → (∀ G ∈ A, i ∉ G) →
          ent c i = ⟨none, none, none⟩ ∨ ent c i = ⟨some i, some i, some i⟩ := by
  obtain ⟨hlen, gs, hrep, hsame⟩ := h.invariant
  refine ⟨gs, hsame, ?_, ?_⟩
  · intro g hg
    have h2 := hrep.two g hg
    refine ⟨h2, fun fuel hf => hrep.setById_head hg ?_, ?_, ?_⟩
    · exact le_trans (hrep.length_le hg) (by rw [hlen]; exact hf)
    · intro hd tl hhd htl
      rw [List.head?_eq_getElem?] at hhd
      rw [List.getLast?_eq_getElem?] at htl
      have e1 := hrep.chain g hg 0 hd hhd
      have e2 := hrep.chain g hg (g.length - 1) tl htl
      have hne : ¬ g.length - 1 = 0 := by omega
      have hlast : g.length - 1 + 1 = g.length := by omega
      rw [e1, e2]
      simp only [chainEntry, if_true, if_neg hne, if_pos hlast]
      exact ⟨htl, trivial, hhd, htl⟩
    · intro j x hj0 hjl hjx
      rw [hrep.chain g hg j x hjx]
      simp only [chainEntry]
      rw [if_neg (by omega), if_neg (by omega)]
  · intro i hi hnot
    have hu : Ungrouped c i := by
      apply hrep.rest i (by rw [hlen]; exact hi)
      intro g hg hig
      obtain ⟨G, hG, hgG⟩ := hsame.1 g hg
      exact hnot G hG (hgG.subset hig)
    exact hu

/-- Witness of C22: the state after `add(5, 9)` and `add(9, 7)` on a collection of
capacity ten, with the group `[5, 7, 9]`. -/
theorem reachable_links_witness :
    ∃ c1 c2, add (resize 10) (some 5) (some 9) = .ok (c1, some 5)
      ∧ add c1 (some 9) (some 7) = .ok (c2, some 7)
      ∧ ∃ gs, SameGroups gs (specAdd (specAdd [] 5 9) 9 7)
        ∧ (∀ g ∈ gs, 2 ≤ g.length
            ∧ (∀ fuel, 10 ≤ fuel → setById c2 fuel g[0]? = .ok g)
            ∧ (∀ hd tl, g.head? = some hd → g.getLast? = some tl →
                (ent c2 hd)._opposite = some tl ∧ (ent c2 hd)._prev = none
                  ∧ (ent c2 tl)._opposite = some hd ∧ (ent c2 tl)._next = some tl)
            ∧ ∀ (j x : Nat), 0 < j → j + 1 < g.length → g[j]? = some x →
                (ent c2 x)._opposite = none)
        ∧ ∀ i, i < 10 → (∀ G ∈ specAdd (specAdd [] 5 9) 9 7, i ∉ G) →
            ent c2 i = ⟨none, none, none⟩ ∨ ent c2 i = ⟨some i, some i, some i⟩ :=
  ⟨_, _, rfl, rfl,
    reachable_links 10 _ _
      (Reach.add
        (Reach.add Reach.init (s := 5) (e := 9) (by decide) (by decide) (by decide)
          (by decide) rfl)
        (s := 9) (e := 7) (by decide) (by decide) (by decide) (by decide) rfl)⟩

/-- C25: on a well-formed collection no call within its precondition faults: `add(s, e)`
for ids `s ≠ e` within capacity with `e` ungrouped or a singleton, and `remove(e)` and
`typeOf(e)` for an id `e` within capacity, return a result, so that no `Q_ASSERT` of theirs
fails and every index they form is a non-null id inside the vector. -/
theorem calls_do_not_fault (c : Coll) (hwf : WellFormed c) :
    (∀ s e, s < c.length → e < c.length → s ≠ e → Free c e →
        ∃ c' r, add c (some s) (some e) = .ok (c', r))
      ∧ (∀ e, e < c.length → ∃ c', remove c (some e) = .ok c')
      ∧ ∀ e, e < c.length → ∃ t, typeOf c (some e) = .ok t := by
  obtain ⟨gs, hrep⟩ := hwf
  refine ⟨?_, ?_, ?_⟩
  · intro s e hs he hne hfe
    have heg := hrep.not_mem_of_free hfe
    by_cases hsg : ∃ g ∈ gs, s ∈ g
    · obtain ⟨g, hg, hsm⟩ := hsg
      obtain ⟨k, hk⟩ := List.mem_iff_getElem?.mp hsm
      obtain ⟨c', hadd, _⟩ := add_member hrep hg hk he heg
      exact ⟨c', _, hadd⟩
    · push_neg at hsg
      obtain ⟨c', hadd, _⟩ := add_fresh hrep hne hs he hsg heg
      exact ⟨c', _, hadd⟩
  · intro e he
    by_cases heg : ∃ g ∈ gs, e ∈ g
    · obtain ⟨g, hg, hem⟩ := heg
      obtain ⟨k, hk⟩ := List.mem_iff_getElem?.mp hem
      by_cases h3 : 3 ≤ g.length
      · obtain ⟨c', hrem, _⟩ := remove_member_big hrep hg hk h3
        exact ⟨c', hrem⟩
      · have h2 : g.length = 2 := by have := hrep.two g hg; omega
        obtain ⟨c', hrem, _⟩ := remove_member_two hrep hg hk h2
        exact ⟨c', hrem⟩
    · push_neg at heg
      obtain ⟨c', hrem, _⟩ := remove_rest hrep he heg
      exact ⟨c', hrem⟩
  · intro e he
    by_cases heg : ∃ g ∈ gs, e ∈ g
    · obtain ⟨g, hg, hem⟩ := heg
      obtain ⟨k, hk⟩ := List.mem_iff_getElem?.mp hem
      exact ⟨_, hrep.typeOf_member hg hk⟩
    · push_neg at heg
      exact ⟨_, hrep.typeOf_rest he heg⟩

/-- Witness of C25: the well-formed state with the one group `[5, 9]`. -/
theorem calls_do_not_fault_witness :
    ∃ c1, add (resize 10) (some 5) (some 9) = .ok (c1, some 5)
      ∧ (∀ s e, s < c1.length → e < c1.length → s ≠ e → Free c1 e →
          ∃ c' r, add c1 (some s) (some e) = .ok (c', r))
      ∧ (∀ e, e < c1.length → ∃ c', remove c1 (some e) = .ok c')
      ∧ ∀ e, e < c1.length → ∃ t, typeOf c1 (some e) = .ok t :=
  ⟨_, rfl,
    calls_do_not_fault _
      ⟨[[5, 9]], by decide, by decide, by decide, by decide, by decide,
        chain_of_positions (by decide), by decide⟩⟩

/-- C26: on a well-formed collection with groups `gs`, for an id `x` within capacity, a
call `add(s, e)` within its precondition with `x` neither `s` nor `e` nor in the group of
`s`, and a call `remove(e)` with `x` neither `e` nor in the group of `e`, succeed and
leave `typeOf(x)` and the sequence that iterating `setById(x)` yields as they were. -/
theorem add_remove_frame (c : Coll) (gs : List (List Nat)) (x : Nat)
    (hrep : Represents c gs) (hx : x < c.length) :
    (∀ s e, s < c.length → e < c.length → s ≠ e → Free c e → x ≠ s → x ≠ e →
        (∀ g ∈ gs, s ∈ g → x ∉ g) →
        ∃ c' r, add c (some s) (some e) = .ok (c', r)
          ∧ (∃ t, typeOf c' (some x) = .ok t ∧ typeOf c (some x) = .ok t)
          ∧ ∃ l, ∀ fuel, c.length ≤ fuel →
              setById c' fuel (some x) = .ok l ∧ setById c fuel (some x) = .ok l)
      ∧ (∀ e, e < c.length → x ≠ e → (∀ g ∈ gs, e ∈ g → x ∉ g) →
        ∃ c', remove c (some e) = .ok c'
          ∧ (∃ t, typeOf c' (some x) = .ok t ∧ typeOf c (some x) = .ok t)
          ∧ ∃ l, ∀ fuel, c.length ≤ fuel →
              setById c' fuel (some x) = .ok l ∧ setById c fuel (some x) = .ok l) := by
  constructor
  · intro s e hs he hne hfe hxs hxe hxg
    have heg := hrep.not_mem_of_free hfe
    by_cases hsg : ∃ g ∈ gs, s ∈ g
    · obtain ⟨g, hg, hsm⟩ := hsg
      obtain ⟨k, hk⟩ := List.mem_iff_getElem?.mp hsm
      obtain ⟨c', hadd, hl, hr⟩ := add_member hrep hg hk he heg
      have hxnot : x ∉ g := hxg g hg hsm
      have hobs := hrep.observe_congr hr hl hx (fun a hxa => by
        rw [List.mem_cons, mem_filter_ne]
        constructor
        · intro ha
          exact Or.inr ⟨ha, fun hh => hxnot (hh ▸ hxa)⟩
        · rintro (rfl | ⟨ha, _⟩)
          · rcases (mem_insAt _ _ _ _).mp hxa with hh | hh
            · exact absurd hh hxe
            · exact absurd hh hxnot
          · exact ha)
      exact ⟨c', _, hadd, hobs.1, hobs.2.1⟩
    · push_neg at hsg
      obtain ⟨c', hadd, hl, hr⟩ := add_fresh hrep hne hs he hsg heg
      have hobs := hrep.observe_congr hr hl hx (fun a hxa => by
        rw [List.mem_cons]
        constructor
        · intro ha
          exact Or.inr ha
        · rintro (rfl | ha)
          · have hh := (perm_minmax s e).subset hxa
            simp only [List.mem_cons, List.mem_singleton, List.not_mem_nil, or_false] at hh
            rcases hh with hh | hh
            · exact absurd hh hxs
            · exact absurd hh hxe
          · exact ha)
      exact ⟨c', _, hadd, hobs.1, hobs.2.1⟩
  · intro e he hxe hxg
    by_cases heg : ∃ g ∈ gs, e ∈ g
    · obtain ⟨g, hg, hem⟩ := heg
      obtain ⟨k, hk⟩ := List.mem_iff_getElem?.mp hem
      have hxnot : x ∉ g := hxg g hg hem
      by_cases h3 : 3 ≤ g.length
      · obtain ⟨c', hrem, hl, hr, _⟩ := remove_member_big hrep hg hk h3
        have hobs := hrep.observe_congr hr hl hx (fun a hxa => by
          rw [List.mem_cons, mem_filter_ne]
          constructor
          · intro ha
            exact Or.inr ⟨ha, fun hh => hxnot (hh ▸ hxa)⟩
          · rintro (rfl | ⟨ha, _⟩)
            · exact absurd (mem_of_mem_eraseIdx' hxa) hxnot
            · exact ha)
        exact ⟨c', hrem, hobs.1, hobs.2.1⟩
      · have h2 : g.length = 2 := by have := hrep.two g hg; omega
        obtain ⟨c', hrem, hl, hr, _⟩ := remove_member_two hrep hg hk h2
        have hobs := hrep.observe_congr hr hl hx (fun a hxa => by
          rw [mem_filter_ne]
          constructor
          · intro ha
            exact ⟨ha, fun hh => hxnot (hh ▸ hxa)⟩
          · rintro ⟨ha, _⟩
            exact ha)
        exact ⟨c', hrem, hobs.1, hobs.2.1⟩
    · push_neg at heg
      obtain ⟨c', hrem, hl, hr, _⟩ := remove_rest hrep he heg
      have hobs := hrep.observe_congr hr hl hx (fun a _ => Iff.rfl)
      exact ⟨c', hrem, hobs.1, hobs.2.1⟩

/-- Witness of C26: the state with the groups `[5, 9]` and `[2, 3]`, seen from the id 3. -/
theorem add_remove_frame_witness :
    ∃ c1 c2, add (resize 10) (some 5) (some 9) = .ok (c1, some 5)
      ∧ add c1 (some 2) (some 3) = .ok (c2, some 2)
      ∧ (∃ c' r, add c2 (some 9) (some 7) = .ok (c', r)
          ∧ (∃ t, typeOf c' (some 3) = .ok t ∧ typeOf c2 (some 3) = .ok t)
          ∧ ∃ l, ∀ fuel, c2.length ≤ fuel →
              setById c' fuel (some 3) = .ok l ∧ setById c2 fuel (some 3) = .ok l)
      ∧ ∃ c', remove c2 (some 5) = .ok c'
          ∧ (∃ t, typeOf c' (some 3) = .ok t ∧ typeOf c2 (some 3) = .ok t)
          ∧ ∃ l, ∀ fuel, c2.length ≤ fuel →
              setById c' fuel (some 3) = .ok l ∧ setById c2 fuel (some 3) = .ok l :=
  ⟨_, _, rfl, rfl,
    (add_remove_frame _ [[2, 3], [5, 9]] 3
      ⟨by decide, by decide, by decide, by decide, by decide,
        chain_of_positions (by decide), by decide⟩ (by decide)).1 9 7
      (by decide) (by decide) (by decide) (by decide) (by decide) (by decide) (by decide),
    (add_remove_frame _ [[2, 3], [5, 9]] 3
      ⟨by decide, by decide, by decide, by decide, by decide,
        chain_of_positions (by decide), by decide⟩ (by decide)).2 5
      (by decide) (by decide) (by decide)⟩

/-- C27: on a well-formed collection, for a `setId` within capacity and an `elementId`
within capacity, ungrouped and different from it, `add(setId, elementId)` followed by
`remove(elementId)` succeeds and gives a vector in which, for every id `x` within
capacity, `typeOf(x)` and the sequence that iterating `setById(x)` yields are those from
before the `add`; the entry of `x` is the same too, unless `x` is ungrouped before and
after, where it may be null at one time and the singleton at the other. -/
theorem remove_undoes_add (c : Coll) (s e : Nat) (hwf : WellFormed c) (hs : s < c.length)
    (he : e < c.length) (hne : s ≠ e) (hfe : Free c e) :
    ∃ c' r c'', add c (some s) (some e) = .ok (c', r) ∧ remove c' (some e) = .ok c''
      ∧ c''.length = c.length
      ∧ ∀ x, x < c.length →
          (∃ t, typeOf c'' (some x) = .ok t ∧ typeOf c (some x) = .ok t)
          ∧ (∃ l, ∀ fuel, c.length ≤ fuel →
              setById c'' fuel (some x) = .ok l ∧ setById c fuel (some x) = .ok l)
          ∧ (ent c'' x = ent c x ∨ (Ungrouped c x ∧ Ungrouped c'' x)) := by
  obtain ⟨gs, hrep⟩ := hwf
  obtain ⟨c', r, c'', gs'', hadd, hrem, hl, hr, hsame⟩ := add_then_remove hrep hs he hne hfe
  exact ⟨c', r, c'', hadd, hrem, hl, fun x hx =>
    hrep.observe_congr hr hl hx (fun a _ => hsame a)⟩

/-- Witness of C27: `add(9, 7)` and `remove(7)` on the state with the one group `[5, 9]`. -/
theorem remove_undoes_add_witness :
    ∃ c1, add (resize 10) (some 5) (some 9) = .ok (c1, some 5)
      ∧ ∃ c' r c'', add c1 (some 9) (some 7) = .ok (c', r) ∧ remove c' (some 7) = .ok c''
        ∧ c''.length = c1.length
        ∧ ∀ x, x < c1.length →
            (∃ t, typeOf c'' (some x) = .ok t ∧ typeOf c1 (some x) = .ok t)
            ∧ (∃ l, ∀ fuel, c1.length ≤ fuel →
                setById c'' fuel (some x) = .ok l ∧ setById c1 fuel (some x) = .ok l)
            ∧ (ent c'' x = ent c1 x ∨ (Ungrouped c1 x ∧ Ungrouped c'' x)) :=
  ⟨_, rfl,
    remove_undoes_add _ 9 7
      ⟨[[5, 9]], by decide, by decide, by decide, by decide, by decide,
        chain_of_positions (by decide), by decide⟩
      (by decide) (by decide) (by decide) (by decide)⟩

/-! ## The claim about the visible counts -/

/-- C21: when `cancelled()` gives true at the start of an iteration of the PageRank loop,
`calculatePageRank` returns there: that poll is the last thing the run does,
`createAttribute` is not reached, and the attributes of the graph model, "Node PageRank"
among them, are those from before the call. -/
theorem calculatePageRank_cancelled {F : Type} (env : PageRankEnv F) (target : PageRankTarget)
    (cancelled : Nat → Bool) (attributes : Attributes F)
    (h : PageRankEvent.cancelled true
      ∈ (calculatePageRank env target cancelled attributes).events) :
    (calculatePageRank env target cancelled attributes).events.getLast?
        = some (PageRankEvent.cancelled true)
      ∧ PageRankEvent.createAttribute
        ∉ (calculatePageRank env target cancelled attributes).events
      ∧ (calculatePageRank env target cancelled attributes).attributes = attributes := by
  obtain ⟨new, hq, hres⟩ := calculatePageRank_cases env target cancelled attributes
  rcases hres with ⟨hev, hattr⟩ | ⟨hev, _⟩
  · refine ⟨?_, ?_, hattr⟩
    · rw [hev, List.getLast?_append]
      rfl
    · rw [hev]
      intro hmem
      rcases List.mem_cons.mp hmem with hh | hh
      · cases hh
      · rcases List.mem_append.mp hh with hh | hh
        · exact (hq _ hh).2 rfl
        · rw [List.mem_singleton] at hh
          cases hh
  · rw [hev] at h
    rcases List.mem_cons.mp h with hh | hh
    · cases hh
    · rcases List.mem_append.mp hh with hh | hh
      · exact absurd rfl (hq _ hh).1
      · rw [List.mem_singleton] at hh
        cases hh

/-- Witness of C21: integer arithmetic in place of `float`, a graph of one component with
the nodes 0 and 1 joined by the edge 0, and `cancelled()` true at the second iteration. -/
theorem calculatePageRank_cancelled_witness :
    (calculatePageRank (F := Int)
        { zero := 0, one := 1, floatMax := 1000, add := fun a b => a + b,
          sub := fun a b => a - b, mul := fun a b => a * b, div := fun a b => a / b,
          abs := fun a => |a|, max := fun a b => max a b, ofInt := fun i => i,
          gt := fun a b => decide (b < a), PAGERANK_EPSILON := -1,
          PAGERANK_ITERATION_LIMIT := 5, PAGERANK_ACCELERATION_MINIMUM := -1,
          PAGERANK_DAMPING := 1, AVG_COUNT := 10 }
        { components := [[0, 1]], edgeIdsForNodeId := fun _ => [0],
          edgeById := fun _ => ⟨some 0, some 0, some 1⟩, degree := fun _ => 1 }
        (fun k => decide (k = 1)) (fun _ => none)).events
      = [PageRankEvent.setPhase PageRankPhase.pageRank, PageRankEvent.cancelled false,
          PageRankEvent.setPhase (PageRankPhase.pageRankIteration 1),
          PageRankEvent.cancelled true]
    ∧ (calculatePageRank (F := Int)
        { zero := 0, one := 1, floatMax := 1000, add := fun a b => a + b,
          sub := fun a b => a - b, mul := fun a b => a * b, div := fun a b => a / b,
          abs := fun a => |a|, max := fun a b => max a b, ofInt := fun i => i,
          gt := fun a b => decide (b < a), PAGERANK_EPSILON := -1,
          PAGERANK_ITERATION_LIMIT := 5, PAGERANK_ACCELERATION_MINIMUM := -1,
          PAGERANK_DAMPING := 1, AVG_COUNT := 10 }
        { components := [[0, 1]], edgeIdsForNodeId := fun _ => [0],
          edgeById := fun _ => ⟨some 0, some 0, some 1⟩, degree := fun _ => 1 }
        (fun k => decide (k = 1)) (fun _ => none)).attributes = fun _ => none :=
  ⟨by decide,
    (calculatePageRank_cancelled _ _ _ _ (by decide)).2.2⟩

end Graphia
